import Mathlib

/-!
Shallow embedding of the BetterLooksmax plugin-runtime core
(PluginRegistry, PluginLoader, HookSystem, SettingsStore, LifecycleManager,
IPCManager, FrameworkCore) together with proofs about the behaviour of the
embedded operations.

Modelling conventions:
* JavaScript `Map` objects are modelled as association lists in insertion
  order (`aset` = `Map.set`, `aget` = `Map.get`, `adel` = `Map.delete`);
  a JS `Map` iterates in insertion order, which the list order captures.
* JS values relevant to the settings machinery are modelled by the
  inductive `JSVal`; numbers are modelled as integers (all numeric values
  appearing in the verified claims are integers).
* Asynchronous lifecycle hooks of a module (`init`/`start`/`stop`/...)
  are modelled by their awaited outcome: absent, success, or a thrown
  error message.  The runtime is single-threaded with cooperative
  scheduling, so a sequence of awaited calls is modelled by sequential
  composition.
* Side effects that leave a component (persistence scheduling, storage
  writes, watcher and hook-bus notifications, console warnings) are
  modelled as an explicit effect trace.
-/

set_option linter.unusedVariables false

namespace Blx

/-- `Map.set` of a JS `Map`: update an existing key in place, otherwise
append the new binding at the end. -/
def aset {κ α : Type} [DecidableEq κ] (l : List (κ × α)) (k : κ) (v : α) : List (κ × α) :=
  match l with
  | [] => [(k, v)]
  | (k', v') :: t => if k' = k then (k, v) :: t else (k', v') :: aset t k v

/-- `Map.get` of a JS `Map`: the value bound to the first occurrence of the
key, if any. -/
def aget {κ α : Type} [DecidableEq κ] (l : List (κ × α)) (k : κ) : Option α :=
  match l with
  | [] => none
  | (k', v') :: t => if k' = k then some v' else aget t k

/-- `Map.delete` of a JS `Map`: remove the binding of the key (the first
occurrence), keeping the order of the remaining bindings. -/
def adel {κ α : Type} [DecidableEq κ] (l : List (κ × α)) (k : κ) : List (κ × α) :=
  match l with
  | [] => []
  | (k', v') :: t => if k' = k then t else (k', v') :: adel t k

/-- Keys of an association list, in order. -/
def akeys {κ α : Type} (l : List (κ × α)) : List κ := l.map Prod.fst

theorem aget_aset_self {κ α : Type} [DecidableEq κ] (l : List (κ × α)) (k : κ) (v : α) :
    aget (aset l k v) k = some v := by
  induction l with
  | nil => simp [aset, aget]
  | cons h t ih =>
      obtain ⟨k', v'⟩ := h
      by_cases hk : k' = k
      · simp [aset, aget, hk]
      · simp [aset, aget, hk, ih]

theorem aget_aset_ne {κ α : Type} [DecidableEq κ] (l : List (κ × α)) (k k' : κ) (v : α)
    (h : k' ≠ k) : aget (aset l k v) k' = aget l k' := by
  have h' : k ≠ k' := Ne.symm h
  induction l with
  | nil => simp [aset, aget, h']
  | cons hd t ih =>
      obtain ⟨k₀, v₀⟩ := hd
      by_cases hk : k₀ = k
      · subst hk
        simp [aset, aget, h']
      · simp [aset, aget, hk, ih]

theorem aget_eq_none_iff {κ α : Type} [DecidableEq κ] (l : List (κ × α)) (k : κ) :
    aget l k = none ↔ k ∉ akeys l := by
  induction l with
  | nil => simp [aget, akeys]
  | cons hd t ih =>
      obtain ⟨k', v'⟩ := hd
      by_cases hk : k' = k
      · subst hk
        simp [aget, akeys]
      · simp [aget, akeys, hk, ih, Ne.symm hk]

theorem adel_of_not_mem {κ α : Type} [DecidableEq κ] (l : List (κ × α)) (k : κ)
    (h : k ∉ akeys l) : adel l k = l := by
  induction l with
  | nil => rfl
  | cons hd t ih =>
      obtain ⟨k', v'⟩ := hd
      simp only [akeys, List.map_cons, List.mem_cons, not_or] at h
      have hk : k' ≠ k := Ne.symm h.1
      simp [adel, hk, ih (by simpa [akeys] using h.2)]

theorem akeys_aset_of_mem {κ α : Type} [DecidableEq κ] (l : List (κ × α)) (k : κ) (v : α)
    (h : k ∈ akeys l) : akeys (aset l k v) = akeys l := by
  induction l with
  | nil => simp [akeys] at h
  | cons hd t ih =>
      obtain ⟨k', v'⟩ := hd
      by_cases hk : k' = k
      · simp [aset, hk, akeys]
      · simp only [akeys, List.map_cons, List.mem_cons] at h
        rcases h with h | h
        · exact absurd h.symm hk
        · have := ih (by simpa [akeys] using h)
          simp only [akeys, List.map_cons] at this ⊢
          simp [aset, hk, this]

theorem akeys_aset_of_not_mem {κ α : Type} [DecidableEq κ] (l : List (κ × α)) (k : κ) (v : α)
    (h : k ∉ akeys l) : akeys (aset l k v) = akeys l ++ [k] := by
  induction l with
  | nil => simp [aset, akeys]
  | cons hd t ih =>
      obtain ⟨k', v'⟩ := hd
      simp only [akeys, List.map_cons, List.mem_cons, not_or] at h
      have hk : k' ≠ k := Ne.symm h.1
      have := ih (by simpa [akeys] using h.2)
      simp only [akeys, List.map_cons] at this ⊢
      simp [aset, hk, this]

theorem aget_mem_of_eq_some {κ α : Type} [DecidableEq κ] (l : List (κ × α)) (k : κ) (v : α)
    (h : aget l k = some v) : (k, v) ∈ l := by
  induction l with
  | nil => simp [aget] at h
  | cons hd t ih =>
      obtain ⟨k', v'⟩ := hd
      by_cases hk : k' = k
      · subst hk
        simp only [aget, if_pos rfl, Option.some.injEq, eq_self_iff_true, if_true] at h
        rw [← h]
        exact List.mem_cons_self _ _
      · simp only [aget, if_neg hk] at h
        exact List.mem_cons_of_mem _ (ih h)

theorem aget_eq_some_of_mem {κ α : Type} [DecidableEq κ] (l : List (κ × α)) (k : κ) (v : α)
    (hnd : (akeys l).Nodup) (h : (k, v) ∈ l) : aget l k = some v := by
  induction l with
  | nil => simp at h
  | cons hd t ih =>
      obtain ⟨k', v'⟩ := hd
      simp only [akeys, List.map_cons, List.nodup_cons] at hnd
      rcases List.mem_cons.mp h with h | h
      · injection h with hk hv
        subst hk
        subst hv
        simp [aget]
      · have hk : k' ≠ k := by
          intro hkk
          subst hkk
          exact hnd.1 (List.mem_map.mpr ⟨(k', v), h, rfl⟩)
        simp [aget, hk, ih hnd.2 h]

/-- JS values as used by the settings machinery.  Numbers are modelled as
integers. -/
inductive JSVal where
  | vNull
  | vUndef
  | vBool (b : Bool)
  | vNum (n : Int)
  | vStr (s : String)
  | vArr (elems : List JSVal)
  | vObj (fields : List (String × JSVal))

/-- JS strict equality `===` restricted to the cases the embedding needs:
value equality on primitives; arrays and objects compare by reference, so
two separately constructed object values are never `===` and the model
returns `false` for them. -/
def jsEq : JSVal → JSVal → Bool
  | .vNull, .vNull => true
  | .vUndef, .vUndef => true
  | .vBool a, .vBool b => a == b
  | .vNum a, .vNum b => a == b
  | .vStr a, .vStr b => a == b
  | _, _ => false

/-- JS truthiness of a value. -/
def JSVal.truthy : JSVal → Bool
  | .vNull => false
  | .vUndef => false
  | .vBool b => b
  | .vNum n => n ≠ 0
  | .vStr s => s ≠ ""
  | .vArr _ => true
  | .vObj _ => true

def JSVal.isBool : JSVal → Bool
  | .vBool _ => true
  | _ => false

def JSVal.isStr : JSVal → Bool
  | .vStr _ => true
  | _ => false

def JSVal.isNum : JSVal → Bool
  | .vNum _ => true
  | _ => false

def JSVal.isArr : JSVal → Bool
  | .vArr _ => true
  | _ => false

/-- JS `typeof value === 'object' && value !== null`: arrays and plain
objects qualify, `null` does not. -/
def JSVal.isObjLike : JSVal → Bool
  | .vObj _ => true
  | .vArr _ => true
  | _ => false

/-! ### HookSystem

Embedding of the `HookSystem` class (priority-based event emitter).
A handler is modelled by the awaited outcome of calling it on the context
data (`run`), together with a predicate telling whether the handler invokes
`context.cancel()` while it runs (`callsCancel`).  Handlers cannot mutate
the hook table themselves; the only table mutation during an emission is
the removal of `once` handlers, which the source performs in the `finally`
block after all priority groups ran. -/

/-- Outcome of awaiting a hook handler: the returned value (`none` models
`undefined`) or a thrown error message. -/
abbrev HandlerOutcome := Except String (Option JSVal)

/-- A handler entry (source: the object built in `HookSystem.register`).
The JS `Symbol('handler')` identity token is modelled by a numeric id drawn
from a fresh-id counter held in the hook system. -/
structure HookEntry where
  run : JSVal → HandlerOutcome
  callsCancel : JSVal → Bool
  priority : Int
  once : Bool
  plugin : Option String
  id : Nat

structure HookSystem where
  hooks : List (String × List HookEntry)
  pluginHooks : List (String × List (String × Nat))
  nextId : Nat

/-- Stable insertion of an entry into a priority-sorted handler list: the
new entry goes after all entries of smaller-or-equal priority. -/
def insertEntry : List HookEntry → HookEntry → List HookEntry
  | [], e => [e]
  | x :: xs, e => if x.priority ≤ e.priority then x :: insertEntry xs e else e :: x :: xs

/-- JS `handlers.sort((a, b) => a.priority - b.priority)`: a stable sort by
ascending priority, modelled by stable insertion sort. -/
def sortByPriority (l : List HookEntry) : List HookEntry := l.foldl insertEntry []

/-- `HookSystem.register`: append the entry, re-sort the handler list by
priority (stable), and track the registration under its owning plugin. -/
def HookSystem.register (hs : HookSystem) (hookName : String) (hrun : JSVal → HandlerOutcome)
    (hcancel : JSVal → Bool) (priority : Int) (once : Bool) (plugin : Option String) :
    HookSystem :=
  let entry : HookEntry := ⟨hrun, hcancel, priority, once, plugin, hs.nextId⟩
  let handlers := (aget hs.hooks hookName).getD []
  let hooks := aset hs.hooks hookName (sortByPriority (handlers ++ [entry]))
  let pluginHooks :=
    match plugin with
    | none => hs.pluginHooks
    | some p => aset hs.pluginHooks p (((aget hs.pluginHooks p).getD []) ++ [(hookName, hs.nextId)])
  ⟨hooks, pluginHooks, hs.nextId + 1⟩

/-- `HookSystem._unregister`: remove the handler with the given identity
token from the hook's list (first match), clean up the plugin-tracking
entry of the removed handler, and drop the hook's key when its handler
list becomes empty. -/
def HookSystem.unregisterById (hs : HookSystem) (hookName : String) (handlerId : Nat) :
    HookSystem :=
  match aget hs.hooks hookName with
  | none => hs
  | some handlers =>
    match handlers.find? (fun h => h.id == handlerId) with
    | none =>
        if handlers.isEmpty then { hs with hooks := adel hs.hooks hookName } else hs
    | some removed =>
        let handlers' := handlers.eraseP (fun h => h.id == handlerId)
        let pluginHooks :=
          match removed.plugin with
          | none => hs.pluginHooks
          | some p =>
            match aget hs.pluginHooks p with
            | none => hs.pluginHooks
            | some lst =>
                aset hs.pluginHooks p
                  (lst.eraseP (fun hn => hn.1 == hookName && hn.2 == handlerId))
        let hooks :=
          if handlers'.isEmpty then adel hs.hooks hookName
          else aset hs.hooks hookName handlers'
        ⟨hooks, pluginHooks, hs.nextId⟩

/-- The `forEach` loop inside `HookSystem.unregisterPlugin`.  ECMAScript
`Array.prototype.forEach` fixes the number of indices to walk at the call
(`fuel` counts the remaining ones) and at each index `k` visits the element
currently stored at `k` in the live array — which `_unregister` splices in
place — skipping `k` once the array has shrunk below it. -/
def HookSystem.unregForEach (pluginId : String) : HookSystem → Nat → Nat → HookSystem
  | hs, _, 0 => hs
  | hs, k, f + 1 =>
      let cur := (aget hs.pluginHooks pluginId).getD []
      if k < cur.length then
        let e := cur.getD k ("", 0)
        HookSystem.unregForEach pluginId (hs.unregisterById e.1 e.2) (k + 1) f
      else HookSystem.unregForEach pluginId hs (k + 1) f

/-- `HookSystem.unregisterPlugin`: `forEach` over the plugin's live
tracking array (each `_unregister` splices the visited entry out of that
same array, so the walk skips the entry that slides into the visited
slot), then drop the tracking key. -/
def HookSystem.unregisterPlugin (hs : HookSystem) (pluginId : String) : HookSystem :=
  match aget hs.pluginHooks pluginId with
  | none => hs
  | some lst =>
      let hs' := HookSystem.unregForEach pluginId hs 0 lst.length
      { hs' with pluginHooks := adel hs'.pluginHooks pluginId }

/-- The elements at even positions of a list: exactly the entries the
`forEach`/splice interaction in `unregisterPlugin` ends up visiting. -/
def evens {α : Type} : List α → List α
  | [] => []
  | [a] => [a]
  | a :: _ :: t => a :: evens t

def HookSystem.getPluginHooks (hs : HookSystem) (pluginId : String) : List (String × Nat) :=
  (aget hs.pluginHooks pluginId).getD []

def HookSystem.hasHandlers (hs : HookSystem) (hookName : String) : Bool :=
  match aget hs.hooks hookName with
  | none => false
  | some handlers => !handlers.isEmpty

/-- Stable insertion used to model the numeric sort of the distinct
priority keys. -/
def insertInt : List Int → Int → List Int
  | [], n => [n]
  | x :: xs, n => if x ≤ n then x :: insertInt xs n else n :: x :: xs

def sortInts (l : List Int) : List Int := l.foldl insertInt []

/-- `HookSystem._groupByPriority`: group the handlers by priority (a JS Map
in first-occurrence order) and return the groups sorted by ascending
priority.  The priority keys are distinct, so the numeric sort determines
the group order uniquely and within a group the original handler order is
kept. -/
def groupByPriority (handlers : List HookEntry) : List (List HookEntry) :=
  let keys := (handlers.map (fun h => h.priority)).dedup
  let sortedKeys := sortInts keys
  sortedKeys.map (fun p => handlers.filter (fun h => h.priority == p))

/-- Mutable state of one `emit` call: the value being threaded through the
groups, the cancellation flag, the once-handlers marked for removal, and a
ghost trace recording, for each executed handler, its identity token and
the `context.data` it observed. -/
structure EmitSt where
  currentData : JSVal
  cancelled : Bool
  toRemove : List Nat
  trace : List (Nat × JSVal)

/-- One handler step on the sequential (`parallel:false`) path.  `ctx` is
the `context.data` of the enclosing priority group: the source creates one
`context` object per group, so every handler of the group observes the
value the group started with, while `currentData` is updated after each
handler returning a defined value.  A throwing handler is caught and (on
this path) not marked for `once` removal. -/
def runSeqEntry (cancelable : Bool) (ctx : JSVal) (acc : EmitSt) (e : HookEntry) : EmitSt :=
  if acc.cancelled && cancelable then acc
  else
    let acc := { acc with trace := acc.trace ++ [(e.id, ctx)] }
    let acc :=
      match e.run ctx with
      | .ok r =>
          { acc with
            currentData := (match r with | some v => v | none => acc.currentData),
            toRemove := if e.once then acc.toRemove ++ [e.id] else acc.toRemove }
      | .error _ => acc
    { acc with cancelled := acc.cancelled || (cancelable && e.callsCancel ctx) }

/-- Bookkeeping of one handler on the parallel path: record the trace
entry, the possible `cancel()` call, and mark `once` handlers for removal
(the source marks them regardless of fulfilment or rejection). -/
def runParEntryMark (cancelable : Bool) (ctx : JSVal) (acc : EmitSt) (e : HookEntry) : EmitSt :=
  { acc with
    trace := acc.trace ++ [(e.id, ctx)],
    cancelled := acc.cancelled || (cancelable && e.callsCancel ctx),
    toRemove := if e.once then acc.toRemove ++ [e.id] else acc.toRemove }

/-- Execution of one priority group.  On the parallel path all handlers of
the group run on the group's context and the last fulfilled defined value
(in group order, as collected by `Promise.allSettled`) becomes the new
current data.  On the sequential path the handlers run one by one with a
cancellation check before each. -/
def runGroup (parallel cancelable : Bool) (acc : EmitSt) (group : List HookEntry) : EmitSt :=
  if acc.cancelled && cancelable then acc
  else
    let ctx := acc.currentData
    if parallel then
      let acc := group.foldl (runParEntryMark cancelable ctx) acc
      let lastSuccess :=
        (group.filterMap (fun e =>
          match e.run ctx with
          | .ok (some v) => some v
          | _ => none)).getLast?
      match lastSuccess with
      | some v => { acc with currentData := v }
      | none => acc
    else
      group.foldl (runSeqEntry cancelable ctx) acc

/-- Result of `HookSystem.emit`, including the updated hook table (after
removal of `once` handlers) and the ghost execution trace. -/
structure EmitResult where
  data : JSVal
  cancelled : Bool
  st : HookSystem
  trace : List (Nat × JSVal)

/-- `HookSystem.emit`: with no registered handlers the input data is
returned unchanged; otherwise the priority groups run sequentially and the
`once` handlers marked during the emission are unregistered at the end. -/
def HookSystem.emit (hs : HookSystem) (hookName : String) (data : JSVal)
    (parallel cancelable : Bool) : EmitResult :=
  match aget hs.hooks hookName with
  | none => ⟨data, false, hs, []⟩
  | some handlers =>
    if handlers.isEmpty then ⟨data, false, hs, []⟩
    else
      let groups := groupByPriority handlers
      let s := groups.foldl (runGroup parallel cancelable) ⟨data, false, [], []⟩
      let hs' := s.toRemove.foldl (fun acc i => acc.unregisterById hookName i) hs
      ⟨s.currentData, s.cancelled, hs', s.trace⟩

/-- `HookSystem.filter`: sequential emission, returning the threaded data. -/
def HookSystem.filter (hs : HookSystem) (hookName : String) (initialData : JSVal) :
    JSVal × HookSystem :=
  let r := hs.emit hookName initialData false false
  (r.data, r.st)

/-- `HookSystem.action`: parallel emission, result ignored. -/
def HookSystem.action (hs : HookSystem) (hookName : String) (data : JSVal) : HookSystem :=
  (hs.emit hookName data true false).st

/-- The hook system of the C5 scenario: three handlers registered on the
same hook in this order, with priorities 10, 10, 20, none of them a
`once` handler and none calling `cancel()`. -/
def threeHandlerSys (f1 f2 f3 : JSVal → HandlerOutcome) : HookSystem :=
  ((((⟨[], [], 0⟩ : HookSystem).register "h" f1 (fun _ => false) 10 false none).register
      "h" f2 (fun _ => false) 10 false none).register "h" f3 (fun _ => false) 20 false none)

theorem threeHandlerSys_hooks (f1 f2 f3 : JSVal → HandlerOutcome) :
    (threeHandlerSys f1 f2 f3).hooks =
      [("h", [⟨f1, fun _ => false, 10, false, none, 0⟩,
              ⟨f2, fun _ => false, 10, false, none, 1⟩,
              ⟨f3, fun _ => false, 20, false, none, 2⟩])] := rfl

theorem threeHandlerSys_groups (f1 f2 f3 : JSVal → HandlerOutcome) :
    groupByPriority
        [⟨f1, fun _ => false, 10, false, none, 0⟩,
         ⟨f2, fun _ => false, 10, false, none, 1⟩,
         ⟨f3, fun _ => false, 20, false, none, 2⟩] =
      [[⟨f1, fun _ => false, 10, false, none, 0⟩,
        ⟨f2, fun _ => false, 10, false, none, 1⟩],
       [⟨f3, fun _ => false, 20, false, none, 2⟩]] := rfl

/-- C5, amended.  Emitting with parallel:=false over three handlers of
priorities 10, 10, 20 registered in that order (identity tokens 0, 1, 2)
runs the two priority-10 handlers before the priority-20 handler, in
registration order.  However, each handler receives the data as of the
START of its priority band: the second priority-10 handler observes the
original emit data `d`, not the first handler's return value `v1`; the
priority-20 handler observes `v2`, the last defined value produced by the
earlier band.  The final data is the last handler's return value and the
emission is not cancelled. -/
theorem c5_sequential_band_start_data (f1 f2 f3 : JSVal → HandlerOutcome)
    (d v1 v2 v3 : JSVal) (cancelable : Bool)
    (h1 : f1 d = .ok (some v1)) (h2 : f2 d = .ok (some v2)) (h3 : f3 v2 = .ok (some v3)) :
    (threeHandlerSys f1 f2 f3).emit "h" d false cancelable =
      ⟨v3, false, threeHandlerSys f1 f2 f3, [(0, d), (1, d), (2, v2)]⟩ := by
  have hd : ([10, 10, 20] : List Int).dedup = [10, 20] := by decide
  simp [HookSystem.emit, threeHandlerSys, HookSystem.register, sortByPriority, insertEntry,
    aget, groupByPriority, sortInts, insertInt, hd, runGroup, runSeqEntry, h1, h2, h3]

/-- Witness for `c5_sequential_band_start_data` at concrete handlers. -/
theorem c5_sequential_band_start_data_witness :
    ((fun _ => .ok (some (JSVal.vNum 1)) : JSVal → HandlerOutcome) (JSVal.vNum 0)
        = .ok (some (JSVal.vNum 1)))
    ∧ ((fun _ => .ok (some (JSVal.vNum 2)) : JSVal → HandlerOutcome) (JSVal.vNum 0)
        = .ok (some (JSVal.vNum 2)))
    ∧ ((fun _ => .ok (some (JSVal.vNum 3)) : JSVal → HandlerOutcome) (JSVal.vNum 2)
        = .ok (some (JSVal.vNum 3)))
    ∧ (threeHandlerSys (fun _ => .ok (some (JSVal.vNum 1))) (fun _ => .ok (some (JSVal.vNum 2)))
          (fun _ => .ok (some (JSVal.vNum 3)))).emit "h" (JSVal.vNum 0) false false =
        ⟨JSVal.vNum 3, false,
          threeHandlerSys (fun _ => .ok (some (JSVal.vNum 1))) (fun _ => .ok (some (JSVal.vNum 2)))
            (fun _ => .ok (some (JSVal.vNum 3))),
          [(0, JSVal.vNum 0), (1, JSVal.vNum 0), (2, JSVal.vNum 2)]⟩ :=
  ⟨rfl, rfl, rfl,
    c5_sequential_band_start_data _ _ _ (JSVal.vNum 0) (JSVal.vNum 1) (JSVal.vNum 2)
      (JSVal.vNum 3) false rfl rfl rfl⟩

/-- The concrete C5 counterexample system: handler 0 (priority 10) returns
1 on any input, handlers 1 (priority 10) and 2 (priority 20) return their
observed input unchanged. -/
def c5cxSys : HookSystem :=
  threeHandlerSys (fun _ => .ok (some (JSVal.vNum 1))) (fun v => .ok (some v))
    (fun v => .ok (some v))

/-- C5 counterexample.  Emitting 0 with parallel:=false: the second
priority-10 handler (token 1) observes input 0 (the band-start data), while
the previous handler (token 0) returned 1 — so it is false that each
handler receives the previous handler's return value as its input.  The
second conjunct records the actual return values of the three handlers on
the inputs they observed. -/
theorem c5_counterexample :
    (c5cxSys.emit "h" (JSVal.vNum 0) false false).trace.get? 1 = some (1, JSVal.vNum 0)
    ∧ ((aget c5cxSys.hooks "h").getD []).map (fun e => e.run (JSVal.vNum 0))
        = [Except.ok (some (JSVal.vNum 1)), Except.ok (some (JSVal.vNum 0)),
           Except.ok (some (JSVal.vNum 0))]
    ∧ JSVal.vNum 0 ≠ JSVal.vNum 1 := by
  refine ⟨rfl, rfl, ?_⟩
  intro h
  injection h with h
  exact absurd h (by decide)

/-- C10: emitting a hook that has no registered handlers returns the input
data unchanged with cancelled := false, leaves the hook table unchanged and
runs no handler, for any combination of the parallel and cancelable
options. -/
theorem c10_emit_without_handlers_is_identity (hs : HookSystem) (hookName : String)
    (data : JSVal) (parallel cancelable : Bool)
    (h : aget hs.hooks hookName = none ∨ aget hs.hooks hookName = some []) :
    hs.emit hookName data parallel cancelable = ⟨data, false, hs, []⟩ := by
  rcases h with h | h <;> simp [HookSystem.emit, h]

/-- Witness for `c10_emit_without_handlers_is_identity` on the empty hook
system. -/
theorem c10_emit_without_handlers_is_identity_witness :
    (aget (⟨[], [], 0⟩ : HookSystem).hooks "framework:ready" = none
      ∨ aget (⟨[], [], 0⟩ : HookSystem).hooks "framework:ready" = some [])
    ∧ (⟨[], [], 0⟩ : HookSystem).emit "framework:ready" (JSVal.vNum 7) true true
        = ⟨JSVal.vNum 7, false, ⟨[], [], 0⟩, []⟩ :=
  ⟨Or.inl rfl,
    c10_emit_without_handlers_is_identity ⟨[], [], 0⟩ "framework:ready" (JSVal.vNum 7)
      true true (Or.inl rfl)⟩

/-! ### Effects

Side effects that leave a component are recorded as an explicit trace.
`settingsSet` marks a committed `SettingsStore.set` mutation (including the
`enable`/`disable` sugar), `persistScheduled` marks `_queuePersist` (the
debounced write to persistent storage), `storageWrite` marks a direct
`StorageAdapter.set`.  Hook-bus emissions performed by the settings and
lifecycle layers are recorded as `hookAction` entries; the handlers
subscribed to those framework hooks live outside the state these claims
quantify over and are not executed by the model. -/
inductive Effect where
  | settingsSet (pluginId key : String)
  | persistScheduled
  | storageWrite
  | watcherNotify (pluginId key : String)
  | hookAction (hookName : String)
  | schemaRegistered (pluginId : String)
  | ipcSend (name : String)
  | consoleWarn (msg : String)
  | rejectPending (requestId : Nat) (msg : String)
  | clearTimeout (timerId : Nat)
  | setTimeoutStarted (timerId : Nat)
  | sendMessage (msgType action : String) (requestId : Option Nat)
  | removeListener
deriving DecidableEq, Repr

/-! ### SettingsStore

Embedding of the `SettingsStore` class.  The batch-persist timer and the
watcher table are not part of the modelled state: persistence scheduling
and watcher notification appear in the effect trace instead.  The `step`
and `section` fields of a setting definition do not influence the store
logic and are omitted from the model. -/

structure SettingDef where
  type : Option String
  default : Option JSVal
  min : Option Int
  max : Option Int
  enumVals : Option (List JSVal)
  validator : Option (JSVal → Bool)

abbrev Schema := List (String × SettingDef)

structure PluginSettingsEntry where
  enabled : JSVal
  settings : List (String × JSVal)

structure SettingsDoc where
  version : String
  core : List (String × JSVal)
  plugins : List (String × PluginSettingsEntry)

structure SettingsStore where
  settings : SettingsDoc
  schemas : List (String × Schema)

/-- JS object spread of two string-keyed objects: keys of the first in
order with values overridden by the second, then the new keys of the
second in order. -/
def objMerge (a b : List (String × JSVal)) : List (String × JSVal) :=
  b.foldl (fun acc kv => aset acc kv.1 kv.2) a

/-- `SettingsStore._getDefaults`: the schema keys with a defined default. -/
def getDefaults (schema : Schema) : List (String × JSVal) :=
  schema.foldl (fun acc kv =>
    match kv.2.default with
    | some v => aset acc kv.1 v
    | none => acc) []

/-- `SettingsStore.registerSchema`: store the schema; seed
`enabled := false` with the defaults for a never-seen plugin id, or merge
newly introduced defaults under the existing stored values.  This function
performs no persistence call. -/
def SettingsStore.registerSchema (st : SettingsStore) (pluginId : String) (schema : Schema) :
    SettingsStore :=
  let schemas := aset st.schemas pluginId schema
  let plugins :=
    match aget st.settings.plugins pluginId with
    | none =>
        aset st.settings.plugins pluginId ⟨JSVal.vBool false, getDefaults schema⟩
    | some entry =>
        aset st.settings.plugins pluginId
          ⟨entry.enabled, objMerge (getDefaults schema) entry.settings⟩
  { st with schemas := schemas, settings := { st.settings with plugins := plugins } }

/-- `SettingsStore.get`: `undefined` results are modelled by `vUndef`. -/
def SettingsStore.get (st : SettingsStore) (pluginId key : String) : JSVal :=
  if pluginId = "core" then (aget st.settings.core key).getD JSVal.vUndef
  else
    match aget st.settings.plugins pluginId with
    | none => JSVal.vUndef
    | some plugin =>
        if key = "enabled" then plugin.enabled
        else (aget plugin.settings key).getD JSVal.vUndef

/-- `SettingsStore._validate`: type check (with numeric range), enum
membership, then the custom validator's verdict. -/
def SettingsStore.validate (st : SettingsStore) (pluginId key : String) (value : JSVal) :
    Bool :=
  match aget st.schemas pluginId with
  | none => true
  | some schema =>
    match aget schema key with
    | none => true
    | some defn =>
      let typeOk :=
        match defn.type with
        | none => true
        | some t =>
          if t = "boolean" then value.isBool
          else if t = "string" then value.isStr
          else if t = "number" then
            match value with
            | .vNum n =>
                (match defn.min with | some m => decide (m ≤ n) | none => true)
                && (match defn.max with | some m => decide (n ≤ m) | none => true)
            | _ => false
          else if t = "array" then value.isArr
          else if t = "object" then value.isObjLike
          else true
      if !typeOk then false
      else
        let enumOk :=
          match defn.enumVals with
          | none => true
          | some evs => evs.any (fun e => jsEq e value)
        if !enumOk then false
        else
          match defn.validator with
          | some f => f value
          | none => true

/-- The error thrown by `SettingsStore.set` on a validation failure (spec
taxonomy name: ValidationFailed). -/
inductive SettingsError where
  | validationFailed (pluginId key : String)
deriving DecidableEq, Repr

/-- The JS error message of a `SettingsError`. -/
def SettingsError.message : SettingsError → String
  | .validationFailed p k => "Invalid value for " ++ p ++ "." ++ k

/-- `SettingsStore.set`: validate unless skipped (throwing before any
mutation on failure), update the in-memory document, schedule the
debounced persist, notify watchers and emit the two `settings:*` hooks.
The old value read for the notifications is not recorded in the trace. -/
def SettingsStore.set (st : SettingsStore) (pluginId key : String) (value : JSVal)
    (skipValidation : Bool) : Except SettingsError (SettingsStore × List Effect) :=
  if !skipValidation && !(st.validate pluginId key value) then
    .error (.validationFailed pluginId key)
  else
    let doc := st.settings
    let doc :=
      if pluginId = "core" then { doc with core := aset doc.core key value }
      else
        let entry := (aget doc.plugins pluginId).getD ⟨JSVal.vBool false, []⟩
        let entry :=
          if key = "enabled" then { entry with enabled := value }
          else { entry with settings := aset entry.settings key value }
        { doc with plugins := aset doc.plugins pluginId entry }
    .ok ({ st with settings := doc },
      [Effect.settingsSet pluginId key, Effect.persistScheduled,
       Effect.watcherNotify pluginId key, Effect.hookAction "settings:changed",
       Effect.hookAction ("settings:plugin-changed:" ++ pluginId)])

/-- `SettingsStore.enable`: sugar for `set(id, 'enabled', true, true)`.
With validation skipped the `set` call cannot throw. -/
def SettingsStore.enable (st : SettingsStore) (pluginId : String) :
    SettingsStore × List Effect :=
  match st.set pluginId "enabled" (JSVal.vBool true) true with
  | .ok r => r
  | .error _ => (st, [])

/-- `SettingsStore.disable`: sugar for `set(id, 'enabled', false, true)`. -/
def SettingsStore.disable (st : SettingsStore) (pluginId : String) :
    SettingsStore × List Effect :=
  match st.set pluginId "enabled" (JSVal.vBool false) true with
  | .ok r => r
  | .error _ => (st, [])

/-- `SettingsStore.isPluginEnabled` (and the identical `isEnabled`). -/
def SettingsStore.isPluginEnabled (st : SettingsStore) (pluginId : String) : Bool :=
  match aget st.settings.plugins pluginId with
  | none => false
  | some p => p.enabled.truthy

/-- `SettingsStore.getEnabledPlugins`. -/
def SettingsStore.getEnabledPlugins (st : SettingsStore) : List String :=
  (st.settings.plugins.filter (fun kv => kv.2.enabled.truthy)).map (fun kv => kv.1)

/-- The C8 scenario schema: one numeric setting `x` with default 5. -/
def c8Schema : Schema := [("x", ⟨some "number", some (JSVal.vNum 5), none, none, none, none⟩)]

/-- The C8 starting store: the constructor's default document and no
registered schemas. -/
def c8Store : SettingsStore :=
  ⟨⟨"1.0.0", [("theme", JSVal.vStr "dark"), ("debugMode", JSVal.vBool false)], []⟩, []⟩

def c8St1 : SettingsStore := c8Store.registerSchema "p" c8Schema

def c8St2 : SettingsStore :=
  match c8St1.set "p" "x" (JSVal.vNum 10) false with
  | .ok r => r.1
  | .error _ => c8St1

/-- C8: after registering the schema, `set("p","x",10)` succeeds and
`get("p","x")` returns 10; `set("p","x","oops")` throws the validation
error before any mutation, so the stored value remains 10. -/
theorem c8_validation_failure_preserves_store :
    c8St1.set "p" "x" (JSVal.vNum 10) false =
      .ok (c8St2,
        [Effect.settingsSet "p" "x", Effect.persistScheduled, Effect.watcherNotify "p" "x",
         Effect.hookAction "settings:changed", Effect.hookAction "settings:plugin-changed:p"])
    ∧ c8St2.get "p" "x" = JSVal.vNum 10
    ∧ c8St2.set "p" "x" (JSVal.vStr "oops") false = .error (.validationFailed "p" "x")
    ∧ c8St2.get "p" "x" = JSVal.vNum 10 :=
  ⟨rfl, rfl, rfl, rfl⟩

/-! ### PluginRegistry

Embedding of the `PluginRegistry` class (the module catalog).  The
`metadata` map (registration timestamps, load time, last-error log data)
is bookkeeping for display/statistics only; no verified claim concerns it
and it is omitted from the model. -/

inductive PState where
  | UNLOADED
  | LOADING
  | LOADED
  | STARTING
  | ACTIVE
  | STOPPING
  | STOPPED
  | ERROR
  | DESTROYED
deriving DecidableEq, Repr

def PState.name : PState → String
  | .UNLOADED => "UNLOADED"
  | .LOADING => "LOADING"
  | .LOADED => "LOADED"
  | .STARTING => "STARTING"
  | .ACTIVE => "ACTIVE"
  | .STOPPING => "STOPPING"
  | .STOPPED => "STOPPED"
  | .ERROR => "ERROR"
  | .DESTROYED => "DESTROYED"

structure Manifest where
  id : String
  name : String
  version : String
  description : String
  dependencies : List String
  optionalDependencies : List String
  conflicts : List String
deriving DecidableEq, Repr

/-- A loaded module instance.  In the source the loaded module object is
the manifest object itself, carrying the optional lifecycle methods; the
model keeps the behaviour-carrying parts: the declared hook table, the
declared settings schema, and the awaited outcome of each optional
lifecycle method (`none` models an absent method). -/
structure PluginInstance where
  hooks : Option (List (String × (JSVal → HandlerOutcome)))
  settings : Option Schema
  init : Option (Except String Unit)
  start : Option (Except String Unit)
  stop : Option (Except String Unit)
  destroy : Option (Except String Unit)

structure Registry where
  manifests : List (String × Manifest)
  instances : List (String × PluginInstance)
  states : List (String × PState)
  errors : List (String × String)
  dependencies : List (String × List String)
  dependents : List (String × List String)

/-- The empty registry (the constructor state). -/
def Registry.empty : Registry := ⟨[], [], [], [], [], []⟩

/-- `PluginRegistry._buildDependencies`: record required + optional
dependencies and add this id to each dependency's dependents list. -/
def Registry.buildDependencies (reg : Registry) (manifest : Manifest) : Registry :=
  let allDeps := manifest.dependencies ++ manifest.optionalDependencies
  let dependencies := aset reg.dependencies manifest.id allDeps
  let dependents := allDeps.foldl
    (fun dm depId => aset dm depId (((aget dm depId).getD []) ++ [manifest.id])) reg.dependents
  { reg with dependencies := dependencies, dependents := dependents }

/-- `PluginRegistry.register`: throws only when the manifest has no id
(falsy).  A duplicate id logs a console warning and RETURNS, leaving the
registry unchanged; it does not throw.  Otherwise the manifest is stored
with state UNLOADED and the dependency edges are built. -/
def Registry.register (reg : Registry) (manifest : Manifest) :
    Except String (Registry × List Effect) :=
  if manifest.id = "" then .error "Plugin manifest must have an id"
  else if (aget reg.manifests manifest.id).isSome then
    .ok (reg, [Effect.consoleWarn
      ("[PluginRegistry] Plugin " ++ manifest.id ++ " is already registered")])
  else
    let reg := { reg with
      manifests := aset reg.manifests manifest.id manifest,
      states := aset reg.states manifest.id PState.UNLOADED }
    .ok (reg.buildDependencies manifest, [])

def Registry.getManifest (reg : Registry) (pluginId : String) : Option Manifest :=
  aget reg.manifests pluginId

def Registry.getInstance (reg : Registry) (pluginId : String) : Option PluginInstance :=
  aget reg.instances pluginId

def Registry.setInstance (reg : Registry) (pluginId : String) (inst : PluginInstance) :
    Registry :=
  { reg with instances := aset reg.instances pluginId inst }

/-- `PluginRegistry.getState`: UNLOADED for unknown ids. -/
def Registry.getState (reg : Registry) (pluginId : String) : PState :=
  (aget reg.states pluginId).getD PState.UNLOADED

def Registry.setState (reg : Registry) (pluginId : String) (state : PState) : Registry :=
  { reg with states := aset reg.states pluginId state }

/-- `PluginRegistry.setError`: record the error message and force the
state to ERROR. -/
def Registry.setError (reg : Registry) (pluginId : String) (msg : String) : Registry :=
  ({ reg with errors := aset reg.errors pluginId msg }).setState pluginId PState.ERROR

def Registry.clearError (reg : Registry) (pluginId : String) : Registry :=
  { reg with errors := adel reg.errors pluginId }

def Registry.getError (reg : Registry) (pluginId : String) : Option String :=
  aget reg.errors pluginId

def Registry.getDependencies (reg : Registry) (pluginId : String) : List String :=
  (aget reg.dependencies pluginId).getD []

def Registry.getDependents (reg : Registry) (pluginId : String) : List String :=
  (aget reg.dependents pluginId).getD []

/-- `PluginRegistry.getPluginsByState` for ACTIVE, in map order. -/
def Registry.getActivePlugins (reg : Registry) : List String :=
  (reg.states.filter (fun kv => kv.2 = PState.ACTIVE)).map (fun kv => kv.1)

/-- `PluginRegistry.checkDependencies`: every required dependency must
currently be ACTIVE; returns (met, missing). -/
def Registry.checkDependencies (reg : Registry) (pluginId : String) : Bool × List String :=
  match reg.getManifest pluginId with
  | none => (false, [])
  | some manifest =>
      let missing := manifest.dependencies.filter (fun depId => reg.getState depId ≠ PState.ACTIVE)
      (missing.isEmpty, missing)

/-- `PluginRegistry.checkConflicts` against the currently ACTIVE set;
returns (conflicts, conflicting). -/
def Registry.checkConflicts (reg : Registry) (pluginId : String) : Bool × List String :=
  match reg.getManifest pluginId with
  | none => (false, [])
  | some manifest =>
      let act := reg.getActivePlugins
      let conflicting := manifest.conflicts.filter (fun cid => act.contains cid)
      (!conflicting.isEmpty, conflicting)

/-- A registry holding exactly one registered manifest with id "a" and no
dependencies, as produced by `register` on the empty registry. -/
def c7RegA : Registry :=
  ⟨[("a", ⟨"a", "Alpha", "1.0.0", "first", [], [], []⟩)], [],
   [("a", PState.UNLOADED)], [], [("a", [])], []⟩

/-- A second manifest reusing id "a". -/
def c7DupManifest : Manifest := ⟨"a", "AlphaPrime", "2.0.0", "replacement", ["b"], [], []⟩

/-- C7 counterexample.  Registering a manifest whose id is already present
does NOT throw a DuplicateModule error: the embedded `register` returns
successfully with the registry unchanged and only a console warning, and
the first conjunct shows the registration (manifest, state, dependency
edges) is exactly the pre-call registry.  The claim's "fails by throwing
... synchronously" is therefore false on the code, while "leaves the
existing registration unchanged" holds. -/
theorem c7_counterexample :
    c7RegA.register c7DupManifest =
      .ok (c7RegA, [Effect.consoleWarn "[PluginRegistry] Plugin a is already registered"])
    ∧ (∀ e : String, c7RegA.register c7DupManifest ≠ .error e) := by
  refine ⟨rfl, fun e h => ?_⟩
  rw [show c7RegA.register c7DupManifest =
      .ok (c7RegA, [Effect.consoleWarn "[PluginRegistry] Plugin a is already registered"])
    from rfl] at h
  exact Except.noConfusion h

/-- C7, amended.  `register` on a manifest whose (non-empty) id is already
registered is a warn-and-return no-op: it does not throw, returns with the
registry (manifest, state, dependency edges, instances, errors) unchanged,
and emits only a console warning. -/
theorem c7_duplicate_register_is_warning_noop (reg : Registry) (manifest : Manifest)
    (hid : manifest.id ≠ "") (hdup : (aget reg.manifests manifest.id).isSome) :
    reg.register manifest =
      .ok (reg, [Effect.consoleWarn
        ("[PluginRegistry] Plugin " ++ manifest.id ++ " is already registered")]) := by
  simp [Registry.register, hid, hdup]

/-- Witness for `c7_duplicate_register_is_warning_noop`. -/
theorem c7_duplicate_register_is_warning_noop_witness :
    c7DupManifest.id ≠ ""
    ∧ (aget c7RegA.manifests c7DupManifest.id).isSome = true
    ∧ c7RegA.register c7DupManifest =
        .ok (c7RegA, [Effect.consoleWarn
          ("[PluginRegistry] Plugin " ++ c7DupManifest.id ++ " is already registered")]) :=
  ⟨by decide, rfl,
    c7_duplicate_register_is_warning_noop c7RegA c7DupManifest (by decide) (by rfl)⟩

/-! ### LifecycleManager

Embedding of the `LifecycleManager` class.  The combined state carries the
registry, the hook system, the settings store and the rollback snapshots.
The hook-bus emissions performed by the lifecycle (`hooks.action`) are
recorded as `hookAction` effects; the subscribed handlers are external to
the state these claims quantify over and are not executed here.  The
snapshot timestamp of the source is not used by `_rollback` and is
omitted. -/

structure Snapshot where
  state : PState
  hooksCount : Nat
deriving DecidableEq, Repr

structure CoreSt where
  registry : Registry
  hookSys : HookSystem
  settings : SettingsStore
  snapshots : List (String × Snapshot)

/-- `LifecycleManager._registerPluginHooks`: register each declared hook
handler with priority 50, owned by the plugin.  The wrapper the source
installs simply forwards the context (and the api) to the module handler;
possible `cancel` calls by module handlers are irrelevant here because the
lifecycle never executes these handlers, so the model registers them as
non-cancelling. -/
def registerPluginHooksLM (hs : HookSystem) (pluginId : String)
    (tbl : List (String × (JSVal → HandlerOutcome))) : HookSystem :=
  tbl.foldl (fun acc kv => acc.register kv.1 kv.2 (fun _ => false) 50 false (some pluginId)) hs

/-- `LifecycleManager._takeSnapshot`. -/
def takeSnapshot (st : CoreSt) (pluginId : String) : CoreSt :=
  let snap : Snapshot :=
    ⟨st.registry.getState pluginId, (st.hookSys.getPluginHooks pluginId).length⟩
  { st with snapshots := aset st.snapshots pluginId snap }

/-- `LifecycleManager._rollback`: unregister every hook owned by the
plugin, restore the snapshot state, drop the snapshot. -/
def rollbackLM (st : CoreSt) (pluginId : String) : CoreSt :=
  match aget st.snapshots pluginId with
  | none => st
  | some snap =>
      { st with
        hookSys := st.hookSys.unregisterPlugin pluginId,
        registry := st.registry.setState pluginId snap.state,
        snapshots := adel st.snapshots pluginId }

/-- `LifecycleManager.initPlugin`: legal only from LOADED; runs the
optional `init` outcome; on failure records the error (which forces state
ERROR) and reports failure. -/
def initPlugin (st : CoreSt) (pluginId : String) :
    Except String (Bool × CoreSt × List Effect) :=
  let state := st.registry.getState pluginId
  if state ≠ PState.LOADED then
    .error ("Plugin " ++ pluginId ++ " must be in LOADED state to initialize (current: "
      ++ state.name ++ ")")
  else
    match st.registry.getInstance pluginId with
    | none => .error ("Plugin instance not found: " ++ pluginId)
    | some inst =>
        match inst.init with
        | none => .ok (true, st, [])
        | some (.ok _) => .ok (true, st, [])
        | some (.error e) =>
            .ok (false, { st with registry := st.registry.setError pluginId e }, [])

/-- `LifecycleManager.startPlugin`: idempotent from ACTIVE; throws from a
non-startable state or on unmet dependencies / conflicts / missing
instance; otherwise snapshots, moves to STARTING, emits before-enable,
registers the declared hooks and schema, runs `start`; on success moves to
ACTIVE and clears the error; on a `start` exception rolls back (hooks and
snapshot state) and then records the error, which forces the state to
ERROR. -/
def startPlugin (st : CoreSt) (pluginId : String) :
    Except String (Bool × CoreSt × List Effect) :=
  let state := st.registry.getState pluginId
  if state = PState.ACTIVE then .ok (true, st, [])
  else if state ≠ PState.LOADED ∧ state ≠ PState.STOPPED then
    .error ("Plugin " ++ pluginId ++ " must be in LOADED or STOPPED state to start (current: "
      ++ state.name ++ ")")
  else
    let depCheck := st.registry.checkDependencies pluginId
    if !depCheck.1 then
      .error ("Cannot start " ++ pluginId ++ ": missing dependencies "
        ++ String.intercalate ", " depCheck.2)
    else
      let conflictCheck := st.registry.checkConflicts pluginId
      if conflictCheck.1 then
        .error ("Cannot start " ++ pluginId ++ ": conflicts with "
          ++ String.intercalate ", " conflictCheck.2)
      else
        match st.registry.getInstance pluginId with
        | none => .error ("Plugin instance not found: " ++ pluginId)
        | some inst =>
            let st := takeSnapshot st pluginId
            let st := { st with registry := st.registry.setState pluginId PState.STARTING }
            let tr := [Effect.hookAction "plugin:before-enable"]
            let st :=
              match inst.hooks with
              | some tbl => { st with hookSys := registerPluginHooksLM st.hookSys pluginId tbl }
              | none => st
            let (st, tr) :=
              match inst.settings with
              | some schema =>
                  ({ st with settings := st.settings.registerSchema pluginId schema },
                   tr ++ [Effect.schemaRegistered pluginId])
              | none => (st, tr)
            match inst.start with
            | none =>
                let st := { st with
                  registry := (st.registry.setState pluginId PState.ACTIVE).clearError pluginId }
                .ok (true, st, tr ++ [Effect.hookAction "plugin:enabled"])
            | some (.ok _) =>
                let st := { st with
                  registry := (st.registry.setState pluginId PState.ACTIVE).clearError pluginId }
                .ok (true, st, tr ++ [Effect.hookAction "plugin:enabled"])
            | some (.error e) =>
                let st := rollbackLM st pluginId
                let st := { st with registry := st.registry.setError pluginId e }
                .ok (false, st, tr ++ [Effect.hookAction "plugin:error"])

/-- `LifecycleManager.stopPlugin`: idempotent from STOPPED; throws from a
non-ACTIVE state or with ACTIVE dependents or a missing instance;
otherwise moves to STOPPING, emits before-disable and runs `stop`.  Only
when `stop` does not throw are the plugin's hooks unregistered and the
state moved to STOPPED; a `stop` exception is caught, the error is
recorded (forcing state ERROR) and failure is returned with the teardown
skipped. -/
def stopPlugin (st : CoreSt) (pluginId : String) :
    Except String (Bool × CoreSt × List Effect) :=
  let state := st.registry.getState pluginId
  if state = PState.STOPPED then .ok (true, st, [])
  else if state ≠ PState.ACTIVE then
    .error ("Plugin " ++ pluginId ++ " must be in ACTIVE state to stop (current: "
      ++ state.name ++ ")")
  else
    let dependents := st.registry.getDependents pluginId
    let activeDependents := dependents.filter
      (fun depId => st.registry.getState depId = PState.ACTIVE)
    if !activeDependents.isEmpty then
      .error ("Cannot stop " ++ pluginId ++ ": required by "
        ++ String.intercalate ", " activeDependents)
    else
      match st.registry.getInstance pluginId with
      | none => .error ("Plugin instance not found: " ++ pluginId)
      | some inst =>
          let st1 := { st with registry := st.registry.setState pluginId PState.STOPPING }
          let tr := [Effect.hookAction "plugin:before-disable"]
          match inst.stop with
          | none =>
              let st2 := { st1 with hookSys := st1.hookSys.unregisterPlugin pluginId }
              let st3 := { st2 with registry := st2.registry.setState pluginId PState.STOPPED }
              .ok (true, st3, tr ++ [Effect.hookAction "plugin:disabled"])
          | some (.ok _) =>
              let st2 := { st1 with hookSys := st1.hookSys.unregisterPlugin pluginId }
              let st3 := { st2 with registry := st2.registry.setState pluginId PState.STOPPED }
              .ok (true, st3, tr ++ [Effect.hookAction "plugin:disabled"])
          | some (.error e) =>
              .ok (false, { st1 with registry := st1.registry.setError pluginId e }, tr)

theorem getState_setState_self (reg : Registry) (p : String) (s : PState) :
    (reg.setState p s).getState p = s := by
  simp [Registry.getState, Registry.setState, aget_aset_self]

theorem getState_setError_self (reg : Registry) (p : String) (e : String) :
    (reg.setError p e).getState p = PState.ERROR := by
  simp [Registry.setError, getState_setState_self]

theorem getError_setError_self (reg : Registry) (p : String) (e : String) :
    (reg.setError p e).getError p = some e := by
  simp [Registry.setError, Registry.getError, Registry.setState, aget_aset_self]

/-- C6, amended.  For an ACTIVE module with no ACTIVE dependents whose
`stop` outcome is a thrown error, `stopPlugin` returns failure with the
error recorded — but the teardown is SKIPPED: the hook system (and hence
every hook subscription of the module) is left exactly as it was, and the
state ends as ERROR (via the error recording), not STOPPED.  Hook
unregistration and the STOPPED transition happen only when `stop` does not
throw. -/
theorem c6_stop_throw_skips_teardown (st : CoreSt) (pluginId : String)
    (inst : PluginInstance) (e : String)
    (hact : st.registry.getState pluginId = PState.ACTIVE)
    (hdeps : (st.registry.getDependents pluginId).filter
      (fun depId => st.registry.getState depId = PState.ACTIVE) = [])
    (hinst : st.registry.getInstance pluginId = some inst)
    (hstop : inst.stop = some (.error e)) :
    stopPlugin st pluginId =
      .ok (false,
        { st with registry := (st.registry.setState pluginId PState.STOPPING).setError pluginId e },
        [Effect.hookAction "plugin:before-disable"])
    ∧ ((st.registry.setState pluginId PState.STOPPING).setError pluginId e).getState pluginId
        = PState.ERROR
    ∧ ((st.registry.setState pluginId PState.STOPPING).setError pluginId e).getError pluginId
        = some e := by
  refine ⟨?_, getState_setError_self .., getError_setError_self ..⟩
  simp [stopPlugin, hact, hdeps, hinst, hstop]

/-- The concrete module set-up of the C6 scenario: module "m" is ACTIVE,
owns one hook registration, has no dependents, and its `stop` throws. -/
def c6Inst : PluginInstance :=
  ⟨some [("dom:ready", fun _ => .ok none)], none, none, some (.ok ()), some (.error "boom"), none⟩

def c6HookSys : HookSystem :=
  (⟨[], [], 0⟩ : HookSystem).register "dom:ready" (fun _ => .ok none) (fun _ => false)
    50 false (some "m")

def c6St : CoreSt :=
  ⟨⟨[("m", ⟨"m", "M", "1.0.0", "mod", [], [], []⟩)], [("m", c6Inst)],
    [("m", PState.ACTIVE)], [], [("m", [])], []⟩,
   c6HookSys,
   ⟨⟨"1.0.0", [("theme", JSVal.vStr "dark"), ("debugMode", JSVal.vBool false)], []⟩, []⟩,
   []⟩

def c6Post : CoreSt :=
  match stopPlugin c6St "m" with
  | .ok r => r.2.1
  | .error _ => c6St

def c6RetOk : Option Bool :=
  match stopPlugin c6St "m" with
  | .ok r => some r.1
  | .error _ => none

/-- C6 counterexample.  With `stop` throwing, `stopPlugin` returns false
but the module's hook subscription is still registered (the tracked
registration list is non-empty and the handler entry is still in the
table) and the state is ERROR, not STOPPED — so "still unregisters all of
that module's hook subscriptions, still transitions the module's state to
STOPPED" is false on the code. -/
theorem c6_counterexample :
    c6RetOk = some false
    ∧ c6Post.registry.getState "m" = PState.ERROR
    ∧ c6Post.registry.getState "m" ≠ PState.STOPPED
    ∧ c6Post.hookSys.getPluginHooks "m" = [("dom:ready", 0)]
    ∧ ((aget c6Post.hookSys.hooks "dom:ready").getD []).length = 1 := by
  refine ⟨rfl, rfl, ?_, rfl, rfl⟩
  intro h
  exact PState.noConfusion h

/-- Witness for `c6_stop_throw_skips_teardown` at the concrete scenario. -/
theorem c6_stop_throw_skips_teardown_witness :
    c6St.registry.getState "m" = PState.ACTIVE
    ∧ (c6St.registry.getDependents "m").filter
        (fun depId => c6St.registry.getState depId = PState.ACTIVE) = []
    ∧ c6St.registry.getInstance "m" = some c6Inst
    ∧ c6Inst.stop = some (.error "boom")
    ∧ stopPlugin c6St "m" =
        .ok (false,
          { c6St with registry :=
              (c6St.registry.setState "m" PState.STOPPING).setError "m" "boom" },
          [Effect.hookAction "plugin:before-disable"]) :=
  ⟨rfl, rfl, rfl, rfl,
    (c6_stop_throw_skips_teardown c6St "m" c6Inst "boom" rfl rfl rfl rfl).1⟩

/-! ### IPCManager

Embedding of the `IPCManager` class (the cross-context message broker).
The resolve/reject continuations of a pending request and the timers are
external resources; rejecting a continuation and clearing a timer appear
in the effect trace.  Timer handles are drawn from a fresh counter held in
the state (a modelling artifact mirroring the identity of `setTimeout`
handles).  Handlers are kept as an action-name-keyed map; their behaviour
is irrelevant to the destroy claim. -/

structure PendingRequest where
  action : String
  timeoutId : Nat
deriving DecidableEq, Repr

structure IPCSt where
  pendingRequests : List (Nat × PendingRequest)
  requestId : Nat
  handlers : List (String × Nat)
  destroyed : Bool
  listenerAttached : Bool
  nextTimer : Nat
deriving DecidableEq, Repr

/-- `IPCManager.destroy`: idempotent; flips the destroyed flag, clears the
timeout timer of and rejects every still-pending request, clears the
pending map and the handler map, and removes the inbound message
listener. -/
def IPCSt.destroy (st : IPCSt) : IPCSt × List Effect :=
  if st.destroyed then (st, [])
  else
    let effs := st.pendingRequests.foldl
      (fun acc kv => acc ++ [Effect.clearTimeout kv.2.timeoutId,
        Effect.rejectPending kv.1 "IPC destroyed - context ending"]) []
    let st' : IPCSt :=
      { st with destroyed := true, pendingRequests := [], handlers := [] }
    if st'.listenerAttached then
      ({ st' with listenerAttached := false }, effs ++ [Effect.removeListener])
    else (st', effs)

/-- `IPCManager.request` (up to the transport): throws immediately when
destroyed; otherwise allocates the next requestId, starts the timeout
timer, stores the pending record and sends the REQUEST envelope.  The
deferred resolution is not part of this state-transition model. -/
def IPCSt.request (st : IPCSt) (action : String) :
    Except String (IPCSt × List Effect × Nat) :=
  if st.destroyed then .error "IPC destroyed - cannot send request"
  else
    let rid := st.requestId + 1
    let tid := st.nextTimer
    let st' : IPCSt :=
      { st with
        requestId := rid,
        nextTimer := st.nextTimer + 1,
        pendingRequests := aset st.pendingRequests rid ⟨action, tid⟩ }
    .ok (st', [Effect.setTimeoutStarted tid, Effect.sendMessage "REQUEST" action (some rid)], rid)

/-- `IPCManager.sendEvent`: a no-op when destroyed, otherwise a
fire-and-forget EVENT envelope. -/
def IPCSt.sendEvent (st : IPCSt) (event : String) : IPCSt × List Effect :=
  if st.destroyed then (st, [])
  else (st, [Effect.sendMessage "EVENT" event none])

/-- `IPCManager.broadcast`: a no-op when destroyed, otherwise a BROADCAST
envelope delivered best-effort to every context. -/
def IPCSt.broadcast (st : IPCSt) (event : String) : IPCSt × List Effect :=
  if st.destroyed then (st, [])
  else (st, [Effect.sendMessage "BROADCAST" event none])

theorem foldl_append_eq_flatMap {α β : Type} (f : α → List β) (l : List α) (acc : List β) :
    l.foldl (fun a x => a ++ f x) acc = acc ++ l.flatMap f := by
  induction l generalizing acc with
  | nil => simp
  | cons x xs ih => simp [List.foldl_cons, ih, List.flatMap_cons]

/-- C9: `destroy()` is terminal.  On a live broker it flips the destroyed
flag, clears the pending map and the handler map, detaches the inbound
listener; for every still-pending request the trace contains the clearing
of its timeout timer and its synchronous rejection with the broker-destroyed
error; and on the destroyed broker every `request` throws immediately while
`sendEvent`/`broadcast` are no-ops with no effects.  Destroy is also
idempotent: a second call does nothing. -/
theorem c9_destroy_is_terminal (st : IPCSt)
    (hlive : st.destroyed = false) (hl : st.listenerAttached = true) :
    (st.destroy).1.destroyed = true
    ∧ (st.destroy).1.pendingRequests = []
    ∧ (st.destroy).1.handlers = []
    ∧ (st.destroy).1.listenerAttached = false
    ∧ (∀ kv ∈ st.pendingRequests,
        Effect.clearTimeout kv.2.timeoutId ∈ (st.destroy).2
        ∧ Effect.rejectPending kv.1 "IPC destroyed - context ending" ∈ (st.destroy).2)
    ∧ Effect.removeListener ∈ (st.destroy).2
    ∧ (∀ action, (st.destroy).1.request action = .error "IPC destroyed - cannot send request")
    ∧ (∀ ev, (st.destroy).1.sendEvent ev = ((st.destroy).1, []))
    ∧ (∀ ev, (st.destroy).1.broadcast ev = ((st.destroy).1, []))
    ∧ (st.destroy).1.destroy = ((st.destroy).1, []) := by
  have hd : st.destroy =
      (⟨[], st.requestId, [], true, false, st.nextTimer⟩,
        (st.pendingRequests.flatMap (fun kv =>
          [Effect.clearTimeout kv.2.timeoutId,
           Effect.rejectPending kv.1 "IPC destroyed - context ending"]))
          ++ [Effect.removeListener]) := by
    simp [IPCSt.destroy, hlive, hl, foldl_append_eq_flatMap]
  refine ⟨by rw [hd], by rw [hd], by rw [hd], by rw [hd], ?_, ?_, ?_, ?_, ?_, ?_⟩
  · intro kv hkv
    rw [hd]
    constructor
    · exact List.mem_append_left _ (List.mem_flatMap.mpr ⟨kv, hkv, by simp⟩)
    · exact List.mem_append_left _ (List.mem_flatMap.mpr ⟨kv, hkv, by simp⟩)
  · rw [hd]
    exact List.mem_append_right _ (List.mem_singleton.mpr rfl)
  · intro action
    rw [hd]
    simp [IPCSt.request]
  · intro ev
    rw [hd]
    simp [IPCSt.sendEvent]
  · intro ev
    rw [hd]
    simp [IPCSt.broadcast]
  · rw [hd]
    simp [IPCSt.destroy]

/-- A live broker with one pending request and one handler. -/
def c9St : IPCSt :=
  ⟨[(1, ⟨"ping", 41⟩)], 1, [("plugin:enable", 0)], false, true, 42⟩

/-- Witness for `c9_destroy_is_terminal` at the concrete broker. -/
theorem c9_destroy_is_terminal_witness :
    c9St.destroyed = false
    ∧ c9St.listenerAttached = true
    ∧ (c9St.destroy).1.destroyed = true
    ∧ (c9St.destroy).1.pendingRequests = []
    ∧ (c9St.destroy).1.handlers = []
    ∧ Effect.clearTimeout 41 ∈ (c9St.destroy).2
    ∧ Effect.rejectPending 1 "IPC destroyed - context ending" ∈ (c9St.destroy).2
    ∧ (c9St.destroy).1.request "ping" = .error "IPC destroyed - cannot send request" := by
  have h := c9_destroy_is_terminal c9St rfl rfl
  have hp := h.2.2.2.2.1 (1, ⟨"ping", 41⟩) (by decide)
  exact ⟨rfl, rfl, h.1, h.2.1, h.2.2.1, hp.1, hp.2, h.2.2.2.2.2.2.1 "ping"⟩

/-! ### FrameworkCore

Embedding of the orchestrator parts relevant to the reconciliation
protocol: the in-flight operation-token set, `_startPluginRuntime` /
`_stopPluginRuntime`, `_reconcileEnable` / `_reconcileDisable` and
`_handleStorageChange`.  The debounce wrapper around the storage listener
(and its `initializing` re-check) is timing machinery outside this state
model; `_handleStorageChange` itself is modelled with its own guards.
A thrown JS exception leaves all mutations made before the throw in
place, so the fallible runtime helpers return the (possibly mutated)
framework state alongside the outcome. -/

structure Framework where
  core : CoreSt
  inflight : List String
  destroyed : Bool
  initialized : Bool
  pluginAPIs : List String

/-- The plugin-API creation at the top of `_startPluginRuntime`: create
the plugin API object if it does not exist yet. -/
def ensureAPI (fw : Framework) (pluginId : String) : Framework :=
  if fw.pluginAPIs.contains pluginId then fw
  else { fw with pluginAPIs := fw.pluginAPIs ++ [pluginId] }

/-- `FrameworkCore._startPluginRuntime`: ensure the plugin API exists,
init if the module is LOADED, then start.  The outcome is `Except`-valued
(a thrown error propagates to the caller) but the state reflects every
mutation made before the throw. -/
def startPluginRuntime (fw : Framework) (pluginId : String) :
    Except String Bool × Framework × List Effect :=
  let fw1 := ensureAPI fw pluginId
  if fw1.core.registry.getState pluginId = PState.LOADED then
    match initPlugin fw1.core pluginId with
    | .error e => (.error e, fw1, [])
    | .ok (_, core1, tr1) =>
        match startPlugin core1 pluginId with
        | .error e => (.error e, { fw1 with core := core1 }, tr1)
        | .ok (b, core2, tr2) => (.ok b, { fw1 with core := core2 }, tr1 ++ tr2)
  else
    match startPlugin fw1.core pluginId with
    | .error e => (.error e, fw1, [])
    | .ok (b, core2, tr2) => (.ok b, { fw1 with core := core2 }, tr2)

/-- `FrameworkCore._stopPluginRuntime`: succeed vacuously when no plugin
API exists, otherwise stop the runtime. -/
def stopPluginRuntime (fw : Framework) (pluginId : String) :
    Except String Bool × Framework × List Effect :=
  if !fw.pluginAPIs.contains pluginId then
    (.ok true, fw, [Effect.consoleWarn ("Plugin API not found for " ++ pluginId)])
  else
    match stopPlugin fw.core pluginId with
    | .error e => (.error e, fw, [])
    | .ok (b, core2, tr) => (.ok b, { fw with core := core2 }, tr)

/-- `FrameworkCore._reconcileEnable`: sync the runtime up to match storage.
Never writes to the settings store or storage; exceptions from the runtime
start are caught and reported as failure. -/
def reconcileEnable (fw : Framework) (pluginId : String) : Bool × Framework × List Effect :=
  if fw.destroyed then (false, fw, [])
  else
    let runtimeState := fw.core.registry.getState pluginId
    if runtimeState = PState.ACTIVE then (true, fw, [])
    else if runtimeState = PState.STARTING ∨ runtimeState = PState.LOADING then (true, fw, [])
    else
      match startPluginRuntime fw pluginId with
      | (.ok b, fw', tr) => (b, fw', tr)
      | (.error _, fw', tr) => (false, fw', tr)

/-- `FrameworkCore._reconcileDisable`. -/
def reconcileDisable (fw : Framework) (pluginId : String) : Bool × Framework × List Effect :=
  if fw.destroyed then (false, fw, [])
  else
    let runtimeState := fw.core.registry.getState pluginId
    if runtimeState = PState.STOPPED ∨ runtimeState = PState.UNLOADED then (true, fw, [])
    else if runtimeState = PState.STOPPING then (true, fw, [])
    else
      match stopPluginRuntime fw pluginId with
      | (.ok b, fw', tr) => (b, fw', tr)
      | (.error _, fw', tr) => (false, fw', tr)

/-- The storage-change notification for the `settings` key. -/
structure StorageChange where
  newValue : Option SettingsDoc
  oldValue : Option SettingsDoc

/-- Ghost record of which reconcile action `_handleStorageChange`
invokes. -/
inductive RAct where
  | reconcileEnable (pluginId : String)
  | reconcileDisable (pluginId : String)
deriving DecidableEq, Repr

/-- The operation token `"moduleId:enable"` / `"moduleId:disable"` guarding
single-flight commands and echo detection. -/
def opToken (pluginId : String) (enable : Bool) : String :=
  pluginId ++ ":" ++ (if enable then "enable" else "disable")

/-- One iteration of the plugin loop of `_handleStorageChange`. -/
def storageStep (oldSettings : SettingsDoc) (acc : Framework × List Effect × List RAct)
    (kv : String × PluginSettingsEntry) : Framework × List Effect × List RAct :=
  if ((aget oldSettings.plugins kv.1).map (fun p => p.enabled.truthy)).getD false
      = kv.2.enabled.truthy then acc
  else if acc.1.inflight.contains (opToken kv.1 kv.2.enabled.truthy) then acc
  else if kv.2.enabled.truthy then
    let r := reconcileEnable acc.1 kv.1
    (r.2.1, acc.2.1 ++ r.2.2, acc.2.2 ++ [RAct.reconcileEnable kv.1])
  else
    let r := reconcileDisable acc.1 kv.1
    (r.2.1, acc.2.1 ++ r.2.2, acc.2.2 ++ [RAct.reconcileDisable kv.1])

/-- `FrameworkCore._handleStorageChange`: guarded against destruction and
pre-initialization; reacts only to enabled-flag transitions of the plugin
entries of the new settings document; a transition whose operation token
is in flight is ignored as an echo; other transitions are reconciled.
Returns the ghost list of invoked reconcile actions alongside the state
and the trace.  A missing `oldValue` means `oldSettings.plugins` is
undefined and the loop body is skipped entirely. -/
def handleStorageChange (fw : Framework) (change : StorageChange) :
    Framework × List Effect × List RAct :=
  if fw.destroyed || !fw.initialized then (fw, [], [])
  else
    match change.newValue with
    | none => (fw, [], [])
    | some newSettings =>
        match change.oldValue with
        | none => (fw, [], [])
        | some oldSettings =>
            newSettings.plugins.foldl (storageStep oldSettings) (fw, [], [])

/-- Writes to the configuration store or to persistent storage:
a committed `SettingsStore.set` (also via `enable`/`disable`), the
scheduling of the debounced persist, or a direct storage write. -/
def Effect.isStoreWrite : Effect → Bool
  | .settingsSet _ _ => true
  | .persistScheduled => true
  | .storageWrite => true
  | _ => false

/-- No effect of the trace writes to the configuration store or storage. -/
def NoStoreWrite (tr : List Effect) : Prop := ∀ e ∈ tr, e.isStoreWrite = false

theorem noStoreWrite_nil : NoStoreWrite [] := by
  intro e he
  simp at he

theorem noStoreWrite_append {a b : List Effect} (ha : NoStoreWrite a) (hb : NoStoreWrite b) :
    NoStoreWrite (a ++ b) := by
  intro e he
  rcases List.mem_append.mp he with h | h
  · exact ha e h
  · exact hb e h

theorem registerSchema_isPluginEnabled (st : SettingsStore) (pluginId : String)
    (schema : Schema) (p : String) :
    (st.registerSchema pluginId schema).isPluginEnabled p = st.isPluginEnabled p := by
  unfold SettingsStore.registerSchema SettingsStore.isPluginEnabled
  by_cases hp : p = pluginId
  · subst hp
    cases hent : aget st.settings.plugins p <;> simp [hent, aget_aset_self, JSVal.truthy]
  · have hne : p ≠ pluginId := hp
    cases hent : aget st.settings.plugins pluginId <;>
      simp [hent, aget_aset_ne _ _ _ _ hne]

theorem rollbackLM_settings (st : CoreSt) (pluginId : String) :
    (rollbackLM st pluginId).settings = st.settings := by
  unfold rollbackLM
  split <;> rfl

theorem initPlugin_ok_spec (c : CoreSt) (pluginId : String) (r : Bool × CoreSt × List Effect)
    (h : initPlugin c pluginId = .ok r) : r.2.1.settings = c.settings ∧ r.2.2 = [] := by
  simp only [initPlugin] at h
  repeat' split at h
  all_goals injection h
  all_goals rename_i h
  all_goals subst h
  all_goals exact ⟨rfl, rfl⟩

theorem startPlugin_ok_spec (c : CoreSt) (pluginId : String) (r : Bool × CoreSt × List Effect)
    (h : startPlugin c pluginId = .ok r) :
    NoStoreWrite r.2.2
    ∧ ∀ p, r.2.1.settings.isPluginEnabled p = c.settings.isPluginEnabled p := by
  simp only [startPlugin] at h
  repeat' split at h
  all_goals injection h
  all_goals rename_i h
  all_goals subst h
  all_goals
    exact ⟨by simp [NoStoreWrite, Effect.isStoreWrite],
      fun p => by simp [rollbackLM_settings, registerSchema_isPluginEnabled, takeSnapshot]⟩

theorem stopPlugin_ok_spec (c : CoreSt) (pluginId : String) (r : Bool × CoreSt × List Effect)
    (h : stopPlugin c pluginId = .ok r) :
    NoStoreWrite r.2.2 ∧ ∀ p, r.2.1.settings.isPluginEnabled p = c.settings.isPluginEnabled p := by
  simp only [stopPlugin] at h
  repeat' split at h
  all_goals injection h
  all_goals rename_i h
  all_goals subst h
  all_goals
    exact ⟨by simp [NoStoreWrite, Effect.isStoreWrite], fun p => rfl⟩

theorem ensureAPI_inflight (fw : Framework) (pluginId : String) :
    (ensureAPI fw pluginId).inflight = fw.inflight := by
  unfold ensureAPI
  split <;> rfl

theorem ensureAPI_core (fw : Framework) (pluginId : String) :
    (ensureAPI fw pluginId).core = fw.core := by
  unfold ensureAPI
  split <;> rfl

theorem startPluginRuntime_spec (fw : Framework) (pluginId : String) :
    (startPluginRuntime fw pluginId).2.1.inflight = fw.inflight
    ∧ NoStoreWrite (startPluginRuntime fw pluginId).2.2
    ∧ ∀ p, (startPluginRuntime fw pluginId).2.1.core.settings.isPluginEnabled p
        = fw.core.settings.isPluginEnabled p := by
  simp only [startPluginRuntime]
  split
  · rcases hinit : initPlugin (ensureAPI fw pluginId).core pluginId with e | r
    · exact ⟨ensureAPI_inflight fw pluginId, noStoreWrite_nil,
        fun p => by rw [ensureAPI_core]⟩
    · obtain ⟨b1, core1, tr1⟩ := r
      have hi := initPlugin_ok_spec _ _ _ hinit
      simp only at hi
      simp only []
      rcases hstart : startPlugin core1 pluginId with e | r2
      · simp only []
        refine ⟨ensureAPI_inflight fw pluginId, ?_, fun p => ?_⟩
        · rw [hi.2]
          exact noStoreWrite_nil
        · show core1.settings.isPluginEnabled p = fw.core.settings.isPluginEnabled p
          rw [hi.1, ensureAPI_core]
      · obtain ⟨b2, core2, tr2⟩ := r2
        have hs := startPlugin_ok_spec _ _ _ hstart
        simp only at hs
        simp only []
        refine ⟨ensureAPI_inflight fw pluginId, ?_, fun p => ?_⟩
        · rw [hi.2]
          exact noStoreWrite_append noStoreWrite_nil hs.1
        · show core2.settings.isPluginEnabled p = fw.core.settings.isPluginEnabled p
          rw [hs.2 p, hi.1, ensureAPI_core]
  · rcases hstart : startPlugin (ensureAPI fw pluginId).core pluginId with e | r2
    · exact ⟨ensureAPI_inflight fw pluginId, noStoreWrite_nil,
        fun p => by rw [ensureAPI_core]⟩
    · obtain ⟨b2, core2, tr2⟩ := r2
      have hs := startPlugin_ok_spec _ _ _ hstart
      simp only at hs
      simp only []
      refine ⟨ensureAPI_inflight fw pluginId, hs.1, fun p => ?_⟩
      show core2.settings.isPluginEnabled p = fw.core.settings.isPluginEnabled p
      rw [hs.2 p, ensureAPI_core]

theorem stopPluginRuntime_spec (fw : Framework) (pluginId : String) :
    (stopPluginRuntime fw pluginId).2.1.inflight = fw.inflight
    ∧ NoStoreWrite (stopPluginRuntime fw pluginId).2.2
    ∧ ∀ p, (stopPluginRuntime fw pluginId).2.1.core.settings.isPluginEnabled p
        = fw.core.settings.isPluginEnabled p := by
  unfold stopPluginRuntime
  split
  · refine ⟨rfl, ?_, fun p => rfl⟩
    intro e he
    simp only [List.mem_singleton] at he
    subst he
    rfl
  · rcases hstop : stopPlugin fw.core pluginId with e | r
    · exact ⟨rfl, noStoreWrite_nil, fun p => rfl⟩
    · obtain ⟨b, core2, tr⟩ := r
      have hs := stopPlugin_ok_spec _ _ _ hstop
      simp only at hs
      try rw [hstop]
      exact ⟨rfl, hs.1, hs.2⟩

theorem reconcileEnable_spec (fw : Framework) (pluginId : String) :
    (reconcileEnable fw pluginId).2.1.inflight = fw.inflight
    ∧ NoStoreWrite (reconcileEnable fw pluginId).2.2
    ∧ ∀ p, (reconcileEnable fw pluginId).2.1.core.settings.isPluginEnabled p
        = fw.core.settings.isPluginEnabled p := by
  simp only [reconcileEnable]
  have h := startPluginRuntime_spec fw pluginId
  split
  · exact ⟨rfl, noStoreWrite_nil, fun p => rfl⟩
  · split
    · exact ⟨rfl, noStoreWrite_nil, fun p => rfl⟩
    · split
      · exact ⟨rfl, noStoreWrite_nil, fun p => rfl⟩
      · rcases hr : startPluginRuntime fw pluginId with ⟨out, fw', tr⟩
        rw [hr] at h
        simp only at h
        cases out <;> simp only [] <;> exact ⟨h.1, h.2.1, h.2.2⟩

theorem reconcileDisable_spec (fw : Framework) (pluginId : String) :
    (reconcileDisable fw pluginId).2.1.inflight = fw.inflight
    ∧ NoStoreWrite (reconcileDisable fw pluginId).2.2
    ∧ ∀ p, (reconcileDisable fw pluginId).2.1.core.settings.isPluginEnabled p
        = fw.core.settings.isPluginEnabled p := by
  simp only [reconcileDisable]
  have h := stopPluginRuntime_spec fw pluginId
  split
  · exact ⟨rfl, noStoreWrite_nil, fun p => rfl⟩
  · split
    · exact ⟨rfl, noStoreWrite_nil, fun p => rfl⟩
    · split
      · exact ⟨rfl, noStoreWrite_nil, fun p => rfl⟩
      · rcases hr : stopPluginRuntime fw pluginId with ⟨out, fw', tr⟩
        rw [hr] at h
        simp only at h
        cases out <;> simp only [] <;> exact ⟨h.1, h.2.1, h.2.2⟩

theorem storageStep_inv (oldS : SettingsDoc) (kv : String × PluginSettingsEntry)
    (acc : Framework × List Effect × List RAct) (I : List String) (pluginId : String)
    (hacc : acc.1.inflight = I)
    (he : opToken pluginId true ∈ I → RAct.reconcileEnable pluginId ∉ acc.2.2)
    (hd : opToken pluginId false ∈ I → RAct.reconcileDisable pluginId ∉ acc.2.2) :
    (storageStep oldS acc kv).1.inflight = I
    ∧ (opToken pluginId true ∈ I →
        RAct.reconcileEnable pluginId ∉ (storageStep oldS acc kv).2.2)
    ∧ (opToken pluginId false ∈ I →
        RAct.reconcileDisable pluginId ∉ (storageStep oldS acc kv).2.2) := by
  simp only [storageStep]
  split
  · exact ⟨hacc, he, hd⟩
  · split
    · exact ⟨hacc, he, hd⟩
    · rename_i hneq hcont
      split
      · rename_i htrue
        refine ⟨?_, ?_, ?_⟩
        · rw [(reconcileEnable_spec acc.1 kv.1).1, hacc]
        · intro hmem hin
          rcases List.mem_append.mp hin with hin | hin
          · exact he hmem hin
          · have : pluginId = kv.1 := by
              cases List.mem_singleton.mp hin
              rfl
            subst this
            rw [hacc, htrue] at hcont
            exact hcont (List.elem_eq_true_of_mem hmem)
        · intro hmem hin
          rcases List.mem_append.mp hin with hin | hin
          · exact hd hmem hin
          · exact RAct.noConfusion (List.mem_singleton.mp hin)
      · rename_i hfalse
        refine ⟨?_, ?_, ?_⟩
        · rw [(reconcileDisable_spec acc.1 kv.1).1, hacc]
        · intro hmem hin
          rcases List.mem_append.mp hin with hin | hin
          · exact he hmem hin
          · exact RAct.noConfusion (List.mem_singleton.mp hin)
        · intro hmem hin
          rcases List.mem_append.mp hin with hin | hin
          · exact hd hmem hin
          · have : pluginId = kv.1 := by
              cases List.mem_singleton.mp hin
              rfl
            subst this
            rw [hacc] at hcont
            rw [show kv.2.enabled.truthy = false from Bool.eq_false_iff.mpr hfalse] at hcont
            exact hcont (List.elem_eq_true_of_mem hmem)

theorem storage_fold_inv (oldS : SettingsDoc) (l : List (String × PluginSettingsEntry))
    (acc : Framework × List Effect × List RAct) (I : List String) (pluginId : String)
    (hacc : acc.1.inflight = I)
    (he : opToken pluginId true ∈ I → RAct.reconcileEnable pluginId ∉ acc.2.2)
    (hd : opToken pluginId false ∈ I → RAct.reconcileDisable pluginId ∉ acc.2.2) :
    (l.foldl (storageStep oldS) acc).1.inflight = I
    ∧ (opToken pluginId true ∈ I →
        RAct.reconcileEnable pluginId ∉ (l.foldl (storageStep oldS) acc).2.2)
    ∧ (opToken pluginId false ∈ I →
        RAct.reconcileDisable pluginId ∉ (l.foldl (storageStep oldS) acc).2.2) := by
  induction l generalizing acc with
  | nil => exact ⟨hacc, he, hd⟩
  | cons kv rest ih =>
      have hstep := storageStep_inv oldS kv acc I pluginId hacc he hd
      exact ih _ hstep.1 hstep.2.1 hstep.2.2

/-- C1: echoes of in-flight commands never reconcile, and the reconcile
path never writes to the configuration store or persistent storage.
If the operation token for a module and direction is in the in-flight set,
`_handleStorageChange` invokes no reconcile action for that module and
direction (the notification is ignored as an echo).  And the reconcile
handlers `_reconcileEnable`/`_reconcileDisable` emit no store write: no
`SettingsStore.set` (so no enabled-flag write), no persist scheduling, no
storage write — their trace is runtime start/stop bookkeeping only — and
the enabled flag of every module in the configuration store is unchanged
by them. -/
theorem c1_inflight_echo_ignored_and_reconcile_never_writes
    (fw : Framework) (change : StorageChange) (pluginId : String) :
    (opToken pluginId true ∈ fw.inflight →
        RAct.reconcileEnable pluginId ∉ (handleStorageChange fw change).2.2)
    ∧ (opToken pluginId false ∈ fw.inflight →
        RAct.reconcileDisable pluginId ∉ (handleStorageChange fw change).2.2)
    ∧ NoStoreWrite (reconcileEnable fw pluginId).2.2
    ∧ NoStoreWrite (reconcileDisable fw pluginId).2.2
    ∧ (∀ p, (reconcileEnable fw pluginId).2.1.core.settings.isPluginEnabled p
          = fw.core.settings.isPluginEnabled p)
    ∧ (∀ p, (reconcileDisable fw pluginId).2.1.core.settings.isPluginEnabled p
          = fw.core.settings.isPluginEnabled p) := by
  refine ⟨?_, ?_, (reconcileEnable_spec fw pluginId).2.1,
    (reconcileDisable_spec fw pluginId).2.1,
    (reconcileEnable_spec fw pluginId).2.2,
    (reconcileDisable_spec fw pluginId).2.2⟩ <;>
  · intro hmem
    simp only [handleStorageChange]
    split
    · simp
    · split
      · simp
      · split
        · simp
        · rename_i x1 newSettings hq1 x2 oldSettings hq2
          have hf := storage_fold_inv oldSettings newSettings.plugins (fw, [], [])
            fw.inflight pluginId rfl
            (fun _ => List.not_mem_nil _) (fun _ => List.not_mem_nil _)
          first
            | exact hf.2.1 hmem
            | exact hf.2.2 hmem

/-- A concrete framework in which the enable operation for "p" is
in flight while a storage echo reporting p's enabled transition arrives. -/
def c1Fw : Framework :=
  ⟨⟨⟨[("p", ⟨"p", "P", "1.0.0", "mod", [], [], []⟩)], [], [("p", PState.STARTING)], [],
     [("p", [])], []⟩,
    ⟨[], [], 0⟩,
    ⟨⟨"1.0.0", [], [("p", ⟨JSVal.vBool true, []⟩)]⟩, []⟩, []⟩,
   [opToken "p" true], false, true, ["p"]⟩

def c1Change : StorageChange :=
  ⟨some ⟨"1.0.0", [], [("p", ⟨JSVal.vBool true, []⟩)]⟩,
   some ⟨"1.0.0", [], [("p", ⟨JSVal.vBool false, []⟩)]⟩⟩

/-- Witness for `c1_inflight_echo_ignored_and_reconcile_never_writes` at a
concrete echo during an in-flight enable. -/
theorem c1_inflight_echo_ignored_and_reconcile_never_writes_witness :
    opToken "p" true ∈ c1Fw.inflight
    ∧ RAct.reconcileEnable "p" ∉ (handleStorageChange c1Fw c1Change).2.2
    ∧ NoStoreWrite (reconcileEnable c1Fw "p").2.2
    ∧ (reconcileEnable c1Fw "p").2.1.core.settings.isPluginEnabled "p"
        = c1Fw.core.settings.isPluginEnabled "p" :=
  ⟨by decide,
    (c1_inflight_echo_ignored_and_reconcile_never_writes c1Fw c1Change "p").1 (by decide),
    (c1_inflight_echo_ignored_and_reconcile_never_writes c1Fw c1Change "p").2.2.1,
    (c1_inflight_echo_ignored_and_reconcile_never_writes c1Fw c1Change "p").2.2.2.2.1 "p"⟩

/-! ### PluginLoader.resolveLoadOrder

Embedding of the topological sort (Kahn's algorithm).  The two JS maps
(`graph`: dependency → dependents, `inDegree`) are association lists; the
while loop is a well-founded recursion whose measure is the sum of the
positive in-degrees plus the queue length. -/

/-- The first loop of `resolveLoadOrder`: seed `graph[id] = []` and
`inDegree[id] = 0` for every input id. -/
def initMaps (pluginIds : List String) :
    List (String × List String) × List (String × Int) :=
  pluginIds.foldl (fun acc id => (aset acc.1 id [], aset acc.2 id 0)) ([], [])

/-- The edge-insertion body: `graph.get(depId).push(id)` (creating the
adjacency list if missing) and `inDegree.set(id, (inDegree.get(id)||0)+1)`. -/
def addEdge (maps : List (String × List String) × List (String × Int)) (depId id : String) :
    List (String × List String) × List (String × Int) :=
  let graph := if (aget maps.1 depId).isSome then maps.1 else aset maps.1 depId []
  let graph := aset graph depId (((aget graph depId).getD []) ++ [id])
  let inDeg := aset maps.2 id (((aget maps.2 id).getD 0) + 1)
  (graph, inDeg)

/-- The second loop of `resolveLoadOrder`: for every id, add an edge from
each of its dependencies that is itself among the input ids. -/
def buildEdges (reg : Registry) (pluginIds : List String)
    (maps : List (String × List String) × List (String × Int)) :
    List (String × List String) × List (String × Int) :=
  pluginIds.foldl (fun maps id =>
    (reg.getDependencies id).foldl (fun maps depId =>
      if pluginIds.contains depId then addEdge maps depId id else maps) maps) maps

structure KahnSt where
  inDeg : List (String × Int)
  queue : List String
  result : List String

/-- Processing of one neighbour inside the while loop: decrement its
in-degree and enqueue it when the stored value reaches zero. -/
def processNeighbor (s : KahnSt) (n : String) : KahnSt :=
  let d := ((aget s.inDeg n).getD 0) - 1
  { s with
    inDeg := aset s.inDeg n d,
    queue := if d = 0 then s.queue ++ [n] else s.queue }

def posSum (l : List (String × Int)) : Nat := (l.map (fun kv => kv.2.toNat)).sum

def kahnMeasure (s : KahnSt) : Nat := posSum s.inDeg + s.queue.length

theorem posSum_aset_dec (l : List (String × Int)) (n : String) :
    posSum (aset l n ((aget l n).getD 0 - 1)) + ((aget l n).getD 0).toNat
      = posSum l + ((aget l n).getD 0 - 1).toNat := by
  induction l with
  | nil => simp [aset, aget, posSum]
  | cons hd t ih =>
      obtain ⟨k, w⟩ := hd
      by_cases hk : k = n
      · subst hk
        simp [aset, aget, posSum]
        omega
      · simp only [aset, aget, if_neg hk, posSum, List.map_cons, List.sum_cons] at ih ⊢
        omega

theorem processNeighbor_measure (s : KahnSt) (n : String) :
    kahnMeasure (processNeighbor s n) ≤ kahnMeasure s := by
  have h := posSum_aset_dec s.inDeg n
  simp only [processNeighbor, kahnMeasure]
  by_cases hz : (aget s.inDeg n).getD 0 - 1 = 0
  · rw [if_pos hz]
    simp only [List.length_append, List.length_singleton]
    omega
  · rw [if_neg hz]
    omega

theorem foldl_processNeighbor_measure (ns : List String) (s : KahnSt) :
    kahnMeasure (ns.foldl processNeighbor s) ≤ kahnMeasure s := by
  induction ns generalizing s with
  | nil => exact Nat.le_refl _
  | cons n rest ih =>
      exact Nat.le_trans (ih (processNeighbor s n)) (processNeighbor_measure s n)

/-- The while loop of `resolveLoadOrder` (Kahn's algorithm): pop the queue
head, append it to the result, and process its dependents. -/
def kahnLoop (graph : List (String × List String)) (s : KahnSt) : KahnSt :=
  match hq : s.queue with
  | [] => s
  | current :: rest =>
      kahnLoop graph
        (((aget graph current).getD []).foldl processNeighbor
          ⟨s.inDeg, rest, s.result ++ [current]⟩)
termination_by kahnMeasure s
decreasing_by
  have h1 := foldl_processNeighbor_measure ((aget graph current).getD [])
    ⟨s.inDeg, rest, s.result ++ [current]⟩
  simp only [kahnMeasure] at h1 ⊢
  rw [hq]
  simp only [List.length_cons]
  omega

/-- The error thrown on a topological-sort shortfall (spec taxonomy name:
CircularDependency), carrying the unresolved ids. -/
inductive LoadError where
  | circularDependency (unresolved : List String)
deriving DecidableEq, Repr

/-- The JS error message. -/
def LoadError.message : LoadError → String
  | .circularDependency us =>
      "Circular dependency detected in plugins: " ++ String.intercalate ", " us

/-- `PluginLoader.resolveLoadOrder`. -/
def resolveLoadOrder (reg : Registry) (pluginIds : List String) :
    Except LoadError (List String) :=
  let maps := buildEdges reg pluginIds (initMaps pluginIds)
  let queue0 := (maps.2.filter (fun kv => kv.2 = 0)).map (fun kv => kv.1)
  let final := kahnLoop maps.1 ⟨maps.2, queue0, []⟩
  if final.result.length ≠ pluginIds.length then
    .error (.circularDependency (pluginIds.filter (fun id => !final.result.contains id)))
  else .ok final.result

theorem contains_true_iff (l : List String) (a : String) : l.contains a = true ↔ a ∈ l :=
  List.elem_iff

/-- Number of dependencies of `x` that lie inside the input set and are
not yet resolved into `res`: the remaining in-degree of `x`. -/
def degRem (reg : Registry) (ids res : List String) (x : String) : Nat :=
  ((reg.getDependencies x).filter (fun d => ids.contains d && !res.contains d)).length

/-- Number of dependencies of `x` inside the input set: the initial
in-degree. -/
def countDepsIn (reg : Registry) (ids : List String) (x : String) : Nat :=
  ((reg.getDependencies x).filter (fun d => ids.contains d)).length

theorem degRem_nil (reg : Registry) (ids : List String) (x : String) :
    degRem reg ids [] x = countDepsIn reg ids x := by
  unfold degRem countDepsIn
  congr 1
  apply List.filter_congr
  intro d _
  simp

theorem initMaps_eq (l : List String) :
    initMaps l = (l.foldl (fun m id => aset m id ([] : List String)) [],
                  l.foldl (fun m id => aset m id (0 : Int)) []) := by
  suffices h : ∀ (a : List (String × List String)) (b : List (String × Int)),
      l.foldl (fun acc id => (aset acc.1 id [], aset acc.2 id 0)) (a, b)
        = (l.foldl (fun m id => aset m id [] ) a, l.foldl (fun m id => aset m id 0) b) by
    exact h [] []
  induction l with
  | nil => intro a b; rfl
  | cons id t ih => intro a b; exact ih (aset a id []) (aset b id 0)

theorem aget_foldl_aset_const {α : Type} (l : List String) (v0 : α)
    (acc : List (String × α)) (x : String) :
    aget (l.foldl (fun m id => aset m id v0) acc) x
      = if x ∈ l then some v0 else aget acc x := by
  induction l generalizing acc with
  | nil => simp
  | cons id t ih =>
      simp only [List.foldl_cons]
      rw [ih]
      by_cases hx : x ∈ t
      · simp [hx]
      · by_cases hxi : x = id
        · subst hxi
          simp [hx, aget_aset_self]
        · simp [hx, hxi, aget_aset_ne _ _ _ _ hxi]

theorem akeys_foldl_aset_const {α : Type} (l : List String) (v0 : α)
    (acc : List (String × α)) (hl : l.Nodup) (hdisj : ∀ x ∈ l, x ∉ akeys acc) :
    akeys (l.foldl (fun m id => aset m id v0) acc) = akeys acc ++ l := by
  induction l generalizing acc with
  | nil => simp
  | cons id t ih =>
      simp only [List.foldl_cons]
      have hid : id ∉ akeys acc := hdisj id (List.mem_cons_self _ _)
      have hkeys := akeys_aset_of_not_mem acc id v0 hid
      have hdisj2 : ∀ x ∈ t, x ∉ akeys (aset acc id v0) := by
        intro x hx
        rw [hkeys]
        simp only [List.mem_append, List.mem_singleton, not_or]
        exact ⟨hdisj x (List.mem_cons_of_mem _ hx),
          fun hxi => (List.nodup_cons.mp hl).1 (hxi ▸ hx)⟩
      rw [ih (aset acc id v0) (List.nodup_cons.mp hl).2 hdisj2, hkeys, List.append_assoc]
      rfl

theorem addEdge_graph_self (maps : List (String × List String) × List (String × Int))
    (c x : String) :
    aget (addEdge maps c x).1 c = some ((aget maps.1 c).getD [] ++ [x]) := by
  unfold addEdge
  cases hg : aget maps.1 c with
  | none => simp [hg, aget_aset_self]
  | some gl => simp [hg, aget_aset_self]

theorem addEdge_graph_ne (maps : List (String × List String) × List (String × Int))
    (c x y : String) (h : y ≠ c) :
    aget (addEdge maps c x).1 y = aget maps.1 y := by
  unfold addEdge
  cases hg : aget maps.1 c with
  | none => simp [hg, aget_aset_ne _ _ _ _ h]
  | some gl => simp [hg, aget_aset_ne _ _ _ _ h]

theorem addEdge_inDeg_self (maps : List (String × List String) × List (String × Int))
    (c x : String) :
    aget (addEdge maps c x).2 x = some ((aget maps.2 x).getD 0 + 1) := by
  unfold addEdge
  simp [aget_aset_self]

theorem addEdge_inDeg_ne (maps : List (String × List String) × List (String × Int))
    (c x y : String) (h : y ≠ x) :
    aget (addEdge maps c x).2 y = aget maps.2 y := by
  unfold addEdge
  simp [aget_aset_ne _ _ _ _ h]

theorem addEdge_inDeg_keys (maps : List (String × List String) × List (String × Int))
    (c x : String) (h : x ∈ akeys maps.2) :
    akeys (addEdge maps c x).2 = akeys maps.2 := by
  unfold addEdge
  simp [akeys_aset_of_mem _ _ _ h]

theorem depsFold_inDeg_self (ids dl : List String) (x : String)
    (maps : List (String × List String) × List (String × Int)) (v : Int)
    (hv : aget maps.2 x = some v) :
    aget (dl.foldl (fun maps depId =>
        if ids.contains depId then addEdge maps depId x else maps) maps).2 x
      = some (v + (dl.filter (fun d => ids.contains d)).length) := by
  induction dl generalizing maps v with
  | nil => simpa using hv
  | cons d t ih =>
      simp only [List.foldl_cons, List.filter_cons]
      by_cases hc : ids.contains d = true
      · rw [if_pos hc]
        have h2 : aget (addEdge maps d x).2 x = some (v + 1) := by
          rw [addEdge_inDeg_self, hv]; rfl
        rw [ih _ _ h2]
        simp only [hc, if_true, List.length_cons]
        congr 1
        push_cast
        ring
      · rw [if_neg hc, ih _ _ hv]
        simp only [hc]
        rfl

theorem depsFold_inDeg_ne (ids dl : List String) (x y : String)
    (maps : List (String × List String) × List (String × Int)) (h : y ≠ x) :
    aget (dl.foldl (fun maps depId =>
        if ids.contains depId then addEdge maps depId x else maps) maps).2 y
      = aget maps.2 y := by
  induction dl generalizing maps with
  | nil => rfl
  | cons d t ih =>
      simp only [List.foldl_cons]
      by_cases hc : ids.contains d = true
      · rw [if_pos hc, ih, addEdge_inDeg_ne _ _ _ _ h]
      · rw [if_neg hc, ih]

theorem depsFold_inDeg_keys (ids dl : List String) (x : String)
    (maps : List (String × List String) × List (String × Int)) (h : x ∈ akeys maps.2) :
    akeys (dl.foldl (fun maps depId =>
        if ids.contains depId then addEdge maps depId x else maps) maps).2
      = akeys maps.2 := by
  induction dl generalizing maps with
  | nil => rfl
  | cons d t ih =>
      simp only [List.foldl_cons]
      by_cases hc : ids.contains d = true
      · rw [if_pos hc, ih _ (by rw [addEdge_inDeg_keys _ _ _ h]; exact h),
          addEdge_inDeg_keys _ _ _ h]
      · rw [if_neg hc, ih _ h]

theorem depsFold_graph_not_mem (ids dl : List String) (x c : String)
    (maps : List (String × List String) × List (String × Int)) (h : c ∉ dl) :
    aget (dl.foldl (fun maps depId =>
        if ids.contains depId then addEdge maps depId x else maps) maps).1 c
      = aget maps.1 c := by
  induction dl generalizing maps with
  | nil => rfl
  | cons d t ih =>
      simp only [List.mem_cons, not_or] at h
      simp only [List.foldl_cons]
      by_cases hc : ids.contains d = true
      · rw [if_pos hc, ih _ h.2, addEdge_graph_ne _ _ _ _ h.1]
      · rw [if_neg hc, ih _ h.2]

theorem depsFold_graph_self (ids dl : List String) (x c : String)
    (maps : List (String × List String) × List (String × Int)) (gl : List String)
    (hnodup : dl.Nodup) (hgl : aget maps.1 c = some gl) :
    aget (dl.foldl (fun maps depId =>
        if ids.contains depId then addEdge maps depId x else maps) maps).1 c
      = some (gl ++ if c ∈ dl ∧ ids.contains c = true then [x] else []) := by
  induction dl generalizing maps gl with
  | nil => simpa using hgl
  | cons d t ih =>
      simp only [List.foldl_cons]
      by_cases hdc : d = c
      · subst hdc
        have hnt : d ∉ t := (List.nodup_cons.mp hnodup).1
        by_cases hc : ids.contains d = true
        · have hdi : d ∈ ids := (contains_true_iff _ _).mp hc
          rw [if_pos hc, depsFold_graph_not_mem _ _ _ _ _ hnt,
            addEdge_graph_self, hgl]
          simp [hc, hdi]
        · have hdi : d ∉ ids := fun hm => hc ((contains_true_iff _ _).mpr hm)
          rw [if_neg hc, depsFold_graph_not_mem _ _ _ _ _ hnt, hgl]
          simp [hc, hdi]
      · by_cases hc : ids.contains d = true
        · rw [if_pos hc]
          have hgl2 : aget (addEdge maps d x).1 c = some gl := by
            rw [addEdge_graph_ne _ _ _ _ (Ne.symm hdc), hgl]
          rw [ih _ _ (List.nodup_cons.mp hnodup).2 hgl2]
          congr 2
          simp [List.mem_cons, Ne.symm hdc, hdc]
        · rw [if_neg hc, ih _ _ (List.nodup_cons.mp hnodup).2 hgl]
          congr 2
          simp [List.mem_cons, Ne.symm hdc, hdc]

theorem outerFold_inDeg_not_mem (reg : Registry) (ids l : List String)
    (maps : List (String × List String) × List (String × Int)) (x : String) (h : x ∉ l) :
    aget (l.foldl (fun maps id => (reg.getDependencies id).foldl (fun maps depId =>
        if ids.contains depId then addEdge maps depId id else maps) maps) maps).2 x
      = aget maps.2 x := by
  induction l generalizing maps with
  | nil => rfl
  | cons id t ih =>
      simp only [List.mem_cons, not_or] at h
      simp only [List.foldl_cons]
      rw [ih _ h.2, depsFold_inDeg_ne _ _ _ _ _ h.1]

theorem outerFold_inDeg_get (reg : Registry) (ids l : List String)
    (maps : List (String × List String) × List (String × Int)) (x : String) (v : Int)
    (hnd : l.Nodup) (hv : aget maps.2 x = some v) :
    aget (l.foldl (fun maps id => (reg.getDependencies id).foldl (fun maps depId =>
        if ids.contains depId then addEdge maps depId id else maps) maps) maps).2 x
      = some (v + if x ∈ l then (countDepsIn reg ids x : Int) else 0) := by
  induction l generalizing maps v with
  | nil => simpa using hv
  | cons id t ih =>
      simp only [List.foldl_cons]
      by_cases hx : id = x
      · subst hx
        have hnt : id ∉ t := (List.nodup_cons.mp hnd).1
        rw [outerFold_inDeg_not_mem _ _ _ _ _ hnt,
          depsFold_inDeg_self _ _ _ _ _ hv]
        simp [countDepsIn]
      · rw [ih _ _ (List.nodup_cons.mp hnd).2
            (by rw [depsFold_inDeg_ne _ _ _ _ _ (Ne.symm hx)]; exact hv)]
        simp [List.mem_cons, Ne.symm hx, hx]

theorem outerFold_inDeg_keys (reg : Registry) (ids l : List String)
    (maps : List (String × List String) × List (String × Int))
    (h : ∀ id ∈ l, id ∈ akeys maps.2) :
    akeys (l.foldl (fun maps id => (reg.getDependencies id).foldl (fun maps depId =>
        if ids.contains depId then addEdge maps depId id else maps) maps) maps).2
      = akeys maps.2 := by
  induction l generalizing maps with
  | nil => rfl
  | cons id t ih =>
      simp only [List.foldl_cons]
      have hk := depsFold_inDeg_keys ids (reg.getDependencies id) id maps
        (h id (List.mem_cons_self _ _))
      rw [ih _ (fun i hi => by rw [hk]; exact h i (List.mem_cons_of_mem _ hi)), hk]

theorem outerFold_graph_get (reg : Registry) (ids l : List String)
    (maps : List (String × List String) × List (String × Int)) (c : String)
    (gl : List String) (hdnd : ∀ x ∈ l, (reg.getDependencies x).Nodup)
    (hc : ids.contains c = true) (hgl : aget maps.1 c = some gl) :
    aget (l.foldl (fun maps id => (reg.getDependencies id).foldl (fun maps depId =>
        if ids.contains depId then addEdge maps depId id else maps) maps) maps).1 c
      = some (gl ++ l.filter (fun x => (reg.getDependencies x).contains c)) := by
  induction l generalizing maps gl with
  | nil => simpa using hgl
  | cons x t ih =>
      simp only [List.foldl_cons, List.filter_cons]
      have hstep := depsFold_graph_self ids (reg.getDependencies x) x c maps gl
        (hdnd x (List.mem_cons_self _ _)) hgl
      have hci : c ∈ ids := (contains_true_iff _ _).mp hc
      by_cases hmem : (reg.getDependencies x).contains c = true
      · have hmem' : c ∈ reg.getDependencies x := (contains_true_iff _ _).mp hmem
        rw [ih _ _ (fun y hy => hdnd y (List.mem_cons_of_mem _ hy)) (by rw [hstep])]
        simp [hmem', hci, hc, List.append_assoc]
      · have hmem' : c ∉ reg.getDependencies x := fun hm =>
          hmem ((contains_true_iff _ _).mpr hm)
        rw [ih _ _ (fun y hy => hdnd y (List.mem_cons_of_mem _ hy)) (by rw [hstep])]
        simp [hmem']

theorem buildEdges_inDeg_get (reg : Registry) (ids : List String) (x : String)
    (hnd : ids.Nodup) (hx : x ∈ ids) :
    aget (buildEdges reg ids (initMaps ids)).2 x = some ((countDepsIn reg ids x : Int)) := by
  unfold buildEdges
  have h0 : aget (initMaps ids).2 x = some 0 := by
    rw [initMaps_eq]
    simp [aget_foldl_aset_const, hx]
  rw [outerFold_inDeg_get reg ids ids _ x 0 hnd h0]
  simp [hx]

theorem buildEdges_inDeg_keys (reg : Registry) (ids : List String) (hnd : ids.Nodup) :
    akeys (buildEdges reg ids (initMaps ids)).2 = ids := by
  unfold buildEdges
  have hkeys0 : akeys (initMaps ids).2 = ids := by
    rw [initMaps_eq]
    have h := akeys_foldl_aset_const ids (0 : Int) [] hnd (by simp [akeys])
    simpa [akeys] using h
  rw [outerFold_inDeg_keys reg ids ids _ (fun id hid => by rw [hkeys0]; exact hid), hkeys0]

theorem buildEdges_graph_get (reg : Registry) (ids : List String) (c : String)
    (hdnd : ∀ x ∈ ids, (reg.getDependencies x).Nodup) (hc : c ∈ ids) :
    aget (buildEdges reg ids (initMaps ids)).1 c
      = some (ids.filter (fun x => (reg.getDependencies x).contains c)) := by
  unfold buildEdges
  have h0 : aget (initMaps ids).1 c = some [] := by
    rw [initMaps_eq]
    simp [aget_foldl_aset_const, hc]
  rw [outerFold_graph_get reg ids ids _ c [] hdnd ((contains_true_iff _ _).mpr hc) h0]
  simp

theorem mem_zeroKeys_iff (l : List (String × Int)) (x : String)
    (hnd : (akeys l).Nodup) :
    x ∈ (l.filter (fun kv => kv.2 = 0)).map (fun kv => kv.1) ↔ aget l x = some 0 := by
  constructor
  · intro h
    obtain ⟨kv, hkv, hfst⟩ := List.mem_map.mp h
    obtain ⟨hmem, hz⟩ := List.mem_filter.mp hkv
    have hz' : kv.2 = 0 := by simpa using hz
    obtain ⟨k, v⟩ := kv
    simp only at hfst hz'
    rw [← hfst, ← hz']
    exact aget_eq_some_of_mem l k v hnd hmem
  · intro h
    exact List.mem_map.mpr ⟨(x, 0),
      List.mem_filter.mpr ⟨aget_mem_of_eq_some l x 0 h, by simp⟩, rfl⟩

/-! Remaining-degree facts used by the Kahn loop invariant. -/

theorem contains_eq_of_mem_iff (l₁ l₂ : List String) (d : String)
    (h : d ∈ l₁ ↔ d ∈ l₂) : l₁.contains d = l₂.contains d := by
  cases hcc : l₂.contains d with
  | true => exact (contains_true_iff _ _).mpr (h.mpr ((contains_true_iff _ _).mp hcc))
  | false =>
      cases hdd : l₁.contains d with
      | false => rfl
      | true =>
          rw [(contains_true_iff _ _).mpr (h.mp ((contains_true_iff _ _).mp hdd))] at hcc
          exact Bool.noConfusion hcc

theorem degRem_eq_zero_iff (reg : Registry) (ids res : List String) (x : String) :
    degRem reg ids res x = 0
      ↔ ∀ d ∈ reg.getDependencies x, d ∈ ids → d ∈ res := by
  unfold degRem
  rw [List.length_eq_zero, List.filter_eq_nil_iff]
  constructor
  · intro h d hd hdi
    by_contra hres
    apply h d hd
    rw [Bool.and_eq_true]
    refine ⟨(contains_true_iff _ _).mpr hdi, ?_⟩
    cases hcc : res.contains d with
    | false => rfl
    | true => exact absurd ((contains_true_iff _ _).mp hcc) hres
  · intro h d hd hcon
    rw [Bool.and_eq_true] at hcon
    have hdi : d ∈ ids := (contains_true_iff _ _).mp hcon.1
    have h2 : res.contains d = true := (contains_true_iff _ _).mpr (h d hd hdi)
    rw [h2] at hcon
    exact Bool.noConfusion hcon.2

theorem degRem_append_of_not_dep (reg : Registry) (ids res : List String)
    (x c : String) (hc : c ∉ reg.getDependencies x) :
    degRem reg ids (res ++ [c]) x = degRem reg ids res x := by
  unfold degRem
  congr 1
  apply List.filter_congr
  intro d hd
  have hdc : d ≠ c := fun h => hc (h ▸ hd)
  rw [contains_eq_of_mem_iff (res ++ [c]) res d (by simp [List.mem_append, hdc])]

theorem degRem_append_of_mem (reg : Registry) (ids res : List String)
    (x c : String) (hc : c ∈ res) :
    degRem reg ids (res ++ [c]) x = degRem reg ids res x := by
  unfold degRem
  congr 1
  apply List.filter_congr
  intro d hd
  rw [contains_eq_of_mem_iff (res ++ [c]) res d (by
    constructor
    · intro hm
      rcases List.mem_append.mp hm with hm | hm
      · exact hm
      · rw [List.mem_singleton.mp hm]; exact hc
    · exact fun hm => List.mem_append.mpr (.inl hm))]

theorem degRem_append_dep (reg : Registry) (ids res : List String) (x c : String)
    (hdnd : (reg.getDependencies x).Nodup) (hc : c ∈ reg.getDependencies x)
    (hci : c ∈ ids) (hcr : c ∉ res) :
    degRem reg ids res x = degRem reg ids (res ++ [c]) x + 1 := by
  obtain ⟨l₁, l₂, hsplit⟩ := List.append_of_mem hc
  rw [hsplit] at hdnd
  have hdisj := List.disjoint_of_nodup_append hdnd
  have hcl₁ : c ∉ l₁ := fun hm => hdisj hm (List.mem_cons_self _ _)
  have hcl₂ : c ∉ l₂ :=
    (List.nodup_cons.mp (List.Nodup.of_append_right hdnd)).1
  unfold degRem
  rw [hsplit, List.filter_append, List.filter_append, List.filter_cons, List.filter_cons]
  have hpred_old : (ids.contains c && !res.contains c) = true := by
    rw [Bool.and_eq_true]
    refine ⟨(contains_true_iff _ _).mpr hci, ?_⟩
    cases hcc : res.contains c with
    | false => rfl
    | true => exact absurd ((contains_true_iff _ _).mp hcc) hcr
  have hpred_new : ¬((ids.contains c && !(res ++ [c]).contains c) = true) := by
    have hmem : (res ++ [c]).contains c = true :=
      (contains_true_iff _ _).mpr (List.mem_append.mpr (.inr (List.mem_singleton.mpr rfl)))
    rw [hmem]
    simp
  have hagree : ∀ (l : List String), c ∉ l →
      l.filter (fun d => ids.contains d && !(res ++ [c]).contains d)
        = l.filter (fun d => ids.contains d && !res.contains d) := by
    intro l hl
    apply List.filter_congr
    intro d hd
    have hdc : d ≠ c := fun h => hl (h ▸ hd)
    rw [contains_eq_of_mem_iff (res ++ [c]) res d (by simp [List.mem_append, hdc])]
  rw [if_pos hpred_old, if_neg hpred_new, hagree l₁ hcl₁, hagree l₂ hcl₂]
  simp only [List.length_append, List.length_cons]
  omega

theorem degRem_zero_of_order (reg : Registry) (ids res : List String)
    (horder : ∀ l₁ x l₂, res = l₁ ++ x :: l₂ →
      ∀ d ∈ reg.getDependencies x, d ∈ ids → d ∈ l₁)
    (x : String) (hx : x ∈ res) : degRem reg ids res x = 0 := by
  obtain ⟨l₁, l₂, hsplit⟩ := List.append_of_mem hx
  rw [degRem_eq_zero_iff]
  intro d hd hdi
  have hmem := horder l₁ x l₂ hsplit d hd hdi
  rw [hsplit]
  exact List.mem_append.mpr (.inl hmem)

/-! Behaviour of the inner `forEach`-over-dependents fold of the while loop. -/

theorem foldl_processNeighbor_result (N : List String) (s : KahnSt) :
    (N.foldl processNeighbor s).result = s.result := by
  induction N generalizing s with
  | nil => rfl
  | cons n t ih => rw [List.foldl_cons, ih]; rfl

theorem foldl_processNeighbor_inDeg_not_mem (N : List String) (s : KahnSt) (x : String)
    (hx : x ∉ N) :
    aget (N.foldl processNeighbor s).inDeg x = aget s.inDeg x := by
  induction N generalizing s with
  | nil => rfl
  | cons n t ih =>
      simp only [List.mem_cons, not_or] at hx
      rw [List.foldl_cons, ih _ hx.2]
      simp only [processNeighbor]
      exact aget_aset_ne _ _ _ _ hx.1

theorem foldl_processNeighbor_inDeg_mem (N : List String) (s : KahnSt) (x : String)
    (hnd : N.Nodup) (hx : x ∈ N) :
    aget (N.foldl processNeighbor s).inDeg x
      = some ((aget s.inDeg x).getD 0 - 1) := by
  induction N generalizing s with
  | nil => simp at hx
  | cons n t ih =>
      rw [List.foldl_cons]
      by_cases hxn : x = n
      · subst hxn
        have hxt : x ∉ t := (List.nodup_cons.mp hnd).1
        rw [foldl_processNeighbor_inDeg_not_mem t _ x hxt]
        simp only [processNeighbor]
        exact aget_aset_self _ _ _
      · have hxt : x ∈ t := by
          rcases List.mem_cons.mp hx with h | h
          · exact absurd h hxn
          · exact h
        rw [ih _ (List.nodup_cons.mp hnd).2 hxt]
        simp only [processNeighbor]
        rw [aget_aset_ne _ _ _ _ hxn]

theorem foldl_processNeighbor_queue (N : List String) (s : KahnSt) (hnd : N.Nodup) :
    (N.foldl processNeighbor s).queue
      = s.queue ++ N.filter (fun n => (aget s.inDeg n).getD 0 - 1 = 0) := by
  induction N generalizing s with
  | nil => simp
  | cons n t ih =>
      rw [List.foldl_cons, ih _ (List.nodup_cons.mp hnd).2, List.filter_cons]
      have hnt : n ∉ t := (List.nodup_cons.mp hnd).1
      have hfe : t.filter (fun m => (aget (processNeighbor s n).inDeg m).getD 0 - 1 = 0)
          = t.filter (fun m => (aget s.inDeg m).getD 0 - 1 = 0) := by
        apply List.filter_congr
        intro m hm
        have hmn : m ≠ n := fun h => hnt (h ▸ hm)
        simp only [processNeighbor,
          aget_aset_ne s.inDeg n m ((aget s.inDeg n).getD 0 - 1) hmn]
      rw [hfe]
      by_cases hz : (aget s.inDeg n).getD 0 - 1 = 0
      · rw [if_pos (decide_eq_true hz)]
        simp only [processNeighbor, if_pos hz]
        rw [List.append_assoc]
        rfl
      · rw [if_neg (by simp [hz])]
        simp only [processNeighbor, if_neg hz]

/-! Positional helpers for the ordering invariant. -/

theorem append_singleton_split {α : Type} (res l₁ l₂ : List α) (x c : α)
    (h : res ++ [c] = l₁ ++ x :: l₂) :
    (∃ l₂', l₂ = l₂' ++ [c] ∧ res = l₁ ++ x :: l₂') ∨ (x = c ∧ l₁ = res ∧ l₂ = []) := by
  rcases List.eq_nil_or_concat l₂ with h2 | ⟨l₂', a, h2⟩
  · subst h2
    obtain ⟨h3, h4⟩ := List.append_inj' h rfl
    right
    injection h4 with h5 _
    exact ⟨h5.symm, h3.symm, rfl⟩
  · rw [List.concat_eq_append] at h2
    subst h2
    left
    rw [← List.cons_append, ← List.append_assoc] at h
    obtain ⟨h3, h4⟩ := List.append_inj' h rfl
    injection h4 with h5 _
    exact ⟨l₂', by rw [h5], h3⟩

theorem exists_first_mem_split (res l : List String) (hx : ∃ y, y ∈ res ∧ y ∈ l) :
    ∃ l₁ x l₂, res = l₁ ++ x :: l₂ ∧ x ∈ l ∧ ∀ z ∈ l₁, z ∉ l := by
  induction res with
  | nil => obtain ⟨y, hy, _⟩ := hx; simp at hy
  | cons h t ih =>
      by_cases hh : h ∈ l
      · exact ⟨[], h, t, rfl, hh, by simp⟩
      · obtain ⟨y, hy, hyl⟩ := hx
        have hyt : y ∈ t := by
          rcases List.mem_cons.mp hy with h1 | h1
          · exact absurd (h1 ▸ hyl) hh
          · exact h1
        obtain ⟨l₁, x, l₂, he, hxl, hl₁⟩ := ih ⟨y, hyt, hyl⟩
        refine ⟨h :: l₁, x, l₂, by rw [he, List.cons_append], hxl, ?_⟩
        intro z hz
        rcases List.mem_cons.mp hz with h1 | h1
        · exact h1 ▸ hh
        · exact hl₁ z h1

/-- Acyclicity of the dependency subgraph induced on `ids`: every nonempty
subcollection (as a sublist of `ids`) contains a member none of whose
in-set dependencies lies in the subcollection. -/
def Acyclic (reg : Registry) (ids : List String) : Prop :=
  ∀ l, l.Sublist ids → l ≠ [] →
    ∃ x ∈ l, ∀ d ∈ reg.getDependencies x, d ∈ ids → d ∉ l

theorem Acyclic_iff_sublists (reg : Registry) (ids : List String) :
    Acyclic reg ids ↔ ∀ l ∈ ids.sublists, l ≠ [] →
      ∃ x ∈ l, ∀ d ∈ reg.getDependencies x, d ∈ ids → d ∉ l := by
  unfold Acyclic
  constructor
  · intro h l hl
    exact h l (List.mem_sublists.mp hl)
  · intro h l hl
    exact h l (List.mem_sublists.mpr hl)

/-- Invariant of the Kahn while loop: the emitted prefix is a
duplicate-free, dependency-closed part of the input, the queue holds
exactly the unemitted ids of remaining in-degree zero, and the in-degree
map stores the remaining in-degree of every input id. -/
def KInv (reg : Registry) (ids : List String) (s : KahnSt) : Prop :=
  s.result.Nodup ∧
  (∀ x ∈ s.result, x ∈ ids) ∧
  s.queue.Nodup ∧
  (∀ x, x ∈ s.queue ↔ (x ∈ ids ∧ x ∉ s.result ∧ degRem reg ids s.result x = 0)) ∧
  (∀ x ∈ ids, aget s.inDeg x = some ((degRem reg ids s.result x : Int))) ∧
  (∀ l₁ x l₂, s.result = l₁ ++ x :: l₂ →
     ∀ d ∈ reg.getDependencies x, d ∈ ids → d ∈ l₁)

theorem kInv_init (reg : Registry) (ids : List String)
    (hnd : ids.Nodup) (hdnd : ∀ x ∈ ids, (reg.getDependencies x).Nodup) :
    KInv reg ids
      ⟨(buildEdges reg ids (initMaps ids)).2,
       ((buildEdges reg ids (initMaps ids)).2.filter
          (fun kv => kv.2 = 0)).map (fun kv => kv.1),
       []⟩ := by
  have hkeys : akeys (buildEdges reg ids (initMaps ids)).2 = ids :=
    buildEdges_inDeg_keys reg ids hnd
  have hknd : (akeys (buildEdges reg ids (initMaps ids)).2).Nodup := by
    rw [hkeys]; exact hnd
  refine ⟨List.nodup_nil, by simp, ?_, ?_, ?_, ?_⟩
  · have hsub := List.Sublist.map (fun kv : String × Int => kv.1)
      (List.filter_sublist (p := fun kv => kv.2 = 0)
        ((buildEdges reg ids (initMaps ids)).2))
    exact List.Nodup.sublist hsub hknd
  · intro x
    rw [mem_zeroKeys_iff _ x hknd]
    constructor
    · intro h
      have hxi : x ∈ ids := by
        by_contra hxi
        rw [(aget_eq_none_iff _ _).mpr (by rw [hkeys]; exact hxi)] at h
        exact Option.noConfusion h
      rw [buildEdges_inDeg_get reg ids x hnd hxi] at h
      injection h with h3
      refine ⟨hxi, by simp, ?_⟩
      rw [degRem_nil]
      omega
    · rintro ⟨hxi, -, h0⟩
      rw [degRem_nil] at h0
      rw [buildEdges_inDeg_get reg ids x hnd hxi, h0]
      rfl
  · intro x hxi
    rw [buildEdges_inDeg_get reg ids x hnd hxi, degRem_nil]
  · intro l₁ x l₂ h
    exact absurd h (by simp)

theorem kInv_step_gen (reg : Registry) (ids : List String)
    (hnd : ids.Nodup) (hdnd : ∀ x ∈ ids, (reg.getDependencies x).Nodup)
    (s : KahnSt) (current : String) (rest : List String) (N : List String)
    (hq : s.queue = current :: rest) (hinv : KInv reg ids s)
    (hN : ∀ x, x ∈ N ↔ (x ∈ ids ∧ current ∈ reg.getDependencies x))
    (hNnd : N.Nodup) :
    KInv reg ids (N.foldl processNeighbor ⟨s.inDeg, rest, s.result ++ [current]⟩) := by
  obtain ⟨hrnd, hrsub, hqnd, hqmem, hdeg, hord⟩ := hinv
  obtain ⟨hci, hcr, hc0⟩ := (hqmem current).mp (by rw [hq]; exact List.mem_cons_self _ _)
  have hrestnd : rest.Nodup := by
    rw [hq] at hqnd; exact (List.nodup_cons.mp hqnd).2
  have hcurrest : current ∉ rest := by
    rw [hq] at hqnd; exact (List.nodup_cons.mp hqnd).1
  have hres' : (N.foldl processNeighbor ⟨s.inDeg, rest, s.result ++ [current]⟩).result
      = s.result ++ [current] :=
    foldl_processNeighbor_result N ⟨s.inDeg, rest, s.result ++ [current]⟩
  have hqueue' : (N.foldl processNeighbor ⟨s.inDeg, rest, s.result ++ [current]⟩).queue
      = rest ++ N.filter (fun n => (aget s.inDeg n).getD 0 - 1 = 0) :=
    foldl_processNeighbor_queue N ⟨s.inDeg, rest, s.result ++ [current]⟩ hNnd
  have hgetd : ∀ x ∈ ids, (aget s.inDeg x).getD 0 = ((degRem reg ids s.result x : Int)) := by
    intro x hxi
    rw [hdeg x hxi]
    rfl
  refine ⟨?_, ?_, ?_, ?_, ?_, ?_⟩
  · rw [hres', List.nodup_append]
    refine ⟨hrnd, List.nodup_singleton _, ?_⟩
    intro a ha hb
    rw [List.mem_singleton] at hb
    exact hcr (hb ▸ ha)
  · rw [hres']
    intro x hx
    rcases List.mem_append.mp hx with h | h
    · exact hrsub x h
    · rw [List.mem_singleton.mp h]; exact hci
  · rw [hqueue', List.nodup_append]
    refine ⟨hrestnd, List.Nodup.filter _ hNnd, ?_⟩
    intro a ha hafil
    obtain ⟨haN, hapred⟩ := List.mem_filter.mp hafil
    obtain ⟨hai, hacd⟩ := (hN a).mp haN
    obtain ⟨hai2, har, ha0⟩ := (hqmem a).mp (by rw [hq]; exact List.mem_cons_of_mem _ ha)
    have hp := of_decide_eq_true hapred
    rw [hgetd a hai] at hp
    omega
  · intro x
    rw [hqueue', hres']
    constructor
    · intro hx
      rcases List.mem_append.mp hx with hxr | hxf
      · obtain ⟨hxi, hxres, hx0⟩ := (hqmem x).mp
          (by rw [hq]; exact List.mem_cons_of_mem _ hxr)
        have hxc : x ≠ current := fun he => hcurrest (he ▸ hxr)
        have hncd : current ∉ reg.getDependencies x := by
          intro hcd
          exact hcr ((degRem_eq_zero_iff reg ids s.result x).mp hx0 current hcd hci)
        refine ⟨hxi, ?_, ?_⟩
        · intro hm
          rcases List.mem_append.mp hm with h | h
          · exact hxres h
          · exact hxc (List.mem_singleton.mp h)
        · rw [degRem_append_of_not_dep _ _ _ _ _ hncd]
          exact hx0
      · obtain ⟨hxN, hpred⟩ := List.mem_filter.mp hxf
        obtain ⟨hxi, hcd⟩ := (hN x).mp hxN
        have hp := of_decide_eq_true hpred
        rw [hgetd x hxi] at hp
        have hone : degRem reg ids s.result x = 1 := by omega
        have hxr : x ∉ s.result := by
          intro hm
          have := degRem_zero_of_order reg ids s.result hord x hm
          omega
        have hxc : x ≠ current := by
          intro he
          rw [he] at hone
          omega
        have h2 := degRem_append_dep reg ids s.result x current (hdnd x hxi) hcd hci hcr
        refine ⟨hxi, ?_, by omega⟩
        intro hm
        rcases List.mem_append.mp hm with h | h
        · exact hxr h
        · exact hxc (List.mem_singleton.mp h)
    · rintro ⟨hxi, hxr', hx0'⟩
      by_cases hcd : current ∈ reg.getDependencies x
      · have h2 := degRem_append_dep reg ids s.result x current (hdnd x hxi) hcd hci hcr
        apply List.mem_append.mpr
        right
        apply List.mem_filter.mpr
        refine ⟨(hN x).mpr ⟨hxi, hcd⟩, ?_⟩
        apply decide_eq_true
        rw [hgetd x hxi]
        omega
      · have hxold : degRem reg ids s.result x = 0 := by
          rw [← degRem_append_of_not_dep reg ids s.result x current hcd]
          exact hx0'
        have hxr : x ∉ s.result := fun hm => hxr' (List.mem_append.mpr (.inl hm))
        have hxq : x ∈ s.queue := (hqmem x).mpr ⟨hxi, hxr, hxold⟩
        rw [hq] at hxq
        rcases List.mem_cons.mp hxq with he | hx
        · exact absurd (List.mem_append.mpr
            (.inr (by rw [he]; exact List.mem_singleton.mpr rfl))) hxr'
        · exact List.mem_append.mpr (.inl hx)
  · intro x hxi
    rw [hres']
    by_cases hxN : x ∈ N
    · rw [foldl_processNeighbor_inDeg_mem N _ x hNnd hxN]
      have hcd := ((hN x).mp hxN).2
      have h2 := degRem_append_dep reg ids s.result x current (hdnd x hxi) hcd hci hcr
      rw [hgetd x hxi]
      congr 1
      omega
    · rw [foldl_processNeighbor_inDeg_not_mem N _ x hxN]
      have hcd : current ∉ reg.getDependencies x := fun hcd =>
        hxN ((hN x).mpr ⟨hxi, hcd⟩)
      rw [degRem_append_of_not_dep _ _ _ _ _ hcd]
      exact hdeg x hxi
  · rw [hres']
    intro l₁ x l₂ hsplit d hd hdi
    rcases append_singleton_split s.result l₁ l₂ x current hsplit with
      ⟨l₂', -, hres⟩ | ⟨hxc, hl₁, -⟩
    · exact hord l₁ x l₂' hres d hd hdi
    · rw [hl₁]
      rw [hxc] at hd
      exact (degRem_eq_zero_iff reg ids s.result current).mp hc0 d hd hdi

theorem kInv_step (reg : Registry) (ids : List String)
    (hnd : ids.Nodup) (hdnd : ∀ x ∈ ids, (reg.getDependencies x).Nodup)
    (s : KahnSt) (current : String) (rest : List String)
    (hq : s.queue = current :: rest) (hinv : KInv reg ids s) :
    KInv reg ids
      (((aget (buildEdges reg ids (initMaps ids)).1 current).getD []).foldl
        processNeighbor ⟨s.inDeg, rest, s.result ++ [current]⟩) := by
  have hci : current ∈ ids :=
    ((hinv.2.2.2.1 current).mp (by rw [hq]; exact List.mem_cons_self _ _)).1
  have hG : aget (buildEdges reg ids (initMaps ids)).1 current
      = some (ids.filter (fun x => (reg.getDependencies x).contains current)) :=
    buildEdges_graph_get reg ids current hdnd hci
  rw [hG]
  simp only [Option.getD_some]
  apply kInv_step_gen reg ids hnd hdnd s current rest _ hq hinv
  · intro x
    rw [List.mem_filter]
    constructor
    · rintro ⟨hxi, hxc⟩
      exact ⟨hxi, (contains_true_iff _ _).mp hxc⟩
    · rintro ⟨hxi, hxc⟩
      exact ⟨hxi, (contains_true_iff _ _).mpr hxc⟩
  · exact List.Nodup.filter _ hnd

theorem kahnLoop_eq_nil (graph : List (String × List String)) (s : KahnSt)
    (hq : s.queue = []) : kahnLoop graph s = s := by
  rw [kahnLoop]
  split
  · rfl
  · rename_i current rest hq2
    simp [hq] at hq2

theorem kahnLoop_eq_cons (graph : List (String × List String)) (s : KahnSt)
    (current : String) (rest : List String) (hq : s.queue = current :: rest) :
    kahnLoop graph s = kahnLoop graph
        (((aget graph current).getD []).foldl processNeighbor
          ⟨s.inDeg, rest, s.result ++ [current]⟩) := by
  rw [kahnLoop]
  split
  · rename_i hq2
    rw [hq] at hq2
    exact absurd hq2 (List.cons_ne_nil _ _)
  · rename_i c r hq2
    rw [hq] at hq2
    injection hq2 with h1 h2
    subst h1; subst h2
    rfl

theorem kahnLoop_inv (reg : Registry) (ids : List String)
    (hnd : ids.Nodup) (hdnd : ∀ x ∈ ids, (reg.getDependencies x).Nodup)
    (s : KahnSt) :
    KInv reg ids s →
      KInv reg ids (kahnLoop (buildEdges reg ids (initMaps ids)).1 s) ∧
      (kahnLoop (buildEdges reg ids (initMaps ids)).1 s).queue = [] := by
  induction s using kahnLoop.induct with
  | graph => exact (buildEdges reg ids (initMaps ids)).1
  | case1 s hq =>
      intro hinv
      rw [kahnLoop_eq_nil _ s hq]
      exact ⟨hinv, hq⟩
  | case2 s current rest hq ih =>
      intro hinv
      rw [kahnLoop_eq_cons _ s current rest hq]
      exact ih (kInv_step reg ids hnd hdnd s current rest hq hinv)

/-- The initial loop state of `resolveLoadOrder` after the map-building
loops: inDegree map, zero-degree seed queue, empty result. -/
def kahnInitSt (reg : Registry) (ids : List String) : KahnSt :=
  ⟨(buildEdges reg ids (initMaps ids)).2,
   ((buildEdges reg ids (initMaps ids)).2.filter
      (fun kv => kv.2 = 0)).map (fun kv => kv.1),
   []⟩

/-- The loop state when the while loop of `resolveLoadOrder` exits. -/
def kahnFinal (reg : Registry) (ids : List String) : KahnSt :=
  kahnLoop (buildEdges reg ids (initMaps ids)).1 (kahnInitSt reg ids)

theorem resolveLoadOrder_eq (reg : Registry) (ids : List String) :
    resolveLoadOrder reg ids =
      if (kahnFinal reg ids).result.length ≠ ids.length then
        .error (.circularDependency
          (ids.filter (fun id => !(kahnFinal reg ids).result.contains id)))
      else .ok (kahnFinal reg ids).result := rfl

theorem kahnFinal_spec (reg : Registry) (ids : List String)
    (hnd : ids.Nodup) (hdnd : ∀ x ∈ ids, (reg.getDependencies x).Nodup) :
    KInv reg ids (kahnFinal reg ids) ∧ (kahnFinal reg ids).queue = [] :=
  kahnLoop_inv reg ids hnd hdnd (kahnInitSt reg ids) (kInv_init reg ids hnd hdnd)

/-- C3: on a duplicate-free input whose induced dependency subgraph is
acyclic, `resolveLoadOrder` succeeds with a permutation of the input in
which every in-set dependency of an emitted id appears strictly before
it. -/
theorem c3_acyclic_resolves_topologically (reg : Registry) (ids : List String)
    (hnd : ids.Nodup) (hdnd : ∀ x ∈ ids, (reg.getDependencies x).Nodup)
    (hacyc : Acyclic reg ids) :
    ∃ order, resolveLoadOrder reg ids = Except.ok order ∧
      order.Perm ids ∧
      ∀ l₁ x l₂, order = l₁ ++ x :: l₂ →
        ∀ d ∈ reg.getDependencies x, d ∈ ids → d ∈ l₁ := by
  obtain ⟨hinv, hqe⟩ := kahnFinal_spec reg ids hnd hdnd
  obtain ⟨hrnd, hrsub, -, hqmem, -, hord⟩ := hinv
  have hcomp : ∀ x ∈ ids, x ∈ (kahnFinal reg ids).result := by
    by_contra hne
    push_neg at hne
    obtain ⟨y, hyi, hyr⟩ := hne
    have hRne : ids.filter (fun id => !(kahnFinal reg ids).result.contains id) ≠ [] := by
      intro h0
      have hy : y ∈ ids.filter (fun id => !(kahnFinal reg ids).result.contains id) := by
        apply List.mem_filter.mpr
        refine ⟨hyi, ?_⟩
        cases hcc : (kahnFinal reg ids).result.contains y with
        | false => rfl
        | true => exact absurd ((contains_true_iff _ _).mp hcc) hyr
      rw [h0] at hy
      simp at hy
    obtain ⟨x, hxRem, hsink⟩ := hacyc _ (List.filter_sublist ids) hRne
    obtain ⟨hxi, hxnc⟩ := List.mem_filter.mp hxRem
    have hxr : x ∉ (kahnFinal reg ids).result := by
      intro hm
      rw [(contains_true_iff _ _).mpr hm] at hxnc
      simp at hxnc
    have hx0 : degRem reg ids (kahnFinal reg ids).result x = 0 := by
      rw [degRem_eq_zero_iff]
      intro d hd hdi
      by_contra hdr
      apply hsink d hd hdi
      apply List.mem_filter.mpr
      refine ⟨hdi, ?_⟩
      cases hcc : (kahnFinal reg ids).result.contains d with
      | false => rfl
      | true => exact absurd ((contains_true_iff _ _).mp hcc) hdr
    have hxq : x ∈ (kahnFinal reg ids).queue := (hqmem x).mpr ⟨hxi, hxr, hx0⟩
    rw [hqe] at hxq
    simp at hxq
  have hperm : (kahnFinal reg ids).result.Perm ids :=
    List.Subperm.antisymm
      (List.subperm_of_subset hrnd (fun a ha => hrsub a ha))
      (List.subperm_of_subset hnd (fun a ha => hcomp a ha))
  have hlen := hperm.length_eq
  refine ⟨(kahnFinal reg ids).result, ?_, hperm, hord⟩
  rw [resolveLoadOrder_eq, if_neg (by omega)]

/-- C4: on a duplicate-free input whose induced dependency subgraph is
cyclic, `resolveLoadOrder` fails with a CircularDependency error carrying
a nonempty list of unresolved input ids, each of which has an in-set
dependency that is itself unresolved. -/
theorem c4_cycle_yields_circular_error (reg : Registry) (ids : List String)
    (hnd : ids.Nodup) (hdnd : ∀ x ∈ ids, (reg.getDependencies x).Nodup)
    (hcyc : ¬ Acyclic reg ids) :
    ∃ us, resolveLoadOrder reg ids
        = Except.error (LoadError.circularDependency us) ∧
      us ≠ [] ∧ (∀ u ∈ us, u ∈ ids) ∧
      (∀ u ∈ us, ∃ d ∈ reg.getDependencies u, d ∈ ids ∧ d ∈ us) ∧
      (LoadError.circularDependency us).message
        = "Circular dependency detected in plugins: " ++ String.intercalate ", " us := by
  obtain ⟨hinv, hqe⟩ := kahnFinal_spec reg ids hnd hdnd
  obtain ⟨hrnd, hrsub, -, hqmem, -, hord⟩ := hinv
  have hlenne : (kahnFinal reg ids).result.length ≠ ids.length := by
    intro hlen
    apply hcyc
    have hsp : List.Subperm (kahnFinal reg ids).result ids :=
      List.subperm_of_subset hrnd (fun a ha => hrsub a ha)
    have hperm : (kahnFinal reg ids).result.Perm ids := by
      rcases hsp with ⟨l, hpl, hsl⟩
      have hle : l = ids := hsl.eq_of_length (hpl.length_eq.trans hlen)
      exact hle ▸ hpl.symm
    have hsub2 : ∀ x ∈ ids, x ∈ (kahnFinal reg ids).result :=
      fun x hx => hperm.mem_iff.mpr hx
    intro l hl hlne
    have hy : ∃ y, y ∈ (kahnFinal reg ids).result ∧ y ∈ l := by
      obtain ⟨y, hyl⟩ := List.exists_mem_of_ne_nil l hlne
      exact ⟨y, hsub2 y (hl.subset hyl), hyl⟩
    obtain ⟨l₁, x, l₂, hsplit, hxl, hl₁⟩ := exists_first_mem_split _ l hy
    refine ⟨x, hxl, ?_⟩
    intro d hd hdi
    exact fun hdl => hl₁ d (hord l₁ x l₂ hsplit d hd hdi) hdl
  refine ⟨ids.filter (fun id => !(kahnFinal reg ids).result.contains id),
    by rw [resolveLoadOrder_eq, if_pos hlenne], ?_, ?_, ?_, rfl⟩
  · intro h0
    apply hlenne
    have hcomp : ∀ x ∈ ids, x ∈ (kahnFinal reg ids).result := by
      intro x hxi
      by_contra hxr
      have hx : x ∈ ids.filter (fun id => !(kahnFinal reg ids).result.contains id) := by
        apply List.mem_filter.mpr
        refine ⟨hxi, ?_⟩
        cases hcc : (kahnFinal reg ids).result.contains x with
        | false => rfl
        | true => exact absurd ((contains_true_iff _ _).mp hcc) hxr
      rw [h0] at hx
      simp at hx
    exact (List.Subperm.antisymm
      (List.subperm_of_subset hrnd (fun a ha => hrsub a ha))
      (List.subperm_of_subset hnd (fun a ha => hcomp a ha))).length_eq
  · intro u hu
    exact (List.mem_filter.mp hu).1
  · intro u hu
    obtain ⟨hui, hunc⟩ := List.mem_filter.mp hu
    have hur : u ∉ (kahnFinal reg ids).result := by
      intro hm
      rw [(contains_true_iff _ _).mpr hm] at hunc
      simp at hunc
    have hne0 : ¬ (∀ d ∈ reg.getDependencies u, d ∈ ids
        → d ∈ (kahnFinal reg ids).result) := by
      intro hall
      have h0 : degRem reg ids (kahnFinal reg ids).result u = 0 :=
        (degRem_eq_zero_iff _ _ _ _).mpr hall
      have huq : u ∈ (kahnFinal reg ids).queue := (hqmem u).mpr ⟨hui, hur, h0⟩
      rw [hqe] at huq
      simp at huq
    push_neg at hne0
    obtain ⟨d, hd, hdi, hdr⟩ := hne0
    refine ⟨d, hd, hdi, ?_⟩
    apply List.mem_filter.mpr
    refine ⟨hdi, ?_⟩
    cases hcc : (kahnFinal reg ids).result.contains d with
    | false => rfl
    | true => exact absurd ((contains_true_iff _ _).mp hcc) hdr

def c3ManifestA : Manifest := ⟨"a", "A", "1.0.0", "", ["b"], [], []⟩

def c3ManifestB : Manifest := ⟨"b", "B", "1.0.0", "", [], [], []⟩

/-- Registry after registering the two example manifests of the spec
(module a depends on b, module b has no dependencies). -/
def c3Reg : Registry :=
  match Registry.empty.register c3ManifestA with
  | .ok (r, _) =>
      match r.register c3ManifestB with
      | .ok (r2, _) => r2
      | .error _ => r
  | .error _ => Registry.empty

/-- Witness for C3 at the spec's concrete example: a depends on b and the
resolved order is b before a, namely exactly the list b, a. -/
theorem c3_acyclic_resolves_topologically_witness :
    (["a", "b"] : List String).Nodup ∧
    (∀ x ∈ ["a", "b"], (c3Reg.getDependencies x).Nodup) ∧
    Acyclic c3Reg ["a", "b"] ∧
    (∃ order, resolveLoadOrder c3Reg ["a", "b"] = Except.ok order ∧
      order.Perm ["a", "b"] ∧
      ∀ l₁ x l₂, order = l₁ ++ x :: l₂ →
        ∀ d ∈ c3Reg.getDependencies x, d ∈ ["a", "b"] → d ∈ l₁) ∧
    resolveLoadOrder c3Reg ["a", "b"] = Except.ok ["b", "a"] := by
  have hnd : (["a", "b"] : List String).Nodup := by decide
  have hdnd : ∀ x ∈ ["a", "b"], (c3Reg.getDependencies x).Nodup := by decide
  have hacyc : Acyclic c3Reg ["a", "b"] := (Acyclic_iff_sublists _ _).mpr (by decide)
  refine ⟨hnd, hdnd, hacyc,
    c3_acyclic_resolves_topologically c3Reg ["a", "b"] hnd hdnd hacyc, ?_⟩
  simp [c3Reg, c3ManifestA, c3ManifestB, Registry.register, Registry.empty,
    Registry.buildDependencies, resolveLoadOrder, initMaps, buildEdges, addEdge,
    Registry.getDependencies, kahnLoop, processNeighbor, aget, aset]

def c4ManifestA : Manifest := ⟨"a", "A", "1.0.0", "", ["b"], [], []⟩

def c4ManifestB : Manifest := ⟨"b", "B", "1.0.0", "", ["a"], [], []⟩

/-- Registry with a two-module dependency cycle: a depends on b and b
depends on a. -/
def c4Reg : Registry :=
  match Registry.empty.register c4ManifestA with
  | .ok (r, _) =>
      match r.register c4ManifestB with
      | .ok (r2, _) => r2
      | .error _ => r
  | .error _ => Registry.empty

/-- Witness for C4 at a concrete two-module cycle. -/
theorem c4_cycle_yields_circular_error_witness :
    (["a", "b"] : List String).Nodup ∧
    (∀ x ∈ ["a", "b"], (c4Reg.getDependencies x).Nodup) ∧
    ¬ Acyclic c4Reg ["a", "b"] ∧
    ∃ us, resolveLoadOrder c4Reg ["a", "b"]
        = Except.error (LoadError.circularDependency us) ∧
      us ≠ [] ∧ (∀ u ∈ us, u ∈ ["a", "b"]) ∧
      (∀ u ∈ us, ∃ d ∈ c4Reg.getDependencies u, d ∈ ["a", "b"] ∧ d ∈ us) ∧
      (LoadError.circularDependency us).message
        = "Circular dependency detected in plugins: " ++ String.intercalate ", " us := by
  have hnd : (["a", "b"] : List String).Nodup := by decide
  have hdnd : ∀ x ∈ ["a", "b"], (c4Reg.getDependencies x).Nodup := by decide
  have hcyc : ¬ Acyclic c4Reg ["a", "b"] := by
    rw [Acyclic_iff_sublists]
    decide
  exact ⟨hnd, hdnd, hcyc,
    c4_cycle_yields_circular_error c4Reg ["a", "b"] hnd hdnd hcyc⟩

/-! ### Rollback of hook registrations (LifecycleManager.startPlugin)

Pointwise association-list lemmas and handler-list lemmas used to show
that `_rollback`'s `unregisterPlugin` removes exactly the hooks registered
during the failed start attempt. -/

theorem aget_aset_eq {κ α : Type} [DecidableEq κ] (l : List (κ × α)) (k x : κ) (v : α) :
    aget (aset l k v) x = if x = k then some v else aget l x := by
  by_cases hx : x = k
  · subst hx; simp [aget_aset_self]
  · simp [hx, aget_aset_ne _ _ _ _ hx]

theorem aget_adel_ne {κ α : Type} [DecidableEq κ] (l : List (κ × α)) (k x : κ)
    (hx : x ≠ k) : aget (adel l k) x = aget l x := by
  induction l with
  | nil => rfl
  | cons hd t ih =>
      obtain ⟨k', v'⟩ := hd
      by_cases hk : k' = k
      · subst hk
        have hkx : k' ≠ x := fun h => hx h.symm
        simp [adel, aget, hkx]
      · simp only [adel, if_neg hk, aget]
        by_cases hk'x : k' = x
        · simp [hk'x]
        · simp [hk'x, ih]

theorem aget_adel_self {κ α : Type} [DecidableEq κ] (l : List (κ × α)) (k : κ)
    (hnd : (akeys l).Nodup) : aget (adel l k) k = none := by
  induction l with
  | nil => rfl
  | cons hd t ih =>
      obtain ⟨k', v'⟩ := hd
      simp only [akeys, List.map_cons, List.nodup_cons] at hnd
      by_cases hk : k' = k
      · subst hk
        rw [adel, if_pos rfl, aget_eq_none_iff]
        simpa [akeys] using hnd.1
      · rw [adel, if_neg hk, aget, if_neg hk]
        exact ih (by simpa [akeys] using hnd.2)

theorem aget_adel_eq {κ α : Type} [DecidableEq κ] (l : List (κ × α)) (k x : κ)
    (hnd : (akeys l).Nodup) :
    aget (adel l k) x = if x = k then none else aget l x := by
  by_cases hx : x = k
  · subst hx; simp [aget_adel_self l x hnd]
  · simp [hx, aget_adel_ne _ _ _ hx]

theorem aset_aset {κ α : Type} [DecidableEq κ] (l : List (κ × α)) (k : κ) (v w : α) :
    aset (aset l k v) k w = aset l k w := by
  induction l with
  | nil => simp [aset]
  | cons hd t ih =>
      obtain ⟨k', v'⟩ := hd
      by_cases hk : k' = k
      · subst hk; simp [aset]
      · simp [aset, hk, ih]

theorem adel_aset_of_not_mem {κ α : Type} [DecidableEq κ] (l : List (κ × α)) (k : κ) (v : α)
    (h : k ∉ akeys l) : adel (aset l k v) k = l := by
  induction l with
  | nil => simp [aset, adel]
  | cons hd t ih =>
      obtain ⟨k', v'⟩ := hd
      simp only [akeys, List.map_cons, List.mem_cons, not_or] at h
      have hk : k' ≠ k := Ne.symm h.1
      simp [aset, adel, hk, ih (by simpa [akeys] using h.2)]

theorem adel_sublist {κ α : Type} [DecidableEq κ] (l : List (κ × α)) (k : κ) :
    (adel l k).Sublist l := by
  induction l with
  | nil => exact List.Sublist.refl _
  | cons hd t ih =>
      obtain ⟨k', v'⟩ := hd
      by_cases hk : k' = k
      · simp only [adel, if_pos hk]
        exact List.sublist_cons_self _ _
      · simp only [adel, if_neg hk]
        exact ih.cons₂ _

theorem akeys_nodup_adel {κ α : Type} [DecidableEq κ] (l : List (κ × α)) (k : κ)
    (h : (akeys l).Nodup) : (akeys (adel l k)).Nodup :=
  h.sublist ((adel_sublist l k).map _)

theorem akeys_nodup_aset {κ α : Type} [DecidableEq κ] (l : List (κ × α)) (k : κ) (v : α)
    (h : (akeys l).Nodup) : (akeys (aset l k v)).Nodup := by
  by_cases hm : k ∈ akeys l
  · rw [akeys_aset_of_mem _ _ _ hm]; exact h
  · rw [akeys_aset_of_not_mem _ _ _ hm]
    rw [List.nodup_append]
    exact ⟨h, List.nodup_singleton _, by
      intro a ha hb
      rw [List.mem_singleton] at hb
      exact hm (hb ▸ ha)⟩

theorem mem_insertEntry (l : List HookEntry) (e b : HookEntry) :
    b ∈ insertEntry l e ↔ b = e ∨ b ∈ l := by
  induction l with
  | nil => simp [insertEntry]
  | cons x xs ih =>
      by_cases h : x.priority ≤ e.priority
      · rw [insertEntry, if_pos h]
        simp only [List.mem_cons, ih]
        tauto
      · rw [insertEntry, if_neg h]
        simp only [List.mem_cons]

theorem insertEntry_ne_nil (l : List HookEntry) (e : HookEntry) :
    insertEntry l e ≠ [] := by
  cases l with
  | nil => simp [insertEntry]
  | cons x xs =>
      rw [insertEntry]
      by_cases h : x.priority ≤ e.priority
      · rw [if_pos h]; exact List.cons_ne_nil _ _
      · rw [if_neg h]; exact List.cons_ne_nil _ _

theorem insertEntry_sorted (l : List HookEntry) (e : HookEntry)
    (h : l.Sorted (fun a b => a.priority ≤ b.priority)) :
    (insertEntry l e).Sorted (fun a b => a.priority ≤ b.priority) := by
  induction l with
  | nil => simp [insertEntry]
  | cons x xs ih =>
      rw [List.sorted_cons] at h
      by_cases hp : x.priority ≤ e.priority
      · rw [insertEntry, if_pos hp, List.sorted_cons]
        refine ⟨?_, ih h.2⟩
        intro b hb
        rcases (mem_insertEntry xs e b).mp hb with hb | hb
        · rw [hb]; exact hp
        · exact h.1 b hb
      · rw [insertEntry, if_neg hp, List.sorted_cons]
        refine ⟨?_, by rw [List.sorted_cons]; exact h⟩
        intro b hb
        rcases List.mem_cons.mp hb with hb | hb
        · rw [hb]; exact le_of_lt (lt_of_not_le hp)
        · exact le_trans (le_of_lt (lt_of_not_le hp)) (h.1 b hb)

theorem insertEntry_append_of_le (l : List HookEntry) (e : HookEntry)
    (h : ∀ x ∈ l, x.priority ≤ e.priority) : insertEntry l e = l ++ [e] := by
  induction l with
  | nil => rfl
  | cons x xs ih =>
      rw [insertEntry, if_pos (h x (List.mem_cons_self _ _)),
        ih (fun y hy => h y (List.mem_cons_of_mem _ hy))]
      rfl

theorem insertEntry_of_all_gt (l : List HookEntry) (e : HookEntry)
    (h : ∀ y ∈ l, ¬ y.priority ≤ e.priority) : insertEntry l e = e :: l := by
  cases l with
  | nil => rfl
  | cons y ys => rw [insertEntry, if_neg (h y (List.mem_cons_self _ _))]

theorem sortByPriority_append_singleton (l : List HookEntry) (e : HookEntry) :
    sortByPriority (l ++ [e]) = insertEntry (sortByPriority l) e := by
  unfold sortByPriority
  rw [List.foldl_append]
  rfl

theorem sortByPriority_sorted (l : List HookEntry) :
    (sortByPriority l).Sorted (fun a b => a.priority ≤ b.priority) := by
  unfold sortByPriority
  suffices h : ∀ acc, acc.Sorted (fun a b => a.priority ≤ b.priority) →
      (l.foldl insertEntry acc).Sorted (fun a b => a.priority ≤ b.priority) from
    h [] (by simp)
  induction l with
  | nil => intro acc hacc; exact hacc
  | cons x xs ih => intro acc hacc; exact ih _ (insertEntry_sorted _ _ hacc)

theorem sortByPriority_of_sorted (l : List HookEntry)
    (h : l.Sorted (fun a b => a.priority ≤ b.priority)) : sortByPriority l = l := by
  induction l using List.reverseRecOn with
  | nil => rfl
  | append_singleton l e ih =>
      have hsplit := List.pairwise_append.mp h
      rw [sortByPriority_append_singleton, ih hsplit.1, insertEntry_append_of_le]
      intro x hx
      exact hsplit.2.2 x hx e (List.mem_singleton.mpr rfl)

theorem sortByPriority_sorted_append (l : List HookEntry) (e : HookEntry)
    (h : l.Sorted (fun a b => a.priority ≤ b.priority)) :
    sortByPriority (l ++ [e]) = insertEntry l e := by
  rw [sortByPriority_append_singleton, sortByPriority_of_sorted l h]

theorem eraseP_insertEntry_self (l : List HookEntry) (e : HookEntry)
    (hfresh : ∀ x ∈ l, (x.id == e.id) = false) :
    (insertEntry l e).eraseP (fun h => h.id == e.id) = l := by
  induction l with
  | nil => simp [insertEntry, List.eraseP_cons]
  | cons x xs ih =>
      by_cases hp : x.priority ≤ e.priority
      · rw [insertEntry, if_pos hp, List.eraseP_cons,
          hfresh x (List.mem_cons_self _ _)]
        simp only [cond_false]
        rw [ih (fun y hy => hfresh y (List.mem_cons_of_mem _ hy))]
      · rw [insertEntry, if_neg hp, List.eraseP_cons]
        simp

theorem eraseP_insertEntry_comm (l : List HookEntry) (e : HookEntry)
    (p : HookEntry → Bool)
    (hs : l.Sorted (fun a b => a.priority ≤ b.priority)) (hpe : p e = false) :
    (insertEntry l e).eraseP p = insertEntry (l.eraseP p) e := by
  induction l with
  | nil => simp [insertEntry, List.eraseP_cons, hpe]
  | cons x xs ih =>
      rw [List.sorted_cons] at hs
      by_cases hp : x.priority ≤ e.priority
      · rw [insertEntry, if_pos hp, List.eraseP_cons, List.eraseP_cons]
        cases hpx : p x with
        | true => simp
        | false =>
            simp only [cond_false]
            rw [ih hs.2, insertEntry, if_pos hp]
      · rw [insertEntry, if_neg hp, List.eraseP_cons, List.eraseP_cons, hpe]
        simp only [cond_false]
        cases hpx : p x with
        | true =>
            simp only [cond_true]
            rw [insertEntry_of_all_gt]
            intro y hy hle
            exact hp (le_trans (hs.1 y hy) hle)
        | false =>
            simp only [cond_false]
            rw [insertEntry, if_neg hp]

theorem find?_insertEntry_of_ne (l : List HookEntry) (e : HookEntry) (p : HookEntry → Bool)
    (hpe : p e = false) :
    (insertEntry l e).find? p = l.find? p := by
  induction l with
  | nil => simp [insertEntry, List.find?_cons, hpe]
  | cons x xs ih =>
      by_cases hp : x.priority ≤ e.priority
      · rw [insertEntry, if_pos hp, List.find?_cons, List.find?_cons]
        cases hpx : p x with
        | true => rfl
        | false => exact ih
      · rw [insertEntry, if_neg hp, List.find?_cons, hpe, List.find?_cons]

theorem find?_insertEntry_self (l : List HookEntry) (e : HookEntry)
    (hfresh : ∀ x ∈ l, (x.id == e.id) = false) :
    (insertEntry l e).find? (fun h => h.id == e.id) = some e := by
  induction l with
  | nil => simp [insertEntry, List.find?_cons]
  | cons x xs ih =>
      by_cases hp : x.priority ≤ e.priority
      · rw [insertEntry, if_pos hp, List.find?_cons,
          hfresh x (List.mem_cons_self _ _)]
        exact ih (fun y hy => hfresh y (List.mem_cons_of_mem _ hy))
      · rw [insertEntry, if_neg hp, List.find?_cons]
        simp

theorem eraseP_append_singleton_of_not {α : Type} (l : List α) (x : α) (p : α → Bool)
    (hx : p x = false) : (l ++ [x]).eraseP p = l.eraseP p ++ [x] := by
  induction l with
  | nil => simp [List.eraseP_cons, hx]
  | cons y ys ih =>
      rw [List.cons_append, List.eraseP_cons, List.eraseP_cons]
      cases hpy : p y with
      | true => simp
      | false => simp [ih]

theorem mem_sortByPriority (l : List HookEntry) (b : HookEntry) :
    b ∈ sortByPriority l ↔ b ∈ l := by
  unfold sortByPriority
  suffices h : ∀ acc, b ∈ l.foldl insertEntry acc ↔ b ∈ acc ∨ b ∈ l by
    rw [h []]; simp
  induction l with
  | nil => intro acc; simp
  | cons x xs ih =>
      intro acc
      rw [List.foldl_cons, ih, mem_insertEntry]
      simp only [List.mem_cons]
      tauto

/-- Well-formedness of a hook-system state: duplicate-free map keys,
handler ids below the fresh-id counter, stored handler lists sorted by
priority and never stored empty (the source deletes empty buckets). -/
def GoodHS (hs : HookSystem) : Prop :=
  (akeys hs.hooks).Nodup ∧
  (akeys hs.pluginHooks).Nodup ∧
  (∀ n hl, aget hs.hooks n = some hl → ∀ h ∈ hl, h.id < hs.nextId) ∧
  (∀ n hl, aget hs.hooks n = some hl → hl.Sorted (fun a b => a.priority ≤ b.priority)) ∧
  (∀ n hl, aget hs.hooks n = some hl → hl ≠ [])

/-- Observational equality of hook systems: same handler table and same
plugin tracking pointwise, same fresh-id counter. -/
def HSEquiv (x y : HookSystem) : Prop :=
  (∀ n, aget x.hooks n = aget y.hooks n) ∧
  (∀ p, aget x.pluginHooks p = aget y.pluginHooks p) ∧
  x.nextId = y.nextId

theorem hsEquiv_refl (x : HookSystem) : HSEquiv x x := ⟨fun _ => rfl, fun _ => rfl, rfl⟩

theorem hsEquiv_symm {x y : HookSystem} (h : HSEquiv x y) : HSEquiv y x :=
  ⟨fun n => (h.1 n).symm, fun p => (h.2.1 p).symm, h.2.2.symm⟩

theorem hsEquiv_trans {x y z : HookSystem} (h1 : HSEquiv x y) (h2 : HSEquiv y z) :
    HSEquiv x z :=
  ⟨fun n => (h1.1 n).trans (h2.1 n), fun p => (h1.2.1 p).trans (h2.2.1 p),
   h1.2.2.trans h2.2.2⟩

theorem register_hooks_eq (hs : HookSystem) (nm : String) (f : JSVal → HandlerOutcome)
    (c : JSVal → Bool) (pr : Int) (oc : Bool) (pl : Option String) (x : String) :
    aget (hs.register nm f c pr oc pl).hooks x
      = if x = nm then
          some (sortByPriority (((aget hs.hooks nm).getD [])
            ++ [⟨f, c, pr, oc, pl, hs.nextId⟩]))
        else aget hs.hooks x := by
  unfold HookSystem.register
  exact aget_aset_eq _ _ _ _

theorem register_pluginHooks_eq (hs : HookSystem) (nm : String)
    (f : JSVal → HandlerOutcome) (c : JSVal → Bool) (pr : Int) (oc : Bool)
    (pl : Option String) (p : String) :
    aget (hs.register nm f c pr oc pl).pluginHooks p
      = match pl with
        | none => aget hs.pluginHooks p
        | some q =>
            if p = q then some (((aget hs.pluginHooks q).getD []) ++ [(nm, hs.nextId)])
            else aget hs.pluginHooks p := by
  unfold HookSystem.register
  cases pl with
  | none => rfl
  | some q => exact aget_aset_eq _ _ _ _

theorem register_nextId_eq (hs : HookSystem) (nm : String) (f : JSVal → HandlerOutcome)
    (c : JSVal → Bool) (pr : Int) (oc : Bool) (pl : Option String) :
    (hs.register nm f c pr oc pl).nextId = hs.nextId + 1 := rfl

theorem unregisterById_eq_noneSlot (hs : HookSystem) (hn : String) (tid : Nat)
    (hq : aget hs.hooks hn = none) : hs.unregisterById hn tid = hs := by
  unfold HookSystem.unregisterById
  rw [hq]

theorem unregisterById_eq_notFound (hs : HookSystem) (hn : String) (tid : Nat)
    (handlers : List HookEntry)
    (hq : aget hs.hooks hn = some handlers)
    (hf : handlers.find? (fun h => h.id == tid) = none)
    (he : handlers.isEmpty = false) : hs.unregisterById hn tid = hs := by
  unfold HookSystem.unregisterById
  rw [hq]
  simp only []
  rw [hf, he]
  rfl

theorem unregisterById_eq_notFoundEmpty (hs : HookSystem) (hn : String) (tid : Nat)
    (handlers : List HookEntry)
    (hq : aget hs.hooks hn = some handlers)
    (hf : handlers.find? (fun h => h.id == tid) = none)
    (he : handlers.isEmpty = true) :
    hs.unregisterById hn tid = { hs with hooks := adel hs.hooks hn } := by
  unfold HookSystem.unregisterById
  rw [hq]
  simp only []
  rw [hf, he]
  rfl

theorem unregisterById_eq_found (hs : HookSystem) (hn : String) (tid : Nat)
    (handlers : List HookEntry) (removed : HookEntry)
    (hq : aget hs.hooks hn = some handlers)
    (hf : handlers.find? (fun h => h.id == tid) = some removed) :
    hs.unregisterById hn tid =
      ⟨(if (handlers.eraseP (fun h => h.id == tid)).isEmpty then adel hs.hooks hn
        else aset hs.hooks hn (handlers.eraseP (fun h => h.id == tid))),
       (match removed.plugin with
        | none => hs.pluginHooks
        | some p =>
            match aget hs.pluginHooks p with
            | none => hs.pluginHooks
            | some lst => aset hs.pluginHooks p
                (lst.eraseP (fun pr2 => pr2.1 == hn && pr2.2 == tid))),
       hs.nextId⟩ := by
  unfold HookSystem.unregisterById
  rw [hq]
  simp only []
  rw [hf]

theorem register_congr {x y : HookSystem} (h : HSEquiv x y) (nm : String)
    (f : JSVal → HandlerOutcome) (c : JSVal → Bool) (pr : Int) (oc : Bool)
    (pl : Option String) :
    HSEquiv (x.register nm f c pr oc pl) (y.register nm f c pr oc pl) := by
  obtain ⟨hh, hp, hn⟩ := h
  refine ⟨?_, ?_, ?_⟩
  · intro n
    rw [register_hooks_eq, register_hooks_eq]
    simp only [hh, hn]
  · intro p
    rw [register_pluginHooks_eq, register_pluginHooks_eq]
    cases pl with
    | none => exact hp p
    | some q => simp only [hp, hn]
  · rw [register_nextId_eq, register_nextId_eq, hn]

theorem unregisterById_congr {x y : HookSystem} (h : HSEquiv x y)
    (hndx : (akeys x.hooks).Nodup) (hndy : (akeys y.hooks).Nodup)
    (hn : String) (tid : Nat) :
    HSEquiv (x.unregisterById hn tid) (y.unregisterById hn tid) := by
  obtain ⟨hh, hp, hni⟩ := h
  cases hq : aget y.hooks hn with
  | none =>
      rw [unregisterById_eq_noneSlot x hn tid (by rw [hh]; exact hq),
        unregisterById_eq_noneSlot y hn tid hq]
      exact ⟨hh, hp, hni⟩
  | some handlers =>
      have hqx : aget x.hooks hn = some handlers := by rw [hh]; exact hq
      cases hf : handlers.find? (fun h2 => h2.id == tid) with
      | none =>
          cases he : handlers.isEmpty with
          | false =>
              rw [unregisterById_eq_notFound x hn tid handlers hqx hf he,
                unregisterById_eq_notFound y hn tid handlers hq hf he]
              exact ⟨hh, hp, hni⟩
          | true =>
              rw [unregisterById_eq_notFoundEmpty x hn tid handlers hqx hf he,
                unregisterById_eq_notFoundEmpty y hn tid handlers hq hf he]
              refine ⟨?_, hp, hni⟩
              intro n
              have e1 : aget ({ x with hooks := adel x.hooks hn } : HookSystem).hooks n
                  = aget (adel x.hooks hn) n := rfl
              have e2 : aget ({ y with hooks := adel y.hooks hn } : HookSystem).hooks n
                  = aget (adel y.hooks hn) n := rfl
              rw [e1, e2, aget_adel_eq _ _ _ hndx, aget_adel_eq _ _ _ hndy]
              simp only [hh]
      | some removed =>
          rw [unregisterById_eq_found x hn tid handlers removed hqx hf,
            unregisterById_eq_found y hn tid handlers removed hq hf]
          refine ⟨?_, ?_, hni⟩
          · intro n
            show aget (if (handlers.eraseP (fun h2 => h2.id == tid)).isEmpty
                then adel x.hooks hn
                else aset x.hooks hn (handlers.eraseP (fun h2 => h2.id == tid))) n
              = aget (if (handlers.eraseP (fun h2 => h2.id == tid)).isEmpty
                then adel y.hooks hn
                else aset y.hooks hn (handlers.eraseP (fun h2 => h2.id == tid))) n
            by_cases he : (handlers.eraseP (fun h2 => h2.id == tid)).isEmpty = true
            · rw [if_pos he, if_pos he, aget_adel_eq _ _ _ hndx, aget_adel_eq _ _ _ hndy]
              simp only [hh]
            · rw [if_neg he, if_neg he, aget_aset_eq, aget_aset_eq]
              simp only [hh]
          · intro p
            show aget (match removed.plugin with
                | none => x.pluginHooks
                | some p2 =>
                    match aget x.pluginHooks p2 with
                    | none => x.pluginHooks
                    | some lst => aset x.pluginHooks p2
                        (lst.eraseP (fun pr2 => pr2.1 == hn && pr2.2 == tid))) p
              = aget (match removed.plugin with
                | none => y.pluginHooks
                | some p2 =>
                    match aget y.pluginHooks p2 with
                    | none => y.pluginHooks
                    | some lst => aset y.pluginHooks p2
                        (lst.eraseP (fun pr2 => pr2.1 == hn && pr2.2 == tid))) p
            cases removed.plugin with
            | none => exact hp p
            | some q =>
                simp only []
                rw [hp q]
                cases hpq : aget y.pluginHooks q with
                | none => exact hp p
                | some lst =>
                    simp only []
                    rw [aget_aset_eq, aget_aset_eq]
                    simp only [hp]

theorem goodHS_register (hs : HookSystem) (hg : GoodHS hs) (nm : String)
    (f : JSVal → HandlerOutcome) (c : JSVal → Bool) (pr : Int) (oc : Bool)
    (pl : Option String) : GoodHS (hs.register nm f c pr oc pl) := by
  obtain ⟨hk1, hk2, hfr, hso, hne⟩ := hg
  refine ⟨?_, ?_, ?_, ?_, ?_⟩
  · exact akeys_nodup_aset _ _ _ hk1
  · show (akeys (match pl with
      | none => hs.pluginHooks
      | some p => aset hs.pluginHooks p
          (((aget hs.pluginHooks p).getD []) ++ [(nm, hs.nextId)]))).Nodup
    cases pl with
    | none => exact hk2
    | some q => exact akeys_nodup_aset _ _ _ hk2
  · intro n hl hget hx hmem
    rw [register_hooks_eq] at hget
    rw [register_nextId_eq]
    by_cases hn' : n = nm
    · rw [if_pos hn'] at hget
      injection hget with hget
      rw [← hget] at hmem
      have hmem2 := (mem_sortByPriority _ _).mp hmem
      rcases List.mem_append.mp hmem2 with hm | hm
      · cases hsl : aget hs.hooks nm with
        | none => rw [hsl] at hm; simp at hm
        | some olds =>
            rw [hsl] at hm
            exact Nat.lt_succ_of_lt (hfr nm olds hsl hx hm)
      · rw [List.mem_singleton] at hm
        rw [hm]
        exact Nat.lt_succ_self _
    · rw [if_neg hn'] at hget
      exact Nat.lt_succ_of_lt (hfr n hl hget hx hmem)
  · intro n hl hget
    rw [register_hooks_eq] at hget
    by_cases hn' : n = nm
    · rw [if_pos hn'] at hget
      injection hget with hget
      rw [← hget]
      exact sortByPriority_sorted _
    · rw [if_neg hn'] at hget
      exact hso n hl hget
  · intro n hl hget
    rw [register_hooks_eq] at hget
    by_cases hn' : n = nm
    · rw [if_pos hn'] at hget
      injection hget with hget
      rw [← hget]
      intro hnil
      have hm : (⟨f, c, pr, oc, pl, hs.nextId⟩ : HookEntry) ∈ sortByPriority
          (((aget hs.hooks nm).getD []) ++ [⟨f, c, pr, oc, pl, hs.nextId⟩]) :=
        (mem_sortByPriority _ _).mpr
          (List.mem_append.mpr (.inr (List.mem_singleton.mpr rfl)))
      rw [hnil] at hm
      simp at hm
    · rw [if_neg hn'] at hget
      exact hne n hl hget

theorem goodHS_unregisterById (hs : HookSystem) (hg : GoodHS hs) (hn : String)
    (tid : Nat) : GoodHS (hs.unregisterById hn tid) := by
  obtain ⟨hk1, hk2, hfr, hso, hne⟩ := hg
  cases hq : aget hs.hooks hn with
  | none =>
      rw [unregisterById_eq_noneSlot hs hn tid hq]
      exact ⟨hk1, hk2, hfr, hso, hne⟩
  | some handlers =>
      cases hf : handlers.find? (fun h2 => h2.id == tid) with
      | none =>
          cases he : handlers.isEmpty with
          | false =>
              rw [unregisterById_eq_notFound hs hn tid handlers hq hf he]
              exact ⟨hk1, hk2, hfr, hso, hne⟩
          | true =>
              rw [unregisterById_eq_notFoundEmpty hs hn tid handlers hq hf he]
              refine ⟨akeys_nodup_adel _ _ hk1, hk2, ?_, ?_, ?_⟩
              · intro n hl hget hx hmem
                have hget' : aget (adel hs.hooks hn) n = some hl := hget
                rw [aget_adel_eq _ _ _ hk1] at hget'
                by_cases hn' : n = hn
                · rw [if_pos hn'] at hget'; exact Option.noConfusion hget'
                · rw [if_neg hn'] at hget'
                  exact hfr n hl hget' hx hmem
              · intro n hl hget
                have hget' : aget (adel hs.hooks hn) n = some hl := hget
                rw [aget_adel_eq _ _ _ hk1] at hget'
                by_cases hn' : n = hn
                · rw [if_pos hn'] at hget'; exact Option.noConfusion hget'
                · rw [if_neg hn'] at hget'
                  exact hso n hl hget'
              · intro n hl hget
                have hget' : aget (adel hs.hooks hn) n = some hl := hget
                rw [aget_adel_eq _ _ _ hk1] at hget'
                by_cases hn' : n = hn
                · rw [if_pos hn'] at hget'; exact Option.noConfusion hget'
                · rw [if_neg hn'] at hget'
                  exact hne n hl hget'
      | some removed =>
          rw [unregisterById_eq_found hs hn tid handlers removed hq hf]
          have herase := List.eraseP_sublist (p := fun h2 => h2.id == tid) handlers
          refine ⟨?_, ?_, ?_, ?_, ?_⟩
          · show (akeys (if (handlers.eraseP (fun h2 => h2.id == tid)).isEmpty
              then adel hs.hooks hn
              else aset hs.hooks hn (handlers.eraseP (fun h2 => h2.id == tid)))).Nodup
            by_cases he : (handlers.eraseP (fun h2 => h2.id == tid)).isEmpty = true
            · rw [if_pos he]; exact akeys_nodup_adel _ _ hk1
            · rw [if_neg he]; exact akeys_nodup_aset _ _ _ hk1
          · show (akeys (match removed.plugin with
              | none => hs.pluginHooks
              | some p2 =>
                  match aget hs.pluginHooks p2 with
                  | none => hs.pluginHooks
                  | some lst => aset hs.pluginHooks p2
                      (lst.eraseP (fun pr2 => pr2.1 == hn && pr2.2 == tid)))).Nodup
            cases removed.plugin with
            | none => exact hk2
            | some q =>
                simp only []
                cases aget hs.pluginHooks q with
                | none => exact hk2
                | some lst => exact akeys_nodup_aset _ _ _ hk2
          · intro n hl hget hx hmem
            have hget' : aget (if (handlers.eraseP (fun h2 => h2.id == tid)).isEmpty
                then adel hs.hooks hn
                else aset hs.hooks hn (handlers.eraseP (fun h2 => h2.id == tid))) n
                = some hl := hget
            by_cases he : (handlers.eraseP (fun h2 => h2.id == tid)).isEmpty = true
            · rw [if_pos he, aget_adel_eq _ _ _ hk1] at hget'
              by_cases hn' : n = hn
              · rw [if_pos hn'] at hget'; exact Option.noConfusion hget'
              · rw [if_neg hn'] at hget'
                exact hfr n hl hget' hx hmem
            · rw [if_neg he, aget_aset_eq] at hget'
              by_cases hn' : n = hn
              · rw [if_pos hn'] at hget'
                injection hget' with hget'
                rw [← hget'] at hmem
                exact hfr hn handlers hq hx (herase.subset hmem)
              · rw [if_neg hn'] at hget'
                exact hfr n hl hget' hx hmem
          · intro n hl hget
            have hget' : aget (if (handlers.eraseP (fun h2 => h2.id == tid)).isEmpty
                then adel hs.hooks hn
                else aset hs.hooks hn (handlers.eraseP (fun h2 => h2.id == tid))) n
                = some hl := hget
            by_cases he : (handlers.eraseP (fun h2 => h2.id == tid)).isEmpty = true
            · rw [if_pos he, aget_adel_eq _ _ _ hk1] at hget'
              by_cases hn' : n = hn
              · rw [if_pos hn'] at hget'; exact Option.noConfusion hget'
              · rw [if_neg hn'] at hget'
                exact hso n hl hget'
            · rw [if_neg he, aget_aset_eq] at hget'
              by_cases hn' : n = hn
              · rw [if_pos hn'] at hget'
                injection hget' with hget'
                rw [← hget']
                exact List.Pairwise.sublist herase (hso hn handlers hq)
              · rw [if_neg hn'] at hget'
                exact hso n hl hget'
          · intro n hl hget
            have hget' : aget (if (handlers.eraseP (fun h2 => h2.id == tid)).isEmpty
                then adel hs.hooks hn
                else aset hs.hooks hn (handlers.eraseP (fun h2 => h2.id == tid))) n
                = some hl := hget
            by_cases he : (handlers.eraseP (fun h2 => h2.id == tid)).isEmpty = true
            · rw [if_pos he, aget_adel_eq _ _ _ hk1] at hget'
              by_cases hn' : n = hn
              · rw [if_pos hn'] at hget'; exact Option.noConfusion hget'
              · rw [if_neg hn'] at hget'
                exact hne n hl hget'
            · rw [if_neg he, aget_aset_eq] at hget'
              by_cases hn' : n = hn
              · rw [if_pos hn'] at hget'
                injection hget' with hget'
                rw [← hget']
                intro hnil
                rw [hnil] at he
                simp at he
              · rw [if_neg hn'] at hget'
                exact hne n hl hget'

/-- The tracking pairs produced by a block of hook registrations whose
first fresh id is `n`. -/
def mkPairs (n : Nat) : List (String × (JSVal → HandlerOutcome)) → List (String × Nat)
  | [] => []
  | kv :: t => (kv.1, n) :: mkPairs (n + 1) t

theorem registerPluginHooksLM_cons (hs : HookSystem) (m : String)
    (kv : String × (JSVal → HandlerOutcome))
    (rest : List (String × (JSVal → HandlerOutcome))) :
    registerPluginHooksLM hs m (kv :: rest)
      = registerPluginHooksLM (hs.register kv.1 kv.2 (fun _ => false) 50 false (some m))
          m rest := rfl

theorem registerPluginHooksLM_congr {x y : HookSystem} (h : HSEquiv x y) (m : String)
    (tbl : List (String × (JSVal → HandlerOutcome))) :
    HSEquiv (registerPluginHooksLM x m tbl) (registerPluginHooksLM y m tbl) := by
  induction tbl generalizing x y with
  | nil => exact h
  | cons kv rest ih =>
      rw [registerPluginHooksLM_cons, registerPluginHooksLM_cons]
      exact ih (register_congr h kv.1 kv.2 _ 50 false (some m))

theorem goodHS_registerPluginHooksLM (hs : HookSystem) (hg : GoodHS hs) (m : String)
    (tbl : List (String × (JSVal → HandlerOutcome))) :
    GoodHS (registerPluginHooksLM hs m tbl) := by
  induction tbl generalizing hs with
  | nil => exact hg
  | cons kv rest ih =>
      rw [registerPluginHooksLM_cons]
      exact ih _ (goodHS_register hs hg kv.1 kv.2 _ 50 false (some m))

theorem registerPluginHooksLM_nextId (hs : HookSystem) (m : String)
    (tbl : List (String × (JSVal → HandlerOutcome))) :
    (registerPluginHooksLM hs m tbl).nextId = hs.nextId + tbl.length := by
  induction tbl generalizing hs with
  | nil => rfl
  | cons kv rest ih =>
      rw [registerPluginHooksLM_cons, ih, register_nextId_eq, List.length_cons]
      omega

theorem registerPluginHooksLM_pluginHooks_ne (hs : HookSystem) (m : String)
    (tbl : List (String × (JSVal → HandlerOutcome))) (p : String) (hp : p ≠ m) :
    aget (registerPluginHooksLM hs m tbl).pluginHooks p = aget hs.pluginHooks p := by
  induction tbl generalizing hs with
  | nil => rfl
  | cons kv rest ih =>
      rw [registerPluginHooksLM_cons, ih, register_pluginHooks_eq]
      simp only []
      rw [if_neg hp]

theorem registerPluginHooksLM_pluginHooks_m (hs : HookSystem) (m : String)
    (tbl : List (String × (JSVal → HandlerOutcome))) (htbl : tbl ≠ []) :
    aget (registerPluginHooksLM hs m tbl).pluginHooks m
      = some (((aget hs.pluginHooks m).getD []) ++ mkPairs hs.nextId tbl) := by
  induction tbl generalizing hs with
  | nil => exact absurd rfl htbl
  | cons kv rest ih =>
      rw [registerPluginHooksLM_cons]
      cases rest with
      | nil =>
          rw [mkPairs]
          show aget (hs.register kv.1 kv.2 (fun _ => false) 50 false (some m)).pluginHooks m
            = _
          rw [register_pluginHooks_eq]
          simp [mkPairs]
      | cons kv2 rest2 =>
          rw [ih _ (List.cons_ne_nil _ _), register_pluginHooks_eq]
          simp [mkPairs, List.append_assoc, register_nextId_eq]

theorem unregisterById_nextId (hs : HookSystem) (hn : String) (tid : Nat) :
    (hs.unregisterById hn tid).nextId = hs.nextId := by
  cases hq : aget hs.hooks hn with
  | none => rw [unregisterById_eq_noneSlot _ _ _ hq]
  | some handlers =>
      cases hf : handlers.find? (fun h2 => h2.id == tid) with
      | none =>
          cases he : handlers.isEmpty with
          | false => rw [unregisterById_eq_notFound _ _ _ _ hq hf he]
          | true => rw [unregisterById_eq_notFoundEmpty _ _ _ _ hq hf he]
      | some removed => rw [unregisterById_eq_found _ _ _ _ _ hq hf]

theorem unregisterById_hooks_notFoundEmpty (hs : HookSystem) (hn : String) (tid : Nat)
    (handlers : List HookEntry)
    (hq : aget hs.hooks hn = some handlers)
    (hf : handlers.find? (fun h2 => h2.id == tid) = none)
    (he : handlers.isEmpty = true)
    (hnd : (akeys hs.hooks).Nodup) (k : String) :
    aget (hs.unregisterById hn tid).hooks k
      = if k = hn then none else aget hs.hooks k := by
  rw [unregisterById_eq_notFoundEmpty _ _ _ _ hq hf he]
  have h0 : aget ({ hs with hooks := adel hs.hooks hn } : HookSystem).hooks k
      = aget (adel hs.hooks hn) k := rfl
  rw [h0, aget_adel_eq _ _ _ hnd]

theorem unregisterById_pluginHooks_notFoundEmpty (hs : HookSystem) (hn : String)
    (tid : Nat) (handlers : List HookEntry)
    (hq : aget hs.hooks hn = some handlers)
    (hf : handlers.find? (fun h2 => h2.id == tid) = none)
    (he : handlers.isEmpty = true) (p : String) :
    aget (hs.unregisterById hn tid).pluginHooks p = aget hs.pluginHooks p := by
  rw [unregisterById_eq_notFoundEmpty _ _ _ _ hq hf he]

theorem unregisterById_hooks_found (hs : HookSystem) (hn : String) (tid : Nat)
    (handlers : List HookEntry) (removed : HookEntry)
    (hq : aget hs.hooks hn = some handlers)
    (hf : handlers.find? (fun h2 => h2.id == tid) = some removed)
    (hnd : (akeys hs.hooks).Nodup) (k : String) :
    aget (hs.unregisterById hn tid).hooks k
      = if k = hn then
          (if (handlers.eraseP (fun h2 => h2.id == tid)).isEmpty then none
           else some (handlers.eraseP (fun h2 => h2.id == tid)))
        else aget hs.hooks k := by
  rw [unregisterById_eq_found _ _ _ _ _ hq hf]
  show aget (if (handlers.eraseP (fun h2 => h2.id == tid)).isEmpty
      then adel hs.hooks hn
      else aset hs.hooks hn (handlers.eraseP (fun h2 => h2.id == tid))) k = _
  by_cases he : (handlers.eraseP (fun h2 => h2.id == tid)).isEmpty = true
  · rw [if_pos he, if_pos he, aget_adel_eq _ _ _ hnd]
  · rw [if_neg he, if_neg he, aget_aset_eq]

theorem unregisterById_pluginHooks_found_none (hs : HookSystem) (hn : String)
    (tid : Nat) (handlers : List HookEntry) (removed : HookEntry)
    (hq : aget hs.hooks hn = some handlers)
    (hf : handlers.find? (fun h2 => h2.id == tid) = some removed)
    (hpl : removed.plugin = none) (p : String) :
    aget (hs.unregisterById hn tid).pluginHooks p = aget hs.pluginHooks p := by
  rw [unregisterById_eq_found _ _ _ _ _ hq hf]
  show aget (match removed.plugin with
      | none => hs.pluginHooks
      | some p2 =>
          match aget hs.pluginHooks p2 with
          | none => hs.pluginHooks
          | some lst => aset hs.pluginHooks p2
              (lst.eraseP (fun pr2 => pr2.1 == hn && pr2.2 == tid))) p = _
  rw [hpl]

theorem unregisterById_pluginHooks_found_some_none (hs : HookSystem) (hn : String)
    (tid : Nat) (handlers : List HookEntry) (removed : HookEntry) (pq : String)
    (hq : aget hs.hooks hn = some handlers)
    (hf : handlers.find? (fun h2 => h2.id == tid) = some removed)
    (hpl : removed.plugin = some pq) (hslot : aget hs.pluginHooks pq = none) (p : String) :
    aget (hs.unregisterById hn tid).pluginHooks p = aget hs.pluginHooks p := by
  rw [unregisterById_eq_found _ _ _ _ _ hq hf]
  show aget (match removed.plugin with
      | none => hs.pluginHooks
      | some p2 =>
          match aget hs.pluginHooks p2 with
          | none => hs.pluginHooks
          | some lst => aset hs.pluginHooks p2
              (lst.eraseP (fun pr2 => pr2.1 == hn && pr2.2 == tid))) p = _
  rw [hpl]
  simp only []
  rw [hslot]

theorem unregisterById_pluginHooks_found_some_some (hs : HookSystem) (hn : String)
    (tid : Nat) (handlers : List HookEntry) (removed : HookEntry) (pq : String)
    (lst : List (String × Nat))
    (hq : aget hs.hooks hn = some handlers)
    (hf : handlers.find? (fun h2 => h2.id == tid) = some removed)
    (hpl : removed.plugin = some pq) (hslot : aget hs.pluginHooks pq = some lst)
    (p : String) :
    aget (hs.unregisterById hn tid).pluginHooks p
      = if p = pq then some (lst.eraseP (fun pr2 => pr2.1 == hn && pr2.2 == tid))
        else aget hs.pluginHooks p := by
  rw [unregisterById_eq_found _ _ _ _ _ hq hf]
  show aget (match removed.plugin with
      | none => hs.pluginHooks
      | some p2 =>
          match aget hs.pluginHooks p2 with
          | none => hs.pluginHooks
          | some lst2 => aset hs.pluginHooks p2
              (lst2.eraseP (fun pr2 => pr2.1 == hn && pr2.2 == tid))) p = _
  rw [hpl]
  simp only []
  rw [hslot]
  simp only []
  rw [aget_aset_eq]

theorem beq_false_of_ne {a b : Nat} (h : a ≠ b) : (a == b) = false :=
  beq_eq_false_iff_ne.mpr h

theorem isEmpty_false_of_ne_nil {α : Type} {l : List α} (h : l ≠ []) :
    l.isEmpty = false := by
  cases l with
  | nil => exact absurd rfl h
  | cons a t => rfl

theorem register_pluginHooks_some (hs : HookSystem) (nm : String)
    (f : JSVal → HandlerOutcome) (c : JSVal → Bool) (pr : Int) (oc : Bool)
    (q p : String) :
    aget (hs.register nm f c pr oc (some q)).pluginHooks p
      = if p = q then some (((aget hs.pluginHooks q).getD []) ++ [(nm, hs.nextId)])
        else aget hs.pluginHooks p := by
  rw [register_pluginHooks_eq]

/-- Commuting the removal of an old handler id past a later registration,
observationally: the two orders produce the same hook table, the same
plugin tracking and the same counter.  Case of distinct hook names. -/
theorem unregister_register_comm_ne (x : HookSystem) (hg : GoodHS x)
    (nm : String) (f : JSVal → HandlerOutcome) (c : JSVal → Bool) (oc : Bool)
    (q : String) (hn : String) (tid : Nat) (htid : tid < x.nextId)
    (hnm : hn ≠ nm) :
    HSEquiv ((x.register nm f c 50 oc (some q)).unregisterById hn tid)
            ((x.unregisterById hn tid).register nm f c 50 oc (some q)) := by
  have hrg : GoodHS (x.register nm f c 50 oc (some q)) :=
    goodHS_register x hg nm f c 50 oc (some q)
  have hslotL : aget (x.register nm f c 50 oc (some q)).hooks hn = aget x.hooks hn := by
    rw [register_hooks_eq, if_neg hnm]
  have hnmbeq : (nm == hn) = false := by
    cases h2 : nm == hn with
    | false => rfl
    | true => exact absurd (eq_of_beq h2) (Ne.symm hnm)
  have hnm' : ¬ nm = hn := fun h2 => hnm h2.symm
  have hxunext : (x.unregisterById hn tid).nextId = x.nextId := unregisterById_nextId x hn tid
  cases hxq : aget x.hooks hn with
  | none =>
      rw [unregisterById_eq_noneSlot _ hn tid (hslotL.trans hxq),
        unregisterById_eq_noneSlot _ hn tid hxq]
      exact hsEquiv_refl _
  | some handlers =>
      cases hf : handlers.find? (fun h2 => h2.id == tid) with
      | none =>
          cases he : handlers.isEmpty with
          | false =>
              rw [unregisterById_eq_notFound _ hn tid handlers (hslotL.trans hxq) hf he,
                unregisterById_eq_notFound x hn tid handlers hxq hf he]
              exact hsEquiv_refl _
          | true =>
              refine ⟨?_, ?_, ?_⟩
              · intro k
                rw [unregisterById_hooks_notFoundEmpty (x.register nm f c 50 oc (some q))
                    hn tid handlers (hslotL.trans hxq) hf he hrg.1 k,
                  register_hooks_eq (x.unregisterById hn tid) nm f c 50 oc (some q) k,
                  register_hooks_eq x nm f c 50 oc (some q) k,
                  unregisterById_hooks_notFoundEmpty x hn tid handlers hxq hf he hg.1 nm,
                  unregisterById_hooks_notFoundEmpty x hn tid handlers hxq hf he hg.1 k,
                  hxunext, if_neg hnm']
                by_cases hk : k = hn
                · have hk2 : ¬ k = nm := fun h2 => hnm (hk.symm.trans h2)
                  simp [hk, hk2, hnm, hnm']
                · by_cases hk2 : k = nm
                  · simp [hk, hk2, hnm, hnm']
                  · simp [hk, hk2, hnm, hnm']
              · intro p
                rw [unregisterById_pluginHooks_notFoundEmpty (x.register nm f c 50 oc
                      (some q)) hn tid handlers (hslotL.trans hxq) hf he p,
                  register_pluginHooks_some x nm f c 50 oc q p,
                  register_pluginHooks_some (x.unregisterById hn tid) nm f c 50 oc q p,
                  unregisterById_pluginHooks_notFoundEmpty x hn tid handlers hxq hf he q,
                  unregisterById_pluginHooks_notFoundEmpty x hn tid handlers hxq hf he p,
                  hxunext]
              · rw [unregisterById_nextId, register_nextId_eq, register_nextId_eq, hxunext]
      | some removed =>
          have hpm : ∀ b : Bool, ((nm == hn) && b) = false := by
            intro b
            rw [hnmbeq, Bool.false_and]
          refine ⟨?_, ?_, ?_⟩
          · intro k
            rw [unregisterById_hooks_found (x.register nm f c 50 oc (some q)) hn tid
                handlers removed (hslotL.trans hxq) hf hrg.1 k,
              register_hooks_eq (x.unregisterById hn tid) nm f c 50 oc (some q) k,
              register_hooks_eq x nm f c 50 oc (some q) k,
              unregisterById_hooks_found x hn tid handlers removed hxq hf hg.1 nm,
              unregisterById_hooks_found x hn tid handlers removed hxq hf hg.1 k,
              hxunext, if_neg hnm']
            by_cases hk : k = hn
            · have hk2 : ¬ k = nm := fun h2 => hnm (hk.symm.trans h2)
              simp [hk, hk2, hnm, hnm']
            · by_cases hk2 : k = nm
              · simp [hk, hk2, hnm, hnm']
              · simp [hk, hk2, hnm, hnm']
          · intro p
            cases hpl : removed.plugin with
            | none =>
                rw [unregisterById_pluginHooks_found_none (x.register nm f c 50 oc (some q))
                    hn tid handlers removed (hslotL.trans hxq) hf hpl p,
                  register_pluginHooks_some x nm f c 50 oc q p,
                  register_pluginHooks_some (x.unregisterById hn tid) nm f c 50 oc q p,
                  unregisterById_pluginHooks_found_none x hn tid handlers removed hxq hf
                    hpl q,
                  unregisterById_pluginHooks_found_none x hn tid handlers removed hxq hf
                    hpl p,
                  hxunext]
            | some pq =>
                by_cases hpqq : pq = q
                · subst hpqq
                  have hslotr : aget (x.register nm f c 50 oc (some pq)).pluginHooks pq
                      = some (((aget x.pluginHooks pq).getD []) ++ [(nm, x.nextId)]) := by
                    rw [register_pluginHooks_some, if_pos rfl]
                  rw [unregisterById_pluginHooks_found_some_some (x.register nm f c 50 oc
                      (some pq)) hn tid handlers removed pq _ (hslotL.trans hxq) hf hpl
                      hslotr p,
                    register_pluginHooks_some (x.unregisterById hn tid) nm f c 50 oc pq p,
                    hxunext]
                  cases hxslot : aget x.pluginHooks pq with
                  | none =>
                      by_cases hp : p = pq
                      · rw [if_pos hp, if_pos hp,
                          unregisterById_pluginHooks_found_some_none x hn tid handlers
                            removed pq hxq hf hpl hxslot pq, hxslot]
                        rw [eraseP_append_singleton_of_not _ (nm, x.nextId) _
                          (by simp [hnmbeq])]
                        rfl
                      · rw [if_neg hp, if_neg hp,
                          unregisterById_pluginHooks_found_some_none x hn tid handlers
                            removed pq hxq hf hpl hxslot p,
                          register_pluginHooks_some x nm f c 50 oc pq p, if_neg hp]
                  | some lst =>
                      by_cases hp : p = pq
                      · rw [if_pos hp, if_pos hp,
                          unregisterById_pluginHooks_found_some_some x hn tid handlers
                            removed pq lst hxq hf hpl hxslot pq, if_pos rfl]
                        simp only [Option.getD_some]
                        rw [eraseP_append_singleton_of_not _ (nm, x.nextId) _
                          (by simp [hnmbeq])]
                      · rw [if_neg hp, if_neg hp,
                          unregisterById_pluginHooks_found_some_some x hn tid handlers
                            removed pq lst hxq hf hpl hxslot p, if_neg hp,
                          register_pluginHooks_some x nm f c 50 oc pq p, if_neg hp]
                · have hslotr : aget (x.register nm f c 50 oc (some q)).pluginHooks pq
                      = aget x.pluginHooks pq := by
                    rw [register_pluginHooks_some, if_neg hpqq]
                  cases hxslot : aget x.pluginHooks pq with
                  | none =>
                      rw [unregisterById_pluginHooks_found_some_none (x.register nm f c 50
                          oc (some q)) hn tid handlers removed pq (hslotL.trans hxq) hf hpl
                          (hslotr.trans hxslot) p,
                        register_pluginHooks_some x nm f c 50 oc q p,
                        register_pluginHooks_some (x.unregisterById hn tid) nm f c 50 oc
                          q p,
                        unregisterById_pluginHooks_found_some_none x hn tid handlers
                          removed pq hxq hf hpl hxslot q,
                        unregisterById_pluginHooks_found_some_none x hn tid handlers
                          removed pq hxq hf hpl hxslot p,
                        hxunext]
                  | some lst =>
                      rw [unregisterById_pluginHooks_found_some_some (x.register nm f c 50
                          oc (some q)) hn tid handlers removed pq lst (hslotL.trans hxq)
                          hf hpl (hslotr.trans hxslot) p,
                        register_pluginHooks_some (x.unregisterById hn tid) nm f c 50 oc
                          q p,
                        hxunext]
                      by_cases hp : p = pq
                      · have hpq2 : ¬ p = q := fun h2 => hpqq (hp.symm.trans h2)
                        rw [if_pos hp, if_neg hpq2,
                          unregisterById_pluginHooks_found_some_some x hn tid handlers
                            removed pq lst hxq hf hpl hxslot p, if_pos hp]
                      · rw [if_neg hp,
                          unregisterById_pluginHooks_found_some_some x hn tid handlers
                            removed pq lst hxq hf hpl hxslot p, if_neg hp]
                        by_cases hp2 : p = q
                        · have hq2 : ¬ q = pq := fun h2 => hpqq h2.symm
                          rw [register_pluginHooks_some x nm f c 50 oc q p, if_pos hp2,
                            if_pos hp2,
                            unregisterById_pluginHooks_found_some_some x hn tid handlers
                              removed pq lst hxq hf hpl hxslot q, if_neg hq2]
                        · rw [register_pluginHooks_some x nm f c 50 oc q p, if_neg hp2,
                            if_neg hp2]
          · rw [unregisterById_nextId, register_nextId_eq, register_nextId_eq, hxunext]

/-- Commuting the removal of an old handler id past a later registration
on the same hook name. -/
theorem unregister_register_comm_eq (x : HookSystem) (hg : GoodHS x)
    (nm : String) (f : JSVal → HandlerOutcome) (c : JSVal → Bool) (oc : Bool)
    (q : String) (tid : Nat) (htid : tid < x.nextId) :
    HSEquiv ((x.register nm f c 50 oc (some q)).unregisterById nm tid)
            ((x.unregisterById nm tid).register nm f c 50 oc (some q)) := by
  have hrg : GoodHS (x.register nm f c 50 oc (some q)) :=
    goodHS_register x hg nm f c 50 oc (some q)
  have hbeqE : (x.nextId == tid) = false := beq_false_of_ne (ne_of_gt htid)
  have hxunext : (x.unregisterById nm tid).nextId = x.nextId := unregisterById_nextId x nm tid
  cases hxq : aget x.hooks nm with
  | none =>
      have hset : aget (x.register nm f c 50 oc (some q)).hooks nm
          = some [⟨f, c, 50, oc, some q, x.nextId⟩] := by
        rw [register_hooks_eq, if_pos rfl, hxq]
        rfl
      have hfind : ([⟨f, c, 50, oc, some q, x.nextId⟩] :
          List HookEntry).find? (fun h2 => h2.id == tid) = none := by
        simp [List.find?_cons, hbeqE]
      rw [unregisterById_eq_notFound _ nm tid _ hset hfind rfl,
        unregisterById_eq_noneSlot x nm tid hxq]
      exact hsEquiv_refl _
  | some handlers =>
      have hsorted := hg.2.2.2.1 nm handlers hxq
      have hset : aget (x.register nm f c 50 oc (some q)).hooks nm
          = some (insertEntry handlers ⟨f, c, 50, oc, some q, x.nextId⟩) := by
        rw [register_hooks_eq, if_pos rfl, hxq]
        simp only [Option.getD_some]
        rw [sortByPriority_sorted_append _ _ hsorted]
      have hfind : (insertEntry handlers ⟨f, c, 50, oc, some q,
          x.nextId⟩).find? (fun h2 => h2.id == tid)
          = handlers.find? (fun h2 => h2.id == tid) :=
        find?_insertEntry_of_ne _ _ _ hbeqE
      cases hf : handlers.find? (fun h2 => h2.id == tid) with
      | none =>
          have hieh : handlers.isEmpty = false :=
            isEmpty_false_of_ne_nil (hg.2.2.2.2 nm handlers hxq)
          rw [unregisterById_eq_notFound _ nm tid _ hset (hfind.trans hf)
              (isEmpty_false_of_ne_nil (insertEntry_ne_nil _ _)),
            unregisterById_eq_notFound x nm tid handlers hxq hf hieh]
          exact hsEquiv_refl _
      | some removed =>
          have herase_comm : (insertEntry handlers
              ⟨f, c, 50, oc, some q, x.nextId⟩).eraseP (fun h2 => h2.id == tid)
              = insertEntry (handlers.eraseP (fun h2 => h2.id == tid))
                  ⟨f, c, 50, oc, some q, x.nextId⟩ :=
            eraseP_insertEntry_comm handlers _ _ hsorted hbeqE
          have hie2 : (insertEntry (handlers.eraseP (fun h2 => h2.id == tid))
              ⟨f, c, 50, oc, some q, x.nextId⟩).isEmpty = false :=
            isEmpty_false_of_ne_nil (insertEntry_ne_nil _ _)
          have hE := List.eraseP_sublist (p := fun h2 => h2.id == tid) handlers
          refine ⟨?_, ?_, ?_⟩
          · intro k
            rw [unregisterById_hooks_found (x.register nm f c 50 oc (some q)) nm tid
                (insertEntry handlers ⟨f, c, 50, oc, some q, x.nextId⟩) removed hset
                (hfind.trans hf) hrg.1 k,
              herase_comm,
              register_hooks_eq (x.unregisterById nm tid) nm f c 50 oc (some q) k,
              unregisterById_hooks_found x nm tid handlers removed hxq hf hg.1 nm,
              if_pos rfl,
              unregisterById_hooks_found x nm tid handlers removed hxq hf hg.1 k,
              hxunext,
              register_hooks_eq x nm f c 50 oc (some q) k]
            by_cases hk : k = nm
            · rw [if_pos hk, if_pos hk, if_neg (by simp [hie2])]
              by_cases hEi : (handlers.eraseP (fun h2 => h2.id == tid)).isEmpty = true
              · rw [if_pos hEi]
                have hEnil : handlers.eraseP (fun h2 => h2.id == tid) = [] := by
                  cases h2 : handlers.eraseP (fun h2 => h2.id == tid) with
                  | nil => rfl
                  | cons a t => rw [h2] at hEi; exact Bool.noConfusion hEi
                rw [hEnil]
                rfl
              · rw [if_neg hEi]
                simp only [Option.getD_some]
                rw [sortByPriority_sorted_append _ _ (List.Pairwise.sublist hE hsorted)]
            · rw [if_neg hk, if_neg hk, if_neg hk, if_neg hk]
          · intro p
            have hpmpair : ((nm, x.nextId).1 == nm && (nm, x.nextId).2 == tid) = false := by
              simp [hbeqE]
            cases hpl : removed.plugin with
            | none =>
                rw [unregisterById_pluginHooks_found_none (x.register nm f c 50 oc (some q))
                    nm tid _ removed hset (hfind.trans hf) hpl p,
                  register_pluginHooks_some x nm f c 50 oc q p,
                  register_pluginHooks_some (x.unregisterById nm tid) nm f c 50 oc q p,
                  unregisterById_pluginHooks_found_none x nm tid handlers removed hxq hf
                    hpl q,
                  unregisterById_pluginHooks_found_none x nm tid handlers removed hxq hf
                    hpl p,
                  hxunext]
            | some pq =>
                by_cases hpqq : pq = q
                · subst hpqq
                  have hslotr : aget (x.register nm f c 50 oc (some pq)).pluginHooks pq
                      = some (((aget x.pluginHooks pq).getD []) ++ [(nm, x.nextId)]) := by
                    rw [register_pluginHooks_some, if_pos rfl]
                  rw [unregisterById_pluginHooks_found_some_some (x.register nm f c 50 oc
                      (some pq)) nm tid _ removed pq _ hset (hfind.trans hf) hpl
                      hslotr p,
                    register_pluginHooks_some (x.unregisterById nm tid) nm f c 50 oc pq p,
                    hxunext]
                  cases hxslot : aget x.pluginHooks pq with
                  | none =>
                      by_cases hp : p = pq
                      · rw [if_pos hp, if_pos hp,
                          unregisterById_pluginHooks_found_some_none x nm tid handlers
                            removed pq hxq hf hpl hxslot pq, hxslot]
                        rw [eraseP_append_singleton_of_not _ (nm, x.nextId) _ hpmpair]
                        rfl
                      · rw [if_neg hp, if_neg hp,
                          unregisterById_pluginHooks_found_some_none x nm tid handlers
                            removed pq hxq hf hpl hxslot p,
                          register_pluginHooks_some x nm f c 50 oc pq p, if_neg hp]
                  | some lst =>
                      by_cases hp : p = pq
                      · rw [if_pos hp, if_pos hp,
                          unregisterById_pluginHooks_found_some_some x nm tid handlers
                            removed pq lst hxq hf hpl hxslot pq, if_pos rfl]
                        simp only [Option.getD_some]
                        rw [eraseP_append_singleton_of_not _ (nm, x.nextId) _ hpmpair]
                      · rw [if_neg hp, if_neg hp,
                          unregisterById_pluginHooks_found_some_some x nm tid handlers
                            removed pq lst hxq hf hpl hxslot p, if_neg hp,
                          register_pluginHooks_some x nm f c 50 oc pq p, if_neg hp]
                · have hslotr : aget (x.register nm f c 50 oc (some q)).pluginHooks pq
                      = aget x.pluginHooks pq := by
                    rw [register_pluginHooks_some, if_neg hpqq]
                  cases hxslot : aget x.pluginHooks pq with
                  | none =>
                      rw [unregisterById_pluginHooks_found_some_none (x.register nm f c 50
                          oc (some q)) nm tid _ removed pq hset (hfind.trans hf) hpl
                          (hslotr.trans hxslot) p,
                        register_pluginHooks_some x nm f c 50 oc q p,
                        register_pluginHooks_some (x.unregisterById nm tid) nm f c 50 oc
                          q p,
                        unregisterById_pluginHooks_found_some_none x nm tid handlers
                          removed pq hxq hf hpl hxslot q,
                        unregisterById_pluginHooks_found_some_none x nm tid handlers
                          removed pq hxq hf hpl hxslot p,
                        hxunext]
                  | some lst =>
                      rw [unregisterById_pluginHooks_found_some_some (x.register nm f c 50
                          oc (some q)) nm tid _ removed pq lst hset (hfind.trans hf)
                          hpl (hslotr.trans hxslot) p,
                        register_pluginHooks_some (x.unregisterById nm tid) nm f c 50 oc
                          q p,
                        hxunext]
                      by_cases hp : p = pq
                      · have hpq2 : ¬ p = q := fun h2 => hpqq (hp.symm.trans h2)
                        rw [if_pos hp, if_neg hpq2,
                          unregisterById_pluginHooks_found_some_some x nm tid handlers
                            removed pq lst hxq hf hpl hxslot p, if_pos hp]
                      · rw [if_neg hp,
                          unregisterById_pluginHooks_found_some_some x nm tid handlers
                            removed pq lst hxq hf hpl hxslot p, if_neg hp]
                        by_cases hp2 : p = q
                        · have hq2 : ¬ q = pq := fun h2 => hpqq h2.symm
                          rw [register_pluginHooks_some x nm f c 50 oc q p, if_pos hp2,
                            if_pos hp2,
                            unregisterById_pluginHooks_found_some_some x nm tid handlers
                              removed pq lst hxq hf hpl hxslot q, if_neg hq2]
                        · rw [register_pluginHooks_some x nm f c 50 oc q p, if_neg hp2,
                            if_neg hp2]
          · rw [unregisterById_nextId, register_nextId_eq, register_nextId_eq, hxunext]

/-- Commutation for an arbitrary pair of hook names. -/
theorem unregister_register_comm (x : HookSystem) (hg : GoodHS x)
    (nm : String) (f : JSVal → HandlerOutcome) (c : JSVal → Bool) (oc : Bool)
    (q : String) (hn : String) (tid : Nat) (htid : tid < x.nextId) :
    HSEquiv ((x.register nm f c 50 oc (some q)).unregisterById hn tid)
            ((x.unregisterById hn tid).register nm f c 50 oc (some q)) := by
  by_cases hnm : hn = nm
  · subst hnm
    exact unregister_register_comm_eq x hg hn f c oc q tid htid
  · exact unregister_register_comm_ne x hg nm f c oc q hn tid htid hnm

theorem eraseP_append_singleton_self {α : Type} (l : List α) (x : α) (p : α → Bool)
    (hl : ∀ y ∈ l, p y = false) (hx : p x = true) : (l ++ [x]).eraseP p = l := by
  induction l with
  | nil => simp [List.eraseP_cons, hx]
  | cons y ys ih =>
      rw [List.cons_append, List.eraseP_cons, hl y (List.mem_cons_self _ _)]
      simp only [cond_false]
      rw [ih (fun z hz => hl z (List.mem_cons_of_mem _ hz))]

theorem keysNodup_unregisterById (hs : HookSystem) (h : (akeys hs.hooks).Nodup)
    (hn : String) (tid : Nat) : (akeys (hs.unregisterById hn tid).hooks).Nodup := by
  cases hq : aget hs.hooks hn with
  | none => rw [unregisterById_eq_noneSlot _ _ _ hq]; exact h
  | some handlers =>
      cases hf : handlers.find? (fun h2 => h2.id == tid) with
      | none =>
          cases he : handlers.isEmpty with
          | false => rw [unregisterById_eq_notFound _ _ _ _ hq hf he]; exact h
          | true =>
              rw [unregisterById_eq_notFoundEmpty _ _ _ _ hq hf he]
              exact akeys_nodup_adel _ _ h
      | some removed =>
          rw [unregisterById_eq_found _ _ _ _ _ hq hf]
          show (akeys (if (handlers.eraseP (fun h2 => h2.id == tid)).isEmpty
              then adel hs.hooks hn
              else aset hs.hooks hn (handlers.eraseP (fun h2 => h2.id == tid)))).Nodup
          by_cases he : (handlers.eraseP (fun h2 => h2.id == tid)).isEmpty = true
          · rw [if_pos he]; exact akeys_nodup_adel _ _ h
          · rw [if_neg he]; exact akeys_nodup_aset _ _ _ h

theorem unregFold_congr (prs : List (String × Nat)) {u v : HookSystem}
    (h : HSEquiv u v) (hu : (akeys u.hooks).Nodup) (hv : (akeys v.hooks).Nodup) :
    HSEquiv (prs.foldl (fun acc hn => acc.unregisterById hn.1 hn.2) u)
            (prs.foldl (fun acc hn => acc.unregisterById hn.1 hn.2) v) := by
  induction prs generalizing u v with
  | nil => exact h
  | cons pr t ih =>
      exact ih (unregisterById_congr h hu hv pr.1 pr.2)
        (keysNodup_unregisterById _ hu _ _) (keysNodup_unregisterById _ hv _ _)

theorem goodHS_unregFold (prs : List (String × Nat)) (hs : HookSystem)
    (hg : GoodHS hs) :
    GoodHS (prs.foldl (fun acc hn => acc.unregisterById hn.1 hn.2) hs) := by
  induction prs generalizing hs with
  | nil => exact hg
  | cons pr t ih => exact ih _ (goodHS_unregisterById _ hg pr.1 pr.2)

theorem unregister_registerLM_comm (m : String)
    (rest : List (String × (JSVal → HandlerOutcome)))
    (x : HookSystem) (hg : GoodHS x) (hn : String) (tid : Nat)
    (htid : tid < x.nextId) :
    HSEquiv ((registerPluginHooksLM x m rest).unregisterById hn tid)
            (registerPluginHooksLM (x.unregisterById hn tid) m rest) := by
  induction rest generalizing x with
  | nil => exact hsEquiv_refl _
  | cons kv r ih =>
      rw [registerPluginHooksLM_cons, registerPluginHooksLM_cons]
      have h1 := ih (x.register kv.1 kv.2 (fun _ => false) 50 false (some m))
        (goodHS_register x hg kv.1 kv.2 _ 50 false (some m))
        (by rw [register_nextId_eq]; omega)
      have h2 := unregister_register_comm x hg kv.1 kv.2 (fun _ => false) false m
        hn tid htid
      exact hsEquiv_trans h1 (registerPluginHooksLM_congr h2 m r)

theorem unregisterPlugin_eq_none (hs : HookSystem) (m : String)
    (h : aget hs.pluginHooks m = none) : hs.unregisterPlugin m = hs := by
  unfold HookSystem.unregisterPlugin
  rw [h]

/-- Registering one handler for plugin `m` and then unregistering it (by
its fresh id) restores the hook table and the tracking of every other
plugin, and leaves `m` tracked with its previous pair list. -/
theorem register_unregister_cancel (x : HookSystem) (hg : GoodHS x) (m nm : String)
    (f : JSVal → HandlerOutcome) (c : JSVal → Bool) (oc : Bool)
    (htrack : ∀ pr ∈ (aget x.pluginHooks m).getD [], pr.2 < x.nextId) :
    (∀ k, aget ((x.register nm f c 50 oc (some m)).unregisterById nm x.nextId).hooks k
        = aget x.hooks k) ∧
    (∀ p, p ≠ m →
      aget ((x.register nm f c 50 oc (some m)).unregisterById nm x.nextId).pluginHooks p
        = aget x.pluginHooks p) ∧
    (aget ((x.register nm f c 50 oc (some m)).unregisterById nm x.nextId).pluginHooks m
        = some ((aget x.pluginHooks m).getD [])) ∧
    ((x.register nm f c 50 oc (some m)).unregisterById nm x.nextId).nextId
        = x.nextId + 1 := by
  have hrg : GoodHS (x.register nm f c 50 oc (some m)) :=
    goodHS_register x hg nm f c 50 oc (some m)
  have hregslot_m : aget (x.register nm f c 50 oc (some m)).pluginHooks m
      = some (((aget x.pluginHooks m).getD []) ++ [(nm, x.nextId)]) := by
    rw [register_pluginHooks_some, if_pos rfl]
  have hpmtrue : ((nm, x.nextId).1 == nm && (nm, x.nextId).2 == x.nextId) = true := by
    simp
  have hfreshtrack : ∀ y ∈ (aget x.pluginHooks m).getD [],
      (y.1 == nm && y.2 == x.nextId) = false := by
    intro y hy
    have h2 : (y.2 == x.nextId) = false :=
      beq_false_of_ne (Nat.ne_of_lt (htrack y hy))
    rw [h2, Bool.and_false]
  have herase_track : ((((aget x.pluginHooks m).getD []) ++ [(nm, x.nextId)]).eraseP
      (fun pr2 => pr2.1 == nm && pr2.2 == x.nextId)) = (aget x.pluginHooks m).getD [] :=
    eraseP_append_singleton_self _ _ _ hfreshtrack hpmtrue
  cases hxq : aget x.hooks nm with
  | none =>
      have hset : aget (x.register nm f c 50 oc (some m)).hooks nm
          = some [⟨f, c, 50, oc, some m, x.nextId⟩] := by
        rw [register_hooks_eq, if_pos rfl, hxq]
        rfl
      have hfind : ([⟨f, c, 50, oc, some m, x.nextId⟩] :
          List HookEntry).find? (fun h2 => h2.id == x.nextId)
          = some ⟨f, c, 50, oc, some m, x.nextId⟩ := by
        simp [List.find?_cons]
      have her : ([⟨f, c, 50, oc, some m, x.nextId⟩] :
          List HookEntry).eraseP (fun h2 => h2.id == x.nextId) = [] := by
        simp [List.eraseP_cons]
      refine ⟨?_, ?_, ?_, ?_⟩
      · intro k
        rw [unregisterById_hooks_found _ nm x.nextId _ _ hset hfind hrg.1 k, her]
        by_cases hk : k = nm
        · rw [if_pos hk, hk, hxq]
          rfl
        · rw [if_neg hk, register_hooks_eq, if_neg hk]
      · intro p hp
        rw [unregisterById_pluginHooks_found_some_some _ nm x.nextId _ _ m _
            hset hfind rfl hregslot_m p, if_neg hp,
          register_pluginHooks_some, if_neg hp]
      · rw [unregisterById_pluginHooks_found_some_some _ nm x.nextId _ _ m _
            hset hfind rfl hregslot_m m, if_pos rfl, herase_track]
      · rw [unregisterById_nextId, register_nextId_eq]
  | some handlers =>
      have hsorted := hg.2.2.2.1 nm handlers hxq
      have hfreshh : ∀ h2 ∈ handlers, (h2.id == x.nextId) = false := fun h2 hm =>
        beq_false_of_ne (Nat.ne_of_lt (hg.2.2.1 nm handlers hxq h2 hm))
      have hset : aget (x.register nm f c 50 oc (some m)).hooks nm
          = some (insertEntry handlers ⟨f, c, 50, oc, some m, x.nextId⟩) := by
        rw [register_hooks_eq, if_pos rfl, hxq]
        simp only [Option.getD_some]
        rw [sortByPriority_sorted_append _ _ hsorted]
      have hfind : (insertEntry handlers
          ⟨f, c, 50, oc, some m, x.nextId⟩).find? (fun h2 => h2.id == x.nextId)
          = some ⟨f, c, 50, oc, some m, x.nextId⟩ :=
        find?_insertEntry_self handlers ⟨f, c, 50, oc, some m, x.nextId⟩ hfreshh
      have her : (insertEntry handlers
          ⟨f, c, 50, oc, some m, x.nextId⟩).eraseP (fun h2 => h2.id == x.nextId)
          = handlers :=
        eraseP_insertEntry_self handlers ⟨f, c, 50, oc, some m, x.nextId⟩ hfreshh
      have hieh : handlers.isEmpty = false :=
        isEmpty_false_of_ne_nil (hg.2.2.2.2 nm handlers hxq)
      refine ⟨?_, ?_, ?_, ?_⟩
      · intro k
        rw [unregisterById_hooks_found _ nm x.nextId _ _ hset hfind hrg.1 k, her, hieh]
        by_cases hk : k = nm
        · rw [if_pos hk, hk, hxq]
          rfl
        · rw [if_neg hk, register_hooks_eq, if_neg hk]
      · intro p hp
        rw [unregisterById_pluginHooks_found_some_some _ nm x.nextId _ _ m _
            hset hfind rfl hregslot_m p, if_neg hp,
          register_pluginHooks_some, if_neg hp]
      · rw [unregisterById_pluginHooks_found_some_some _ nm x.nextId _ _ m _
            hset hfind rfl hregslot_m m, if_pos rfl, herase_track]
      · rw [unregisterById_nextId, register_nextId_eq]

theorem getD_append_cons {α : Type} (d : α) :
    ∀ (pre : List α) (e : α) (suf : List α), (pre ++ e :: suf).getD pre.length d = e := by
  intro pre
  induction pre with
  | nil => intro e suf; rfl
  | cons a t ih => intro e suf; exact ih e suf

theorem evens_cons_cons {α : Type} (a b : α) (t : List α) :
    evens (a :: b :: t) = a :: evens t := rfl

theorem unregForEach_succ (m : String) (hs : HookSystem) (k f : Nat) :
    HookSystem.unregForEach m hs k (f + 1)
      = if k < ((aget hs.pluginHooks m).getD []).length then
          HookSystem.unregForEach m
            (hs.unregisterById (((aget hs.pluginHooks m).getD []).getD k ("", 0)).1
              (((aget hs.pluginHooks m).getD []).getD k ("", 0)).2) (k + 1) f
        else HookSystem.unregForEach m hs (k + 1) f := rfl

theorem unregForEach_stop (m : String) :
    ∀ (f k : Nat) (hs : HookSystem),
      ((aget hs.pluginHooks m).getD []).length ≤ k →
      HookSystem.unregForEach m hs k f = hs := by
  intro f
  induction f with
  | zero => intro k hs h; rfl
  | succ f ih =>
      intro k hs h
      rw [unregForEach_succ, if_neg (by omega)]
      exact ih (k + 1) hs (by omega)

theorem mem_eraseP_of_not {α : Type} {p : α → Bool} {x : α} :
    ∀ {l : List α}, x ∈ l → p x = false → x ∈ l.eraseP p := by
  intro l
  induction l with
  | nil => intro h _; exact absurd h (List.not_mem_nil x)
  | cons a t ih =>
      intro hx hpx
      rw [List.eraseP_cons]
      cases hpa : p a with
      | true =>
          rcases List.mem_cons.mp hx with hxa | hxt
          · rw [hxa] at hpx
            rw [hpx] at hpa
            exact absurd hpa (by simp)
          · simpa using hxt
      | false =>
          rcases List.mem_cons.mp hx with hxa | hxt
          · simp [hxa]
          · simpa using List.mem_cons_of_mem a (ih hxt hpx)

theorem find?_eq_of_unique {α : Type} (p : α → Bool) :
    ∀ (l : List α) (x : α), x ∈ l → p x = true →
      (∀ y ∈ l, p y = true → y = x) → l.find? p = some x := by
  intro l
  induction l with
  | nil => intro x hx _ _; exact absurd hx (List.not_mem_nil x)
  | cons a t ih =>
      intro x hx hpx huniq
      cases hpa : p a with
      | true =>
          rw [List.find?_cons_of_pos _ hpa, huniq a (List.mem_cons_self a t) hpa]
      | false =>
          rw [List.find?_cons_of_neg _ (by rw [hpa]; simp)]
          rcases List.mem_cons.mp hx with hxa | hxt
          · rw [hxa] at hpx
            rw [hpx] at hpa
            exact absurd hpa (by simp)
          · exact ih x hxt hpx (fun y hy => huniq y (List.mem_cons_of_mem a hy))

theorem eraseP_middle {α : Type} (p : α → Bool) :
    ∀ (pre : List α) (x : α) (suf : List α),
      (∀ y ∈ pre, p y = false) → p x = true →
      (pre ++ x :: suf).eraseP p = pre ++ suf := by
  intro pre
  induction pre with
  | nil =>
      intro x suf _ hx
      simp [List.eraseP_cons, hx]
  | cons a t ih =>
      intro x suf hpre hx
      have hpa : p a = false := hpre a (List.mem_cons_self a t)
      simp only [List.cons_append, List.eraseP_cons, hpa, cond_false]
      rw [ih x suf (fun y hy => hpre y (List.mem_cons_of_mem a hy)) hx]

theorem nodup_split_middle {α : Type} {pre : List α} {a : α} {suf : List α}
    (h : (pre ++ a :: suf).Nodup) : a ∉ pre ∧ a ∉ suf := by
  rw [List.nodup_append] at h
  refine ⟨fun hmem => h.2.2 hmem (List.mem_cons_self a suf), (List.nodup_cons.mp h.2.1).1⟩

/-- What `unregisterPlugin` relies on for one tracked pair: the hook slot
holds a handler list containing a handler that carries the tracked id — as
its unique carrier — and that handler is owned by the plugin. -/
def TrackedOK (hs : HookSystem) (m : String) (e : String × Nat) : Prop :=
  ∃ handlers entry, aget hs.hooks e.1 = some handlers ∧
    entry ∈ handlers ∧ entry.id = e.2 ∧ entry.plugin = some m ∧
    (∀ h ∈ handlers, h.id = e.2 → h = entry)

theorem pair_induction {α : Type} {motive : List α → Prop} (l : List α) (h0 : motive [])
    (h1 : ∀ a, motive [a]) (h2 : ∀ a b t, motive t → motive (a :: b :: t)) :
    motive l := by
  have key : ∀ l2 : List α, motive l2 ∧ ∀ a, motive (a :: l2) := by
    intro l2
    induction l2 with
    | nil => exact ⟨h0, h1⟩
    | cons b t ih => exact ⟨ih.2 b, fun a => h2 a b t ih.1⟩
  exact (key l).1

/-- Dynamics of the `forEach`/splice interaction: starting at index
`pre.length` over the live tracking array `pre ++ rest`, the loop visits
and unregisters exactly the entries at even offsets of `rest` — each
`_unregister` splices the visited entry out, sliding the next entry into
the already-visited slot. -/
theorem unregForEach_eq_evens_fold (m : String) :
    ∀ (rest pre : List (String × Nat)) (hs : HookSystem),
      aget hs.pluginHooks m = some (pre ++ rest) →
      ((pre ++ rest).map Prod.snd).Nodup →
      (akeys hs.hooks).Nodup →
      (∀ e ∈ rest, TrackedOK hs m e) →
      HookSystem.unregForEach m hs pre.length (pre.length + rest.length)
        = (evens rest).foldl (fun acc hn => acc.unregisterById hn.1 hn.2) hs := by
  intro rest
  induction rest using pair_induction with
  | h0 =>
      intro pre hs hq _ _ _
      exact unregForEach_stop m _ _ hs (by rw [hq]; simp)
  | h1 c =>
      intro pre hs hq hnd hkeys hcond
      obtain ⟨handlers, entry, hsl, hmem, hide, hplug, huniq⟩ := hcond c (by simp)
      have hfind : handlers.find? (fun h => h.id == c.2) = some entry :=
        find?_eq_of_unique _ handlers entry hmem (by rw [hide]; simp)
          (fun y hy hpy => huniq y hy (eq_of_beq hpy))
      have hsnd : c.2 ∉ pre.map Prod.snd := by
        have h2' : (pre.map Prod.snd ++ c.2 :: ([] : List Nat)).Nodup := by
          simpa using hnd
        exact (nodup_split_middle h2').1
      have hprefalse : ∀ y ∈ pre, ((y.1 == c.1 && y.2 == c.2) : Bool) = false := by
        intro y hy
        have hne : y.2 ≠ c.2 := fun hcontra =>
          hsnd (hcontra ▸ List.mem_map_of_mem Prod.snd hy)
        rw [beq_false_of_ne hne, Bool.and_false]
      have htr1 : aget (hs.unregisterById c.1 c.2).pluginHooks m = some pre := by
        rw [unregisterById_pluginHooks_found_some_some hs c.1 c.2 handlers entry m
            (pre ++ [c]) hsl hfind hplug hq m, if_pos rfl,
          eraseP_append_singleton_self pre c _ hprefalse (by simp)]
      simp only [List.length_cons, List.length_nil, Nat.zero_add]
      rw [unregForEach_succ, hq]
      simp only [Option.getD_some]
      rw [if_pos (by simp), getD_append_cons]
      rw [unregForEach_stop m pre.length (pre.length + 1) (hs.unregisterById c.1 c.2)
        (by rw [htr1]; simp)]
      rfl
  | h2 c d t ih =>
      intro pre hs hq hnd hkeys hcond
      obtain ⟨handlers, entry, hsl, hmem, hide, hplug, huniq⟩ := hcond c (by simp)
      have hfind : handlers.find? (fun h => h.id == c.2) = some entry :=
        find?_eq_of_unique _ handlers entry hmem (by rw [hide]; simp)
          (fun y hy hpy => huniq y hy (eq_of_beq hpy))
      have hsplit : c.2 ∉ pre.map Prod.snd ∧ c.2 ∉ (d :: t).map Prod.snd := by
        have h2' : (pre.map Prod.snd ++ c.2 :: (d :: t).map Prod.snd).Nodup := by
          simpa using hnd
        exact nodup_split_middle h2'
      have hprefalse : ∀ y ∈ pre, ((y.1 == c.1 && y.2 == c.2) : Bool) = false := by
        intro y hy
        have hne : y.2 ≠ c.2 := fun hcontra =>
          hsplit.1 (hcontra ▸ List.mem_map_of_mem Prod.snd hy)
        rw [beq_false_of_ne hne, Bool.and_false]
      have htr1 : aget (hs.unregisterById c.1 c.2).pluginHooks m
          = some (pre ++ d :: t) := by
        rw [unregisterById_pluginHooks_found_some_some hs c.1 c.2 handlers entry m
            (pre ++ c :: d :: t) hsl hfind hplug hq m, if_pos rfl,
          eraseP_middle _ pre c (d :: t) hprefalse (by simp)]
      have hkeys1 : (akeys (hs.unregisterById c.1 c.2).hooks).Nodup :=
        keysNodup_unregisterById hs hkeys c.1 c.2
      have hnd1 : ((pre ++ d :: t).map Prod.snd).Nodup := by
        refine List.Nodup.sublist ?_ hnd
        exact List.Sublist.map Prod.snd
          (List.Sublist.append_left ((List.Sublist.refl (d :: t)).cons c) pre)
      have hcond1 : ∀ w ∈ t, TrackedOK (hs.unregisterById c.1 c.2) m w := by
        intro w hw
        obtain ⟨whandlers, wentry, hwsl, hwmem, hwid, hwplug, hwuniq⟩ :=
          hcond w (by simp [hw])
        have hwne : w.2 ≠ c.2 := by
          intro hcontra
          exact hsplit.2 (hcontra ▸ List.mem_map_of_mem Prod.snd
            (List.mem_cons_of_mem d hw))
        by_cases hname : w.1 = c.1
        · have hhe : whandlers = handlers := by
            rw [hname] at hwsl
            exact Option.some.inj (hwsl.symm.trans hsl)
          rw [hhe] at hwmem hwuniq
          have hentry_ne : (wentry.id == c.2) = false := by
            rw [hwid]
            exact beq_false_of_ne hwne
          have hmem1 : wentry ∈ handlers.eraseP (fun h => h.id == c.2) :=
            mem_eraseP_of_not hwmem hentry_ne
          have h0 := unregisterById_hooks_found hs c.1 c.2 handlers entry hsl hfind
            hkeys w.1
          rw [if_pos hname, isEmpty_false_of_ne_nil (List.ne_nil_of_mem hmem1)] at h0
          refine ⟨handlers.eraseP (fun h => h.id == c.2), wentry, h0.trans rfl,
            hmem1, hwid, hwplug, ?_⟩
          intro h hh hhid
          exact hwuniq h ((List.eraseP_sublist handlers).subset hh) hhid
        · have h0 := unregisterById_hooks_found hs c.1 c.2 handlers entry hsl hfind
            hkeys w.1
          rw [if_neg hname] at h0
          exact ⟨whandlers, wentry, h0.trans hwsl, hwmem, hwid, hwplug, hwuniq⟩
      simp only [List.length_cons]
      rw [show pre.length + (t.length + 1 + 1) = pre.length + (t.length + 1) + 1 from by
        omega]
      rw [unregForEach_succ, hq]
      simp only [Option.getD_some]
      rw [if_pos (by simp only [List.length_append, List.length_cons]; omega),
        getD_append_cons]
      have hlen1 : (pre ++ [d]).length = pre.length + 1 := by simp
      have happ : pre ++ d :: t = (pre ++ [d]) ++ t := by simp
      have hihinst := ih (pre ++ [d]) (hs.unregisterById c.1 c.2)
        (by rw [htr1, happ]) (by rw [← happ]; exact hnd1) hkeys1 hcond1
      rw [hlen1] at hihinst
      rw [show pre.length + (t.length + 1) = pre.length + 1 + t.length from by omega]
      rw [hihinst, evens_cons_cons, List.foldl_cons]

theorem mkPairs_snd_bound :
    ∀ (tbl : List (String × (JSVal → HandlerOutcome))) (n : Nat) (pr : String × Nat),
      pr ∈ mkPairs n tbl → n ≤ pr.2 ∧ pr.2 < n + tbl.length := by
  intro tbl
  induction tbl with
  | nil => intro n pr h; exact absurd h (List.not_mem_nil pr)
  | cons kv t ih =>
      intro n pr h
      rcases List.mem_cons.mp h with h1 | h2
      · subst h1
        constructor
        · exact Nat.le_refl n
        · show n < n + (kv :: t).length
          simp only [List.length_cons]
          omega
      · have := ih (n + 1) pr h2
        simp only [List.length_cons]
        omega

theorem mkPairs_snd_nodup :
    ∀ (tbl : List (String × (JSVal → HandlerOutcome))) (n : Nat),
      ((mkPairs n tbl).map Prod.snd).Nodup := by
  intro tbl
  induction tbl with
  | nil => intro n; exact List.nodup_nil
  | cons kv t ih =>
      intro n
      rw [show mkPairs n (kv :: t) = (kv.1, n) :: mkPairs (n + 1) t from rfl,
        List.map_cons]
      refine List.nodup_cons.mpr ⟨?_, ih (n + 1)⟩
      intro hmem
      rcases List.mem_map.mp hmem with ⟨pr, hpr, hsnd⟩
      have hb := mkPairs_snd_bound t (n + 1) pr hpr
      omega

theorem registerLM_preserves_entry (m2 : String) :
    ∀ (rest : List (String × (JSVal → HandlerOutcome))) (x : HookSystem) (n : String)
      (tid : Nat) (handlers : List HookEntry) (entry : HookEntry),
      aget x.hooks n = some handlers → entry ∈ handlers →
      (∀ h ∈ handlers, h.id = tid → h = entry) → tid < x.nextId →
      ∃ handlers2, aget (registerPluginHooksLM x m2 rest).hooks n = some handlers2 ∧
        entry ∈ handlers2 ∧ ∀ h ∈ handlers2, h.id = tid → h = entry := by
  intro rest
  induction rest with
  | nil =>
      intro x n tid handlers entry hsl hmem huniq htid
      exact ⟨handlers, hsl, hmem, huniq⟩
  | cons kv r ih =>
      intro x n tid handlers entry hsl hmem huniq htid
      rw [registerPluginHooksLM_cons]
      by_cases hn : n = kv.1
      · have hsl2 : aget (x.register kv.1 kv.2 (fun _ => false) 50 false
            (some m2)).hooks n
            = some (sortByPriority (handlers
              ++ [⟨kv.2, fun _ => false, 50, false, some m2, x.nextId⟩])) := by
          rw [register_hooks_eq, if_pos hn, ← hn, hsl]
          rfl
        have hmem2 : entry ∈ sortByPriority (handlers
            ++ [⟨kv.2, fun _ => false, 50, false, some m2, x.nextId⟩]) :=
          (mem_sortByPriority _ _).mpr (List.mem_append_left _ hmem)
        have huniq2 : ∀ h ∈ sortByPriority (handlers
            ++ [⟨kv.2, fun _ => false, 50, false, some m2, x.nextId⟩]),
            h.id = tid → h = entry := by
          intro h hh hhid
          rcases List.mem_append.mp ((mem_sortByPriority _ _).mp hh) with h1 | h1
          · exact huniq h h1 hhid
          · have h2' : h = ⟨kv.2, fun _ => false, 50, false, some m2, x.nextId⟩ := by
              simpa using h1
            rw [h2'] at hhid
            exact absurd hhid (by simp only []; omega)
        exact ih _ n tid _ entry hsl2 hmem2 huniq2 (by rw [register_nextId_eq]; omega)
      · have hsl2 : aget (x.register kv.1 kv.2 (fun _ => false) 50 false
            (some m2)).hooks n = some handlers := by
          rw [register_hooks_eq, if_neg hn]
          exact hsl
        exact ih _ n tid _ entry hsl2 hmem huniq (by rw [register_nextId_eq]; omega)

theorem registerLM_cond (m : String) :
    ∀ (tbl : List (String × (JSVal → HandlerOutcome))) (x : HookSystem), GoodHS x →
      ∀ e ∈ mkPairs x.nextId tbl, TrackedOK (registerPluginHooksLM x m tbl) m e := by
  intro tbl
  induction tbl with
  | nil =>
      intro x _ e he
      exact absurd he (List.not_mem_nil e)
  | cons kv t ih =>
      intro x hg e he
      rw [registerPluginHooksLM_cons]
      rw [show mkPairs x.nextId (kv :: t)
          = (kv.1, x.nextId) :: mkPairs (x.nextId + 1) t from rfl] at he
      rcases List.mem_cons.mp he with h1 | h2
      · subst h1
        have hsl1 : aget (x.register kv.1 kv.2 (fun _ => false) 50 false
            (some m)).hooks kv.1
            = some (sortByPriority (((aget x.hooks kv.1).getD [])
              ++ [⟨kv.2, fun _ => false, 50, false, some m, x.nextId⟩])) := by
          rw [register_hooks_eq, if_pos rfl]
        have hmem1 : (⟨kv.2, fun _ => false, 50, false, some m, x.nextId⟩ : HookEntry)
            ∈ sortByPriority (((aget x.hooks kv.1).getD [])
              ++ [⟨kv.2, fun _ => false, 50, false, some m, x.nextId⟩]) :=
          (mem_sortByPriority _ _).mpr (List.mem_append_right _ (by simp))
        have huniq1 : ∀ h ∈ sortByPriority (((aget x.hooks kv.1).getD [])
            ++ [⟨kv.2, fun _ => false, 50, false, some m, x.nextId⟩]),
            h.id = x.nextId
              → h = ⟨kv.2, fun _ => false, 50, false, some m, x.nextId⟩ := by
          intro h hh hhid
          rcases List.mem_append.mp ((mem_sortByPriority _ _).mp hh) with hA | hA
          · cases hxsl : aget x.hooks kv.1 with
            | none =>
                rw [hxsl] at hA
                exact absurd hA (List.not_mem_nil h)
            | some l =>
                rw [hxsl] at hA
                simp only [Option.getD_some] at hA
                exact absurd hhid (Nat.ne_of_lt (hg.2.2.1 kv.1 l hxsl h hA))
          · simpa using hA
        obtain ⟨handlers2, hsl2, hmem2, huniq2⟩ :=
          registerLM_preserves_entry m t
            (x.register kv.1 kv.2 (fun _ => false) 50 false (some m)) kv.1 x.nextId _ _
            hsl1 hmem1 huniq1 (by rw [register_nextId_eq]; omega)
        exact ⟨handlers2, ⟨kv.2, fun _ => false, 50, false, some m, x.nextId⟩,
          hsl2, hmem2, rfl, rfl, huniq2⟩
      · have hgx1 := goodHS_register x hg kv.1 kv.2 (fun _ => false) 50 false (some m)
        have hrest := ih (x.register kv.1 kv.2 (fun _ => false) 50 false (some m)) hgx1
        rw [register_nextId_eq] at hrest
        exact hrest e h2

theorem filter_insertEntry_neg (p : HookEntry → Bool) (e : HookEntry) (hpe : p e = false) :
    ∀ l : List HookEntry, (insertEntry l e).filter p = l.filter p := by
  intro l
  induction l with
  | nil => simp [insertEntry, hpe]
  | cons a t ih =>
      rw [insertEntry]
      by_cases hle : a.priority ≤ e.priority
      · rw [if_pos hle, List.filter_cons, List.filter_cons, ih]
      · rw [if_neg hle, List.filter_cons, hpe]
        simp

theorem filter_eq_self_of_lt (l : List HookEntry) (b : Nat)
    (h : ∀ x ∈ l, x.id < b) :
    l.filter (fun x => decide (x.id < b)) = l :=
  List.filter_eq_self.mpr (fun x hx => by simp [h x hx])

theorem filter_lt_filter_lt (b c2 : Nat) (hbc : b ≤ c2) :
    ∀ l : List HookEntry,
      (l.filter (fun x => decide (x.id < c2))).filter (fun x => decide (x.id < b))
        = l.filter (fun x => decide (x.id < b)) := by
  intro l
  induction l with
  | nil => rfl
  | cons a t ih =>
      by_cases hdb : a.id < b
      · have hdc : a.id < c2 := lt_of_lt_of_le hdb hbc
        simp [List.filter_cons, hdb, hdc, ih]
      · by_cases hdc : a.id < c2
        · simp [List.filter_cons, hdb, hdc, ih]
        · simp [List.filter_cons, hdb, hdc, ih]

/-- The hook-system state the rollback actually reaches: the declared
block is registered and then only the even-positioned tracked pairs are
unregistered (the `forEach`/splice skip). -/
def rollFold (m : String) (tbl : List (String × (JSVal → HandlerOutcome)))
    (x : HookSystem) : HookSystem :=
  (evens (mkPairs x.nextId tbl)).foldl (fun acc hn => acc.unregisterById hn.1 hn.2)
    (registerPluginHooksLM x m tbl)

/-- Effect of the rollback fold: pre-existing handlers survive in order,
everything else in the table is an odd-positioned block handler, each
odd-positioned block handler is still installed, and other plugins keep
their tracking. -/
theorem registerLM_unregEvens (m : String) :
    ∀ (tbl : List (String × (JSVal → HandlerOutcome))) (x : HookSystem), GoodHS x →
      (∀ pr ∈ (aget x.pluginHooks m).getD [], pr.2 < x.nextId) →
      (∀ n, ((aget (rollFold m tbl x).hooks n).getD []).filter
          (fun h => decide (h.id < x.nextId)) = (aget x.hooks n).getD []) ∧
      (∀ n h, h ∈ (aget (rollFold m tbl x).hooks n).getD [] →
          h ∈ (aget x.hooks n).getD [] ∨
          ∃ i, i < tbl.length ∧ i % 2 = 1 ∧ h.id = x.nextId + i) ∧
      (∀ i (hi : i < tbl.length), i % 2 = 1 →
          ∃ h, h ∈ (aget (rollFold m tbl x).hooks (tbl.get ⟨i, hi⟩).1).getD [] ∧
            h.id = x.nextId + i ∧ h.run = (tbl.get ⟨i, hi⟩).2 ∧ h.plugin = some m) ∧
      (∀ p, p ≠ m → aget (rollFold m tbl x).pluginHooks p = aget x.pluginHooks p) := by
  intro tbl
  induction tbl using pair_induction with
  | h0 =>
      intro x hg htrack
      refine ⟨?_, ?_, ?_, ?_⟩
      · intro n
        show ((aget x.hooks n).getD []).filter (fun h => decide (h.id < x.nextId))
          = (aget x.hooks n).getD []
        cases hsl : aget x.hooks n with
        | none => rfl
        | some l =>
            simp only [Option.getD_some]
            exact filter_eq_self_of_lt l x.nextId (hg.2.2.1 n l hsl)
      · intro n h hh
        exact Or.inl hh
      · intro i hi _
        exact absurd hi (Nat.not_lt_zero i)
      · intro p _
        rfl
  | h1 kv =>
      intro x hg htrack
      have hcan := register_unregister_cancel x hg m kv.1 kv.2 (fun _ => false) false
        htrack
      have hR : rollFold m [kv] x
          = (x.register kv.1 kv.2 (fun _ => false) 50 false (some m)).unregisterById
              kv.1 x.nextId := rfl
      refine ⟨?_, ?_, ?_, ?_⟩
      · intro n
        rw [hR, hcan.1 n]
        cases hsl : aget x.hooks n with
        | none => rfl
        | some l =>
            simp only [Option.getD_some]
            exact filter_eq_self_of_lt l x.nextId (hg.2.2.1 n l hsl)
      · intro n h hh
        rw [hR, hcan.1 n] at hh
        exact Or.inl hh
      · intro i hi hodd
        simp only [List.length_cons, List.length_nil] at hi
        exact absurd hodd (by omega)
      · intro p hp
        rw [hR]
        exact hcan.2.1 p hp
  | h2 kv0 kv1 rest ih =>
      intro x hg htrack
      have hg1 : GoodHS (x.register kv0.1 kv0.2 (fun _ => false) 50 false (some m)) :=
        goodHS_register x hg kv0.1 kv0.2 (fun _ => false) 50 false (some m)
      have hg2 : GoodHS ((x.register kv0.1 kv0.2 (fun _ => false) 50 false
          (some m)).register kv1.1 kv1.2 (fun _ => false) 50 false (some m)) :=
        goodHS_register _ hg1 kv1.1 kv1.2 (fun _ => false) 50 false (some m)
      have hcan := register_unregister_cancel x hg m kv0.1 kv0.2 (fun _ => false) false
        htrack
      have hgy : GoodHS ((x.register kv0.1 kv0.2 (fun _ => false) 50 false
          (some m)).unregisterById kv0.1 x.nextId) :=
        goodHS_unregisterById _ hg1 kv0.1 x.nextId
      have hgx2 : GoodHS (((x.register kv0.1 kv0.2 (fun _ => false) 50 false
          (some m)).unregisterById kv0.1 x.nextId).register kv1.1 kv1.2
          (fun _ => false) 50 false (some m)) :=
        goodHS_register _ hgy kv1.1 kv1.2 (fun _ => false) 50 false (some m)
      have hx2next : (((x.register kv0.1 kv0.2 (fun _ => false) 50 false
          (some m)).unregisterById kv0.1 x.nextId).register kv1.1 kv1.2
          (fun _ => false) 50 false (some m)).nextId = x.nextId + 1 + 1 := by
        rw [register_nextId_eq, hcan.2.2.2]
      have hroll : rollFold m (kv0 :: kv1 :: rest) x
          = (evens (mkPairs (x.nextId + 1 + 1) rest)).foldl
              (fun acc hn => acc.unregisterById hn.1 hn.2)
              ((registerPluginHooksLM ((x.register kv0.1 kv0.2 (fun _ => false) 50
                  false (some m)).register kv1.1 kv1.2 (fun _ => false) 50 false
                  (some m)) m rest).unregisterById kv0.1 x.nextId) := rfl
      have hcomm1 := unregister_registerLM_comm m rest
          ((x.register kv0.1 kv0.2 (fun _ => false) 50 false (some m)).register kv1.1
            kv1.2 (fun _ => false) 50 false (some m)) hg2 kv0.1 x.nextId
          (by rw [register_nextId_eq, register_nextId_eq]; omega)
      have hcomm2 := unregister_register_comm
          (x.register kv0.1 kv0.2 (fun _ => false) 50 false (some m)) hg1 kv1.1 kv1.2
          (fun _ => false) false m kv0.1 x.nextId (by rw [register_nextId_eq]; omega)
      have hstep : HSEquiv
          ((registerPluginHooksLM ((x.register kv0.1 kv0.2 (fun _ => false) 50 false
              (some m)).register kv1.1 kv1.2 (fun _ => false) 50 false (some m))
            m rest).unregisterById kv0.1 x.nextId)
          (registerPluginHooksLM (((x.register kv0.1 kv0.2 (fun _ => false) 50 false
              (some m)).unregisterById kv0.1 x.nextId).register kv1.1 kv1.2
              (fun _ => false) 50 false (some m)) m rest) :=
        hsEquiv_trans hcomm1 (registerPluginHooksLM_congr hcomm2 m rest)
      have hfold : HSEquiv (rollFold m (kv0 :: kv1 :: rest) x)
          ((evens (mkPairs (x.nextId + 1 + 1) rest)).foldl
            (fun acc hn => acc.unregisterById hn.1 hn.2)
            (registerPluginHooksLM (((x.register kv0.1 kv0.2 (fun _ => false) 50 false
                (some m)).unregisterById kv0.1 x.nextId).register kv1.1 kv1.2
                (fun _ => false) 50 false (some m)) m rest)) := by
        rw [hroll]
        exact unregFold_congr _ hstep
          (keysNodup_unregisterById _ (goodHS_registerPluginHooksLM _ hg2 m rest).1
            kv0.1 x.nextId)
          (goodHS_registerPluginHooksLM _ hgx2 m rest).1
      have htrack2 : ∀ pr ∈ (aget (((x.register kv0.1 kv0.2 (fun _ => false) 50 false
          (some m)).unregisterById kv0.1 x.nextId).register kv1.1 kv1.2
          (fun _ => false) 50 false (some m)).pluginHooks m).getD [],
          pr.2 < (((x.register kv0.1 kv0.2 (fun _ => false) 50 false
          (some m)).unregisterById kv0.1 x.nextId).register kv1.1 kv1.2
          (fun _ => false) 50 false (some m)).nextId := by
        rw [hx2next, register_pluginHooks_some, if_pos rfl, hcan.2.2.1, hcan.2.2.2]
        intro pr hpr
        simp only [Option.getD_some] at hpr
        rcases List.mem_append.mp hpr with hA | hA
        · have := htrack pr hA
          omega
        · have hpr1 : pr = (kv1.1, x.nextId + 1) := by simpa using hA
          rw [hpr1]
          show x.nextId + 1 < x.nextId + 1 + 1
          omega
      have hihA := ih (((x.register kv0.1 kv0.2 (fun _ => false) 50 false
          (some m)).unregisterById kv0.1 x.nextId).register kv1.1 kv1.2
          (fun _ => false) 50 false (some m)) hgx2 htrack2
      have hroll2 : rollFold m rest (((x.register kv0.1 kv0.2 (fun _ => false) 50 false
          (some m)).unregisterById kv0.1 x.nextId).register kv1.1 kv1.2
          (fun _ => false) 50 false (some m))
          = (evens (mkPairs (x.nextId + 1 + 1) rest)).foldl
              (fun acc hn => acc.unregisterById hn.1 hn.2)
              (registerPluginHooksLM (((x.register kv0.1 kv0.2 (fun _ => false) 50
                  false (some m)).unregisterById kv0.1 x.nextId).register kv1.1 kv1.2
                  (fun _ => false) 50 false (some m)) m rest) := by
        unfold rollFold
        rw [hx2next]
      rw [hx2next, hroll2] at hihA
      have hx2hooks : ∀ k, aget (((x.register kv0.1 kv0.2 (fun _ => false) 50 false
          (some m)).unregisterById kv0.1 x.nextId).register kv1.1 kv1.2
          (fun _ => false) 50 false (some m)).hooks k
          = if k = kv1.1 then
              some (sortByPriority (((aget x.hooks kv1.1).getD [])
                ++ [⟨kv1.2, fun _ => false, 50, false, some m, x.nextId + 1⟩]))
            else aget x.hooks k := by
        intro k
        rw [register_hooks_eq, hcan.1 kv1.1, hcan.2.2.2]
        by_cases hk : k = kv1.1
        · rw [if_pos hk, if_pos hk]
        · rw [if_neg hk, if_neg hk, hcan.1 k]
      refine ⟨?_, ?_, ?_, ?_⟩
      · intro n
        rw [hfold.1 n,
          ← filter_lt_filter_lt x.nextId (x.nextId + 1 + 1) (by omega)
            ((aget ((evens (mkPairs (x.nextId + 1 + 1) rest)).foldl
              (fun acc hn => acc.unregisterById hn.1 hn.2)
              (registerPluginHooksLM (((x.register kv0.1 kv0.2 (fun _ => false) 50
                  false (some m)).unregisterById kv0.1 x.nextId).register kv1.1 kv1.2
                  (fun _ => false) 50 false (some m)) m rest)).hooks n).getD []),
          hihA.1 n, hx2hooks n]
        by_cases hk : n = kv1.1
        · rw [if_pos hk, hk]
          simp only [Option.getD_some]
          cases hsl : aget x.hooks kv1.1 with
          | none =>
              show (sortByPriority ([] ++ [⟨kv1.2, fun _ => false, 50, false, some m,
                  x.nextId + 1⟩])).filter (fun h => decide (h.id < x.nextId)) = []
              show ([⟨kv1.2, fun _ => false, 50, false, some m, x.nextId + 1⟩] :
                  List HookEntry).filter (fun h => decide (h.id < x.nextId)) = []
              rw [List.filter_cons]
              simp only []
              rw [decide_eq_false (by show ¬ x.nextId + 1 < x.nextId; omega)]
              rfl
          | some l =>
              simp only [Option.getD_some]
              rw [sortByPriority_sorted_append l _ (hg.2.2.2.1 kv1.1 l hsl),
                filter_insertEntry_neg (fun h => decide (h.id < x.nextId))
                  ⟨kv1.2, fun _ => false, 50, false, some m, x.nextId + 1⟩
                  (by show (decide (x.nextId + 1 < x.nextId)) = false
                      exact decide_eq_false (by omega)) l,
                filter_eq_self_of_lt l x.nextId (hg.2.2.1 kv1.1 l hsl)]
        · rw [if_neg hk]
          cases hsl : aget x.hooks n with
          | none => rfl
          | some l =>
              simp only [Option.getD_some]
              exact filter_eq_self_of_lt l x.nextId (hg.2.2.1 n l hsl)
      · intro n h hh
        rw [hfold.1 n] at hh
        rcases hihA.2.1 n h hh with hA | ⟨j, hj, hjodd, hjid⟩
        · rw [hx2hooks n] at hA
          by_cases hk : n = kv1.1
          · rw [if_pos hk] at hA
            simp only [Option.getD_some] at hA
            rcases List.mem_append.mp ((mem_sortByPriority _ _).mp hA) with hB | hB
            · left
              rw [hk]
              exact hB
            · right
              have hBe : h = ⟨kv1.2, fun _ => false, 50, false, some m,
                  x.nextId + 1⟩ := by
                simpa using hB
              refine ⟨1, by simp only [List.length_cons]; omega, rfl, ?_⟩
              rw [hBe]
          · rw [if_neg hk] at hA
            exact Or.inl hA
        · right
          refine ⟨j + 2, ?_, ?_, ?_⟩
          · simp only [List.length_cons]
            omega
          · omega
          · omega
      · intro i hi hodd
        cases i with
        | zero => exact absurd hodd (by decide)
        | succ i1 =>
            cases i1 with
            | zero =>
                have hstep1 : (⟨kv1.2, fun _ => false, 50, false, some m,
                    x.nextId + 1⟩ : HookEntry)
                    ∈ ((aget (((x.register kv0.1 kv0.2 (fun _ => false) 50 false
                      (some m)).unregisterById kv0.1 x.nextId).register kv1.1 kv1.2
                      (fun _ => false) 50 false (some m)).hooks kv1.1).getD []) := by
                  rw [hx2hooks kv1.1, if_pos rfl]
                  simp only [Option.getD_some]
                  exact (mem_sortByPriority _ _).mpr (List.mem_append_right _ (by simp))
                rw [← hihA.1 kv1.1] at hstep1
                have hm1 : (⟨kv1.2, fun _ => false, 50, false, some m,
                    x.nextId + 1⟩ : HookEntry)
                    ∈ ((aget (rollFold m (kv0 :: kv1 :: rest) x).hooks kv1.1).getD
                      []) := by
                  rw [hfold.1 kv1.1]
                  exact List.mem_of_mem_filter hstep1
                exact ⟨⟨kv1.2, fun _ => false, 50, false, some m, x.nextId + 1⟩,
                  hm1, rfl, rfl, rfl⟩
            | succ j =>
                have hj : j < rest.length := by
                  simp only [List.length_cons] at hi
                  omega
                have hjodd : j % 2 = 1 := by omega
                obtain ⟨h, hmemh, hidh, hrunh, hplugh⟩ := hihA.2.2.1 j hj hjodd
                rw [← hfold.1 ((rest.get ⟨j, hj⟩).1)] at hmemh
                exact ⟨h, hmemh, by omega, hrunh, hplugh⟩
      · intro p hp
        rw [hfold.2.1 p, hihA.2.2.2 p hp, register_pluginHooks_some, if_neg hp,
          hcan.2.1 p hp]

/-- What the rollback of a failed start leaves behind when plugin `m`
owned no hooks before the attempt: pre-existing handlers survive in
order, only odd-positioned block handlers are left besides them (the
even-positioned ones are unregistered, the odd-positioned ones are
skipped by the `forEach`/splice interaction and stay installed), and the
plugin tracking is exactly as before the attempt. -/
theorem unregisterPlugin_registerLM_partial (x : HookSystem) (hg : GoodHS x) (m : String)
    (tbl : List (String × (JSVal → HandlerOutcome)))
    (hown : aget x.pluginHooks m = none) :
    (∀ n, ((aget ((registerPluginHooksLM x m tbl).unregisterPlugin m).hooks n).getD
        []).filter (fun h => decide (h.id < x.nextId)) = (aget x.hooks n).getD []) ∧
    (∀ n h, h ∈ (aget ((registerPluginHooksLM x m tbl).unregisterPlugin m).hooks
        n).getD [] → h ∈ (aget x.hooks n).getD [] ∨
        ∃ i, i < tbl.length ∧ i % 2 = 1 ∧ h.id = x.nextId + i) ∧
    (∀ i (hi : i < tbl.length), i % 2 = 1 →
        ∃ h, h ∈ (aget ((registerPluginHooksLM x m tbl).unregisterPlugin m).hooks
          (tbl.get ⟨i, hi⟩).1).getD [] ∧
          h.id = x.nextId + i ∧ h.run = (tbl.get ⟨i, hi⟩).2 ∧ h.plugin = some m) ∧
    (∀ p, aget ((registerPluginHooksLM x m tbl).unregisterPlugin m).pluginHooks p
        = aget x.pluginHooks p) := by
  cases tbl with
  | nil =>
      rw [show registerPluginHooksLM x m [] = x from rfl,
        unregisterPlugin_eq_none x m hown]
      refine ⟨?_, ?_, ?_, fun _ => rfl⟩
      · intro n
        cases hsl : aget x.hooks n with
        | none => rfl
        | some l =>
            simp only [Option.getD_some]
            exact filter_eq_self_of_lt l x.nextId (hg.2.2.1 n l hsl)
      · intro n h hh
        exact Or.inl hh
      · intro i hi _
        exact absurd hi (Nat.not_lt_zero i)
  | cons kv rest =>
      have htrack0 : ∀ pr ∈ (aget x.pluginHooks m).getD [], pr.2 < x.nextId := by
        rw [hown]
        intro pr hpr
        exact absurd hpr (List.not_mem_nil pr)
      have hslot : aget (registerPluginHooksLM x m (kv :: rest)).pluginHooks m
          = some (mkPairs x.nextId (kv :: rest)) := by
        rw [registerPluginHooksLM_pluginHooks_m x m _ (List.cons_ne_nil _ _), hown]
        rfl
      have hmain := registerLM_unregEvens m (kv :: rest) x hg htrack0
      have hgfold : GoodHS (rollFold m (kv :: rest) x) := by
        show GoodHS ((evens (mkPairs x.nextId (kv :: rest))).foldl
          (fun acc hn => acc.unregisterById hn.1 hn.2)
          (registerPluginHooksLM x m (kv :: rest)))
        exact goodHS_unregFold _ _ (goodHS_registerPluginHooksLM x hg m _)
      have heval : (registerPluginHooksLM x m (kv :: rest)).unregisterPlugin m
          = { rollFold m (kv :: rest) x with
              pluginHooks := adel (rollFold m (kv :: rest) x).pluginHooks m } := by
        unfold HookSystem.unregisterPlugin
        rw [hslot]
        simp only []
        have hred := unregForEach_eq_evens_fold m (mkPairs x.nextId (kv :: rest)) []
          (registerPluginHooksLM x m (kv :: rest)) hslot
          (mkPairs_snd_nodup (kv :: rest) x.nextId)
          (goodHS_registerPluginHooksLM x hg m (kv :: rest)).1
          (registerLM_cond m (kv :: rest) x hg)
        simp only [List.length_nil, Nat.zero_add] at hred
        rw [hred]
        rfl
      refine ⟨?_, ?_, ?_, ?_⟩
      · intro n
        rw [heval]
        show ((aget (rollFold m (kv :: rest) x).hooks n).getD []).filter
          (fun h => decide (h.id < x.nextId)) = (aget x.hooks n).getD []
        exact hmain.1 n
      · intro n h hh
        rw [heval] at hh
        exact hmain.2.1 n h hh
      · intro i hi hodd
        obtain ⟨h, hmemh, hidh, hrunh, hplugh⟩ := hmain.2.2.1 i hi hodd
        rw [heval]
        exact ⟨h, hmemh, hidh, hrunh, hplugh⟩
      · intro p
        rw [heval]
        show aget (adel (rollFold m (kv :: rest) x).pluginHooks m) p
          = aget x.pluginHooks p
        rw [aget_adel_eq _ _ _ hgfold.2.1]
        by_cases hp : p = m
        · rw [if_pos hp, hp, hown]
        · rw [if_neg hp]
          exact hmain.2.2.2 p hp

theorem rollbackLM_eval (st : CoreSt) (m : String) (snap : Snapshot)
    (h : aget st.snapshots m = some snap) :
    rollbackLM st m = { st with
      hookSys := st.hookSys.unregisterPlugin m,
      registry := st.registry.setState m snap.state,
      snapshots := adel st.snapshots m } := by
  unfold rollbackLM
  rw [h]

theorem registry_rollback_error (reg : Registry) (m : String) (s2 : PState) (e : String) :
    ((reg.setState m PState.STARTING).setState m s2).setError m e
      = { reg with states := aset reg.states m PState.ERROR,
                   errors := aset reg.errors m e } := by
  unfold Registry.setError Registry.setState
  simp only []
  rw [aset_aset, aset_aset]

/-- C2 [amended]: for a startable module with declared hook table `tbl`
whose `start` throws, `startPlugin` reports failure but rolls back only
partially.  The registry state is NOT restored: the error is recorded and
the state is forced to ERROR.  The hook rollback is also incomplete: the
plugin tracking and the snapshot are restored and every pre-existing
handler survives in order, but `unregisterPlugin` — a `forEach` over the
live tracking array that `_unregister` splices — removes only the
even-positioned block registrations, so every odd-positioned declared
handler is still installed after the rollback (and nothing else is). -/
theorem c2_start_failure_rollback (st : CoreSt) (m : String) (inst : PluginInstance)
    (tbl : List (String × (JSVal → HandlerOutcome))) (e : String)
    (hstate : st.registry.getState m = PState.LOADED
      ∨ st.registry.getState m = PState.STOPPED)
    (hinst : st.registry.getInstance m = some inst)
    (hhooks : inst.hooks = some tbl)
    (hstart : inst.start = some (Except.error e))
    (hdep : (st.registry.checkDependencies m).1 = true)
    (hconf : (st.registry.checkConflicts m).1 = false)
    (hg : GoodHS st.hookSys)
    (hown : aget st.hookSys.pluginHooks m = none)
    (hsnap : m ∉ akeys st.snapshots) :
    ∃ st' tr, startPlugin st m = Except.ok (false, st', tr) ∧
      (∀ n, ((aget st'.hookSys.hooks n).getD []).filter
          (fun h => decide (h.id < st.hookSys.nextId))
        = (aget st.hookSys.hooks n).getD []) ∧
      (∀ n h, h ∈ (aget st'.hookSys.hooks n).getD [] →
          h ∈ (aget st.hookSys.hooks n).getD [] ∨
          ∃ i, i < tbl.length ∧ i % 2 = 1 ∧ h.id = st.hookSys.nextId + i) ∧
      (∀ i (hi : i < tbl.length), i % 2 = 1 →
          ∃ h, h ∈ (aget st'.hookSys.hooks (tbl.get ⟨i, hi⟩).1).getD [] ∧
            h.id = st.hookSys.nextId + i ∧ h.run = (tbl.get ⟨i, hi⟩).2 ∧
            h.plugin = some m) ∧
      (∀ p, aget st'.hookSys.pluginHooks p = aget st.hookSys.pluginHooks p) ∧
      st'.registry = { st.registry with
        states := aset st.registry.states m PState.ERROR,
        errors := aset st.registry.errors m e } ∧
      st'.registry.getState m = PState.ERROR ∧
      st'.registry.getError m = some e ∧
      st'.snapshots = st.snapshots := by
  have hactive : ¬ st.registry.getState m = PState.ACTIVE := by
    rcases hstate with h | h <;> rw [h] <;> decide
  have hnotboth : ¬ (st.registry.getState m ≠ PState.LOADED
      ∧ st.registry.getState m ≠ PState.STOPPED) := by
    rcases hstate with h | h <;> simp [h]
  have hpartial := unregisterPlugin_registerLM_partial st.hookSys hg m tbl hown
  unfold startPlugin
  simp only []
  rw [if_neg hactive, if_neg hnotboth,
    if_neg (show ¬ ((!(st.registry.checkDependencies m).1) = true) by simp [hdep]),
    if_neg (show ¬ ((st.registry.checkConflicts m).1 = true) by simp [hconf]),
    hinst]
  simp only []
  rw [hhooks]
  cases hsettings : inst.settings with
  | none =>
      simp only []
      rw [hstart]
      simp only []
      rw [rollbackLM_eval _ m ⟨st.registry.getState m,
          (st.hookSys.getPluginHooks m).length⟩ (aget_aset_self _ _ _)]
      refine ⟨_, _, rfl, ?_, ?_, ?_, ?_, ?_, ?_, ?_, ?_⟩
      · exact hpartial.1
      · exact hpartial.2.1
      · exact hpartial.2.2.1
      · exact hpartial.2.2.2
      · exact registry_rollback_error st.registry m _ e
      · exact getState_setError_self _ m e
      · exact getError_setError_self _ m e
      · exact adel_aset_of_not_mem _ _ _ hsnap
  | some schema =>
      simp only []
      rw [hstart]
      simp only []
      rw [rollbackLM_eval _ m ⟨st.registry.getState m,
          (st.hookSys.getPluginHooks m).length⟩ (aget_aset_self _ _ _)]
      refine ⟨_, _, rfl, ?_, ?_, ?_, ?_, ?_, ?_, ?_, ?_⟩
      · exact hpartial.1
      · exact hpartial.2.1
      · exact hpartial.2.2.1
      · exact hpartial.2.2.2
      · exact registry_rollback_error st.registry m _ e
      · exact getState_setError_self _ m e
      · exact getError_setError_self _ m e
      · exact adel_aset_of_not_mem _ _ _ hsnap

def c2Manifest : Manifest := ⟨"p", "P", "1.0.0", "", [], [], []⟩

/-- The two-hook table the counterexample module declares. -/
def c2Tbl : List (String × (JSVal → HandlerOutcome)) :=
  [("alpha", fun _ => Except.ok none), ("beta", fun _ => Except.ok none)]

/-- A module instance that declares two hook handlers and whose start
lifecycle method throws. -/
def c2Inst : PluginInstance :=
  ⟨some c2Tbl, none, none, some (Except.error "boom"), none, none⟩

def c2Reg : Registry :=
  { manifests := [("p", c2Manifest)],
    instances := [("p", c2Inst)],
    states := [("p", PState.LOADED)],
    errors := [],
    dependencies := [("p", [])],
    dependents := [] }

def c2St : CoreSt := ⟨c2Reg, ⟨[], [], 0⟩, ⟨⟨"1.0.0", [], []⟩, []⟩, []⟩

/-- C2 counterexample: the LOADED module p declares two hooks and its
start throws.  After the failed start the registry state is ERROR (not
the pre-call LOADED), the first declared handler is gone, but the second
declared handler — skipped by the `forEach`/splice interaction in
`unregisterPlugin` — is still installed, so neither the registry state
nor the hook table is restored to what it was before the call. -/
theorem c2_counterexample :
    c2St.registry.getState "p" = PState.LOADED ∧
    aget c2St.hookSys.hooks "beta" = none ∧
    ∃ st' tr, startPlugin c2St "p" = Except.ok (false, st', tr) ∧
      aget st'.hookSys.hooks "alpha" = none ∧
      ((aget st'.hookSys.hooks "beta").getD []).map (fun h => h.id) = [1] ∧
      ((aget st'.hookSys.hooks "beta").getD []).map (fun h => h.plugin)
        = [some "p"] ∧
      st'.registry.getState "p" = PState.ERROR := by
  refine ⟨rfl, rfl, _, _, rfl, rfl, rfl, rfl, rfl⟩

/-- Witness for the amended C2 theorem at the concrete two-hook failing
module. -/
theorem c2_start_failure_rollback_witness :
    (c2St.registry.getState "p" = PState.LOADED ∨
      c2St.registry.getState "p" = PState.STOPPED) ∧
    c2St.registry.getInstance "p" = some c2Inst ∧
    c2Inst.hooks = some c2Tbl ∧
    c2Inst.start = some (Except.error "boom") ∧
    (c2St.registry.checkDependencies "p").1 = true ∧
    (c2St.registry.checkConflicts "p").1 = false ∧
    GoodHS c2St.hookSys ∧
    aget c2St.hookSys.pluginHooks "p" = none ∧
    "p" ∉ akeys c2St.snapshots ∧
    (∃ st' tr, startPlugin c2St "p" = Except.ok (false, st', tr) ∧
      (∀ n, ((aget st'.hookSys.hooks n).getD []).filter
          (fun h => decide (h.id < c2St.hookSys.nextId))
        = (aget c2St.hookSys.hooks n).getD []) ∧
      (∀ n h, h ∈ (aget st'.hookSys.hooks n).getD [] →
          h ∈ (aget c2St.hookSys.hooks n).getD [] ∨
          ∃ i, i < c2Tbl.length ∧ i % 2 = 1 ∧ h.id = c2St.hookSys.nextId + i) ∧
      (∀ i (hi : i < c2Tbl.length), i % 2 = 1 →
          ∃ h, h ∈ (aget st'.hookSys.hooks (c2Tbl.get ⟨i, hi⟩).1).getD [] ∧
            h.id = c2St.hookSys.nextId + i ∧ h.run = (c2Tbl.get ⟨i, hi⟩).2 ∧
            h.plugin = some "p") ∧
      (∀ p, aget st'.hookSys.pluginHooks p = aget c2St.hookSys.pluginHooks p) ∧
      st'.registry = { c2St.registry with
        states := aset c2St.registry.states "p" PState.ERROR,
        errors := aset c2St.registry.errors "p" "boom" } ∧
      st'.registry.getState "p" = PState.ERROR ∧
      st'.registry.getError "p" = some "boom" ∧
      st'.snapshots = c2St.snapshots) := by
  have hg : GoodHS c2St.hookSys :=
    ⟨List.nodup_nil, List.nodup_nil, fun n hl h => Option.noConfusion h,
     fun n hl h => Option.noConfusion h, fun n hl h => Option.noConfusion h⟩
  exact ⟨Or.inl rfl, rfl, rfl, rfl, rfl, rfl, hg, rfl, List.not_mem_nil _,
    c2_start_failure_rollback c2St "p" c2Inst c2Tbl "boom" (Or.inl rfl) rfl rfl rfl
      rfl rfl hg rfl (List.not_mem_nil _)⟩

end Blx
